import Mathlib

/-!
DlgJsonParser: JSON to reflected-structure deserialization

A shallow embedding of `Plugins/DlgSystem/Source/DlgSystem/Private/IO/DlgJsonParser.cpp`.

Modelling decisions, all visible in the definitions below:

* A JSON value is a finite tree (`Json`); shared pointers of the tree are never
  null, as a JSON reader produces them, so the `IsValid()` guards of the source
  are always true.
* Target memory is a tree of values (`Val`).  The storage of one property is a
  *region*: the list of its `ArrayDim` consecutive elements, element `k` being the
  address `OutValue + k * ElementSize`.  A structure (or object) is the list of
  the regions of its properties, in the order of `TFieldIterator`.  Content that
  a list does not reach reads as `Val.none` (default content).
* An object reference slot owns the instance it points to (`Val.object`), the
  ownership rule of the data model; shared or cyclic object graphs are outside
  the model.  `NewObject` numbers the instances it constructs with the running
  counter that every conversion threads through.
* The region handed to the conversion of a container element (array element, set
  element, map key or value) is that element alone.
* `check(...)` is an assertion: a failed one ends the pass (`Outcome.assertFailed`).
* Log output (`UE_LOG`) has no effect on the result and is left out.
* `FString` values compared with `operator==` (the keys of a JSON object, the date
  keywords) are compared ignoring case, as the engine does.
* `FName` values (the member names of an enumeration) are compared ignoring case,
  as the engine does.
* The values of a JSON object are a `TMap` with `FString` keys: the list of its
  entries in iteration order.  The map holds one entry for each key ignoring case
  (`KeysDistinct`); the map of a document is built by `SetField`, member after
  member (`FromMembers`), a repeated key replacing the entry the map holds.
* A numeric property stores through `SetIntPropertyValue` or
  `SetFloatingPointPropertyValue`, which convert the value to the C++ type of the
  property (`NumericType`): an integer is kept modulo `2 ^ Bits`.
* Recursion is through `JsonValueToUProperty` only, which takes a fuel argument;
  `Json.depth` bounds the fuel a value needs.
* Engine services (reflection, text import, coercions of mistyped JSON, date and
  colour parsing, rehashing, file access) are the fields of `Host`.
-/

namespace DlgSystem

/-! ## Engine strings -/

/-- The comparison `FString::Equals(Other, ESearchCase::IgnoreCase)`. -/
def EqualsIgnoreCase (a b : String) : Bool :=
  a.data.map Char.toLower == b.data.map Char.toLower

/-- The operator `==` of `FString`: the engine compares the two strings ignoring case
(as `Equals` does with `ESearchCase::IgnoreCase`; the default of `Equals` is the
case-sensitive comparison). -/
def FStringEquals (a b : String) : Bool := EqualsIgnoreCase a b

/-- The operator `==` of `FName`: the engine compares two names ignoring case. -/
def FNameEquals (a b : String) : Bool := EqualsIgnoreCase a b

/-! ## JSON value tree -/

/-- A finite `double`: the value `mant * 2 ^ exp`. -/
structure Double where
  mant : Int
  exp : Int
deriving DecidableEq, Repr

/-- The value of a double with its fraction dropped (rounding towards zero). -/
def Double.trunc (d : Double) : Int :=
  if 0 ≤ d.exp then d.mant * 2 ^ d.exp.toNat else Int.tdiv d.mant (2 ^ (-d.exp).toNat)

/-- The generic JSON value (`FJsonValue`). -/
inductive Json where
  | null
  | bool (b : Bool)
  | number (d : Double)
  | string (s : String)
  | array (xs : List Json)
  | object (values : List (String × Json))

/-- The entries of a JSON object (`FJsonObject::Values`, a `TMap` with `FString`
keys), in iteration order.  The map holds one entry for each key: see `KeysDistinct`. -/
abbrev JsonAttributes := List (String × Json)

/-- The invariant of the map `FJsonObject::Values`: it compares its `FString` keys with
`operator==`, so no two of its entries have keys that are equal ignoring case. -/
def KeysDistinct : JsonAttributes → Bool
  | [] => true
  | (Key, _) :: rest => rest.all (fun e => !FStringEquals Key e.1) && KeysDistinct rest

/-- The insertion `FJsonObject::SetField`, which is `Values.Add(FieldName, Value)`: a key
the map holds has its entry replaced, key and value, in its place; a new key is added
after the entries. -/
def SetField : JsonAttributes → String → Json → JsonAttributes
  | [], FieldName, Value => [(FieldName, Value)]
  | (Key, Old) :: rest, FieldName, Value =>
    if FStringEquals Key FieldName then (FieldName, Value) :: rest
    else (Key, Old) :: SetField rest FieldName Value

/-- The map the JSON reader builds for an object of a document: it calls `SetField`
for each member, in the order of the document. -/
def FromMembers (members : List (String × Json)) : JsonAttributes :=
  members.foldl (fun Values e => SetField Values e.1 e.2) []

/-- The tag `FJsonValue::Type`. -/
inductive EJson where
  | Null | String | Number | Boolean | Array | Object
deriving DecidableEq, Repr

def Json.Type : Json → EJson
  | .null => .Null
  | .bool _ => .Boolean
  | .number _ => .Number
  | .string _ => .String
  | .array _ => .Array
  | .object _ => .Object

def Json.IsNull : Json → Bool
  | .null => true
  | _ => false

mutual
/-- Nesting depth of a JSON value: scalars have depth 0. -/
def Json.depth : Json → Nat
  | .array xs => Json.depthList xs + 1
  | .object values => Json.depthValues values + 1
  | _ => 0
/-- Largest depth in a list of values. -/
def Json.depthList : List Json → Nat
  | [] => 0
  | x :: xs => max (Json.depth x) (Json.depthList xs)
/-- Largest depth among the values of the entries of an object. -/
def Json.depthValues : List (String × Json) → Nat
  | [] => 0
  | (_, v) :: rest => max (Json.depth v) (Json.depthValues rest)
end

/-! ## Reflection data -/

/-- An enumeration (`UEnum`): its C++ type name and its members. -/
structure UEnum where
  CppType : String
  Names : List (String × Int)

/-- The value `INDEX_NONE`. -/
def INDEX_NONE : Int := -1

/-- Member lookup `UEnum::GetValueByName`, called with `FName(*StrValue)`: the value of
the first member whose name equals that name as an `FName`, `INDEX_NONE` when there is
none. -/
def UEnum.GetValueByName (e : UEnum) (name : String) : Int :=
  match e.Names.find? (fun m => FNameEquals m.1 name) with
  | some m => m.2
  | none => INDEX_NONE

/-- An integral C++ type: its width in bits and whether it is signed. -/
structure IntegerType where
  Bits : Nat
  IsSigned : Bool
deriving DecidableEq, Repr

/-- The conversion `(TCppType)Value` of a 64-bit integer to an integral type: the value
modulo `2 ^ Bits`, read as a signed number when the type is signed. -/
def IntegerType.cast (T : IntegerType) (Value : Int) : Int :=
  if T.IsSigned && decide (2 ^ T.Bits ≤ 2 * (Value % 2 ^ T.Bits)) then
    Value % 2 ^ T.Bits - 2 ^ T.Bits
  else Value % 2 ^ T.Bits

def int8 : IntegerType := ⟨8, true⟩
def int16 : IntegerType := ⟨16, true⟩
def int32 : IntegerType := ⟨32, true⟩
def int64 : IntegerType := ⟨64, true⟩
def uint8 : IntegerType := ⟨8, false⟩
def uint16 : IntegerType := ⟨16, false⟩
def uint32 : IntegerType := ⟨32, false⟩
def uint64 : IntegerType := ⟨64, false⟩

/-- The C++ type `TCppType` of a numeric property. -/
inductive NumericType where
  | integral (T : IntegerType)
  | float
  | double
deriving DecidableEq, Repr

mutual
/-- A property (`UProperty`): name, `ArrayDim`, property flags and its class. -/
inductive UProperty where
  | mk (Name : String) (ArrayDim : Int) (PropertyFlags : Nat) (Class : UPropertyClass)
/-- The class of a property with the linkage the parser reads from it. -/
inductive UPropertyClass where
  | UEnumProperty (Enum : UEnum) (UnderlyingProp : IntegerType)
  | UNumericProperty (IntPropertyEnum : Option UEnum) (IsFloatingPoint IsInteger : Bool)
      (CppType : NumericType)
  | UBoolProperty
  | UStrProperty
  | UTextProperty
  | UArrayProperty (Inner : UProperty)
  | USetProperty (ElementProp : UProperty)
  | UMapProperty (KeyProp ValueProp : UProperty)
  | UStructProperty (Struct : UScriptStruct)
  | UObjectProperty (PropertyClass : String)
  | Other (ClassName : String)
/-- A script structure (`UScriptStruct`) with the properties `TFieldIterator` yields. -/
inductive UScriptStruct where
  | mk (Name : String) (IsJsonObjectWrapper HasImportTextItem : Bool) (Properties : List UProperty)
end

def UProperty.GetName : UProperty → String
  | .mk n _ _ _ => n

def UProperty.ArrayDim : UProperty → Int
  | .mk _ d _ _ => d

def UProperty.PropertyFlags : UProperty → Nat
  | .mk _ _ f _ => f

def UProperty.Class : UProperty → UPropertyClass
  | .mk _ _ _ c => c

def UProperty.HasAnyPropertyFlags (p : UProperty) (flags : Nat) : Bool :=
  p.PropertyFlags &&& flags != 0

def UScriptStruct.GetFName : UScriptStruct → String
  | .mk n _ _ _ => n

def UScriptStruct.IsJsonObjectWrapper : UScriptStruct → Bool
  | .mk _ w _ _ => w

def UScriptStruct.HasImportTextItem : UScriptStruct → Bool
  | .mk _ _ h _ => h

def UScriptStruct.Properties : UScriptStruct → List UProperty
  | .mk _ _ _ ps => ps

/-- The `UStruct*` handed to the structure filler: a script structure or a class. -/
inductive UStruct where
  | ScriptStruct (s : UScriptStruct)
  | Class (name : String)

/-! ## Target memory -/

/-- The content of one element of target memory. -/
inductive Val where
  | none
  | int (i : Int)
  | float (d : Double)
  | bool (b : Bool)
  | str (s : String)
  | text (s : String)
  | array (elems : List Val)
  | set (elems : List Val)
  | map (pairs : List (Val × Val))
  | color (c : Nat)
  | linearColor (c : Nat)
  | dateTime (ticks : Int)
  | struct (cells : List (List Val))
  | wrapper (JsonObject : List (String × Json)) (cells : List (List Val))
  | null
  | object (id : Nat) (cls : String) (cells : List (List Val))

/-- The storage of one property: its consecutive elements. -/
abbrev Region := List Val

/-- Element `k` of a region (`OutValue + k * ElementSize`). -/
def Region.read (r : Region) (k : Nat) : Val := r.getD k Val.none

/-- Store into element `k` of a region. -/
def Region.write : Region → Nat → Val → Region
  | [], 0, v => [v]
  | [], k + 1, v => Val.none :: Region.write [] k v
  | _ :: r, 0, v => v :: r
  | x :: r, k + 1, v => x :: Region.write r k v

/-- Store a region as property `i` of a list of property regions. -/
def writeCell : List Region → Nat → Region → List Region
  | [], 0, r => [r]
  | [], i + 1, r => [] :: writeCell [] i r
  | _ :: cs, 0, r => r :: cs
  | c :: cs, i + 1, r => c :: writeCell cs i r

/-- The property regions of a structure or object. -/
def Val.cells : Val → List Region
  | .struct cs => cs
  | .wrapper _ cs => cs
  | .object _ _ cs => cs
  | _ => []

/-- Replace the property regions, keeping what else the value carries. -/
def Val.withCells : Val → List Region → Val
  | .wrapper o _, cs => .wrapper o cs
  | .object id c _, cs => .object id c cs
  | _, cs => .struct cs

/-- The region of property `i` of the structure or object (`ContainerPtrToValuePtr`). -/
def Val.readProperty (t : Val) (i : Nat) : Region := t.cells.getD i []

/-- Store the region of property `i`. -/
def Val.writeProperty (t : Val) (i : Nat) (r : Region) : Val :=
  t.withCells (writeCell t.cells i r)

/-- An object slot is empty unless it holds an instance (`*ObjectPtrPtr == nullptr`). -/
def Val.isNullObject : Val → Bool
  | .object _ _ _ => false
  | _ => true

/-- The elements of a dynamic array slot. -/
def Val.arrayElems : Val → List Val
  | .array es => es
  | _ => []

/-- The elements of a set slot. -/
def Val.setElems : Val → List Val
  | .set es => es
  | _ => []

/-- The pairs of a map slot. -/
def Val.mapPairs : Val → List (Val × Val)
  | .map ps => ps
  | _ => []

/-! ## Outcomes -/

/-- How a call ends: it returns, a `check` fails, or the fuel of the model ran out. -/
inductive Outcome (α : Type) where
  | done (a : α)
  | assertFailed
  | outOfFuel

/-- The signature of `JsonValueToUProperty`: JSON value, property, the region at
`OutValue` and the instance counter in; success flag, region and counter out. -/
abbrev Converter := Json → UProperty → Region → Nat → Outcome (Bool × Region × Nat)

/-! ## Engine services -/

/-- The services of the engine that the parser calls. -/
structure Host where
  /-- The properties `TFieldIterator<UProperty>` yields for the class of that name. -/
  ClassProperties : String → List UProperty
  /-- The child class of a base class by name (`GetChildClassFromName`). -/
  GetChildClassFromName : String → String → Option String
  /-- The property regions of an instance `NewObject` has just constructed. -/
  NewObjectCells : String → List Region
  /-- The instance `StaticLoadObject` finds for an outer and a name: id, class, regions. -/
  StaticLoadObject : Option Nat → String → Option (Nat × String × List Region)
  /-- The content of a default-constructed container element of that property. -/
  DefaultValue : UProperty → Val
  /-- The elements of a set after `Rehash`. -/
  RehashSet : List Val → List Val
  /-- The pairs of a map after `Rehash`. -/
  RehashMap : List (Val × Val) → List (Val × Val)
  /-- What `AsNumber` gives for a value that is not a number. -/
  AsNumberDefault : Json → Double
  /-- What `AsBool` gives for a value that is not a boolean. -/
  AsBoolDefault : Json → Bool
  /-- What `AsString` gives for a value that is not a string. -/
  AsStringDefault : Json → String
  /-- What `TryGetString` gives for a value that is not a string. -/
  TryGetStringOther : Json → Option String
  /-- The text to integer conversion `FCString::Atoi64`. -/
  Atoi64 : String → Int
  /-- What the cast to `int64` gives for a double outside the 64-bit range. -/
  CastOutOfRange : Double → Int
  /-- The colour `FColor::FromHex` reads. -/
  FromHex : String → Nat
  /-- The values `FDateTime::MinValue()`, `MaxValue()` and `UtcNow()`. -/
  DateTimeMinValue : Int
  DateTimeMaxValue : Int
  UtcNow : Int
  /-- The parser `FDateTime::ParseIso8601`. -/
  ParseIso8601 : String → Option Int
  /-- The parser `FDateTime::Parse`. -/
  Parse : String → Option Int
  /-- The custom text import of a structure: success, the text left, the content written. -/
  ImportTextItem : UScriptStruct → String → Val → Bool × String × Val
  /-- The text import `UProperty::ImportText`: whether it returned a position, the content written. -/
  ImportText : UProperty → String → Val → Bool × Val
  /-- The culture names `GetPrioritizedParentCultureNames` returns. -/
  CultureList : List String
  /-- The file read `FFileHelper::LoadFileToString`. -/
  LoadFileToString : String → Option String
  /-- The path function `FPaths::GetBaseFilename`. -/
  GetBaseFilename : String → String
  /-- The JSON reader `FJsonSerializer::Deserialize`: the values of the root object, the
  map that `FromMembers` gives for the members of the object in the document. -/
  Deserialize : String → Option JsonAttributes
  /-- The C++ conversion `(float)Value` of a double to single precision. -/
  DoubleToFloat : Double → Double

/-- The coercion `FJsonValue::AsNumber`. -/
def AsNumber (H : Host) : Json → Double
  | .number d => d
  | j => H.AsNumberDefault j

/-- The coercion `FJsonValue::AsBool`. -/
def AsBool (H : Host) : Json → Bool
  | .bool b => b
  | j => H.AsBoolDefault j

/-- The coercion `FJsonValue::AsString`. -/
def AsString (H : Host) : Json → String
  | .string s => s
  | j => H.AsStringDefault j

/-- The cast `static_cast<int64>(double)`. -/
def toInt64 (H : Host) (d : Double) : Int :=
  if -(2 ^ 63) ≤ d.trunc ∧ d.trunc < 2 ^ 63 then d.trunc else H.CastOutOfRange d

/-- The store `UNumericProperty::SetIntPropertyValue`: the content written, which is the
value converted to the type of the property; on a type that is not integral the engine
asserts (no content). -/
def SetIntPropertyValue : NumericType → Int → Option Val
  | .integral T, Value => some (.int (T.cast Value))
  | _, _ => none

/-- The store `UNumericProperty::SetFloatingPointPropertyValue`: the content written,
which is the value converted to the type of the property; on a type that is not a
floating point type the engine asserts (no content). -/
def SetFloatingPointPropertyValue (H : Host) : NumericType → Double → Option Val
  | .double, Value => some (.float Value)
  | .float, Value => some (.float (H.DoubleToFloat Value))
  | .integral _, _ => none

/-- The end of a branch that stores and returns true; a failed assertion of the store
ends the pass. -/
def Stored : Option Val → Nat → Outcome (Bool × Val × Nat)
  | some v, n => .done (true, v, n)
  | none, _ => .assertFailed

/-- The entry lookup of `FJsonObject::Values`: the first entry with that key; the map
compares its `FString` keys with `operator==`. -/
def FindField : JsonAttributes → String → Option Json
  | [], _ => none
  | (Key, Value) :: rest, FieldName =>
    if FStringEquals Key FieldName then some Value else FindField rest FieldName

/-- The test `FJsonObject::HasField`. -/
def HasField (Values : JsonAttributes) (FieldName : String) : Bool :=
  (FindField Values FieldName).isSome

/-- The read `FJsonObject::TryGetStringField`. -/
def TryGetStringField (H : Host) (Values : JsonAttributes) (FieldName : String) : Option String :=
  match FindField Values FieldName with
  | some (.string s) => some s
  | some j => H.TryGetStringOther j
  | none => none


/-- The clamp `FMath::Clamp`. -/
def Clamp (X Min Max : Int) : Int :=
  if X < Min then Min else if X < Max then X else Max

/-- The slot content for what `StaticLoadObject` returned. -/
def Val.ofLoaded : Option (Nat × String × List Region) → Val
  | some (id, cls, cells) => .object id cls cells
  | Option.none => .null

/-- The resize `FScriptArrayHelper::Resize`: keep the first elements, add default ones. -/
def Resize (H : Host) (Inner : UProperty) (elems : List Val) (Num : Nat) : List Val :=
  elems.take Num ++ List.replicate (Num - elems.length) (H.DefaultValue Inner)

/-! ## The parser -/

/-- The members of `DlgJsonParser`. -/
structure DlgJsonParser where
  JsonString : String
  FileName : String
  bIsValidFile : Bool
  DefaultObjectOuter : Option Nat
  CheckFlags : Nat

/-- The loop of `GetTextFromObject` over the culture list: the first culture code
that is a string field of the object wins. -/
def GetTextFromObjectLoop (H : Host) (Obj : JsonAttributes) : List String → Option String
  | [] => none
  | CultureCode :: rest =>
    match TryGetStringField H Obj CultureCode with
    | some TextString => some TextString
    | none => GetTextFromObjectLoop H Obj rest

/-- The function `GetTextFromObject`: the text found, `none` for `return false`. -/
def GetTextFromObject (H : Host) (Obj : JsonAttributes) : Option String :=
  GetTextFromObjectLoop H Obj H.CultureList

/-- The element loop of the `TArray` branch, from index `Index` on. -/
def ArrayLoop (JsonValueToUProperty : Converter) (Inner : UProperty) :
    List Json → Nat → List Val → Nat → Outcome (Bool × List Val × Nat)
  | [], _, elems, n => .done (true, elems, n)
  | ArrayValueItem :: rest, Index, elems, n =>
    if ArrayValueItem.IsNull then ArrayLoop JsonValueToUProperty Inner rest (Index + 1) elems n
    else
      match JsonValueToUProperty ArrayValueItem Inner [Region.read elems Index] n with
      | .done (true, r, n1) =>
        ArrayLoop JsonValueToUProperty Inner rest (Index + 1) (Region.write elems Index (Region.read r 0)) n1
      | .done (false, r, n1) => .done (false, Region.write elems Index (Region.read r 0), n1)
      | .assertFailed => .assertFailed
      | .outOfFuel => .outOfFuel

/-- The element loop of the `TSet` branch; the set is not rehashed here. -/
def SetLoop (H : Host) (JsonValueToUProperty : Converter) (ElementProp : UProperty) :
    List Json → List Val → Nat → Outcome (Bool × List Val × Nat)
  | [], elems, n => .done (true, elems, n)
  | ArrayValueItem :: rest, elems, n =>
    if ArrayValueItem.IsNull then SetLoop H JsonValueToUProperty ElementProp rest elems n
    else
      match JsonValueToUProperty ArrayValueItem ElementProp [H.DefaultValue ElementProp] n with
      | .done (true, r, n1) =>
        SetLoop H JsonValueToUProperty ElementProp rest (elems ++ [Region.read r 0]) n1
      | .done (false, r, n1) => .done (false, elems ++ [Region.read r 0], n1)
      | .assertFailed => .assertFailed
      | .outOfFuel => .outOfFuel

/-- The entry loop of the `TMap` branch; the map is not rehashed here. -/
def MapLoop (H : Host) (JsonValueToUProperty : Converter) (KeyProp ValueProp : UProperty) :
    List (String × Json) → List (Val × Val) → Nat → Outcome (Bool × List (Val × Val) × Nat)
  | [], pairs, n => .done (true, pairs, n)
  | (Key, Value) :: rest, pairs, n =>
    if Value.IsNull then MapLoop H JsonValueToUProperty KeyProp ValueProp rest pairs n
    else
      match JsonValueToUProperty (Json.string Key) KeyProp [H.DefaultValue KeyProp] n with
      | .done (bKeySuccess, rk, n1) =>
        match JsonValueToUProperty Value ValueProp [H.DefaultValue ValueProp] n1 with
        | .done (bValueSuccess, rv, n2) =>
          if !bKeySuccess || !bValueSuccess then
            .done (false, pairs ++ [(Region.read rk 0, Region.read rv 0)], n2)
          else
            MapLoop H JsonValueToUProperty KeyProp ValueProp rest
              (pairs ++ [(Region.read rk 0, Region.read rv 0)]) n2
        | .assertFailed => .assertFailed
        | .outOfFuel => .outOfFuel
      | .assertFailed => .assertFailed
      | .outOfFuel => .outOfFuel

/-- The search of `JsonAttributesToUStruct` for the JSON value of a property name:
the first entry whose key equals the name ignoring case, then `break`. -/
def FindJsonValue (PropertyName : String) : JsonAttributes → Option Json
  | [] => none
  | (Key, Value) :: rest =>
    if EqualsIgnoreCase PropertyName Key then some Value else FindJsonValue PropertyName rest

/-- The property loop of `JsonAttributesToUStruct`; `Index` is the position of the
first property of the list in the structure. -/
def PropertyLoop (CheckFlags : Nat) (JsonValueToUProperty : Converter) (JsonAttributes : JsonAttributes) :
    List UProperty → Nat → Val → Nat → Outcome (Val × Nat)
  | [], _, OutStruct, n => .done (OutStruct, n)
  | Property :: rest, Index, OutStruct, n =>
    if CheckFlags != 0 && !Property.HasAnyPropertyFlags CheckFlags then
      PropertyLoop CheckFlags JsonValueToUProperty JsonAttributes rest (Index + 1) OutStruct n
    else
      match FindJsonValue Property.GetName JsonAttributes with
      | none => PropertyLoop CheckFlags JsonValueToUProperty JsonAttributes rest (Index + 1) OutStruct n
      | some JsonValue =>
        if JsonValue.IsNull then
          PropertyLoop CheckFlags JsonValueToUProperty JsonAttributes rest (Index + 1) OutStruct n
        else
          match JsonValueToUProperty JsonValue Property (OutStruct.readProperty Index) n with
          | .done (_, r, n1) =>
            PropertyLoop CheckFlags JsonValueToUProperty JsonAttributes rest (Index + 1)
              (OutStruct.writeProperty Index r) n1
          | .assertFailed => .assertFailed
          | .outOfFuel => .outOfFuel

/-- The method `DlgJsonParser::JsonAttributesToUStruct`, over the converter it calls
for each property. -/
def DlgJsonParser.JsonAttributesToUStruct (self : DlgJsonParser) (H : Host)
    (JsonValueToUProperty : Converter) (JsonAttributes : JsonAttributes)
    (StructDefinition : UStruct) (OutStruct : Val) (n : Nat) : Outcome (Bool × Val × Nat) :=
  match StructDefinition with
  | .ScriptStruct s =>
    if s.IsJsonObjectWrapper then .done (true, .wrapper JsonAttributes OutStruct.cells, n)
    else
      match PropertyLoop self.CheckFlags JsonValueToUProperty JsonAttributes s.Properties 0 OutStruct n with
      | .done (t, n1) => .done (true, t, n1)
      | .assertFailed => .assertFailed
      | .outOfFuel => .outOfFuel
  | .Class _ =>
    match OutStruct with
    | .object _ cls _ =>
      match PropertyLoop self.CheckFlags JsonValueToUProperty JsonAttributes (H.ClassProperties cls) 0
          OutStruct n with
      | .done (t, n1) => .done (true, t, n1)
      | .assertFailed => .assertFailed
      | .outOfFuel => .outOfFuel
    | _ => .assertFailed

/-- Modelled from the spec: the header method `DlgJsonParser::JsonObjectToUStruct`, which
is not among the sources; a JSON object is delegated to the structure filler with its values. -/
def DlgJsonParser.JsonObjectToUStruct (self : DlgJsonParser) (H : Host)
    (JsonValueToUProperty : Converter) (JsonObject : JsonAttributes)
    (StructDefinition : UStruct) (OutStruct : Val) (n : Nat) : Outcome (Bool × Val × Nat) :=
  self.JsonAttributesToUStruct H JsonValueToUProperty JsonObject StructDefinition OutStruct n

/-- The reserved key of the concrete type of an object. -/
def SpecialKeyType : String := "__type__"

/-- The method `DlgJsonParser::ConvertScalarJsonValueToUProperty`, over the converter
it calls for the parts of a composite value; `OutValue` is the element written. -/
def DlgJsonParser.ConvertScalarJsonValueToUProperty (self : DlgJsonParser) (H : Host)
    (JsonValueToUProperty : Converter) (JsonValue : Json) (Property : UProperty)
    (OutValue : Val) (n : Nat) : Outcome (Bool × Val × Nat) :=
  match Property.Class with
  | .UEnumProperty Enum UnderlyingProp =>
    match JsonValue with
    | .string StrValue =>
      if Enum.GetValueByName StrValue = INDEX_NONE then .done (false, OutValue, n)
      else Stored (SetIntPropertyValue (.integral UnderlyingProp) (Enum.GetValueByName StrValue)) n
    | _ =>
      Stored (SetIntPropertyValue (.integral UnderlyingProp) (toInt64 H (AsNumber H JsonValue))) n
  | .UNumericProperty IntPropertyEnum IsFloatingPoint IsInteger CppType =>
    match IntPropertyEnum, JsonValue with
    | some Enum, .string StrValue =>
      if Enum.GetValueByName StrValue = INDEX_NONE then .done (false, OutValue, n)
      else Stored (SetIntPropertyValue CppType (Enum.GetValueByName StrValue)) n
    | _, _ =>
      if IsFloatingPoint then
        Stored (SetFloatingPointPropertyValue H CppType (AsNumber H JsonValue)) n
      else if IsInteger then
        match JsonValue with
        | .string s => Stored (SetIntPropertyValue CppType (H.Atoi64 s)) n
        | _ => Stored (SetIntPropertyValue CppType (toInt64 H (AsNumber H JsonValue))) n
      else .done (false, OutValue, n)
  | .UBoolProperty => .done (true, .bool (AsBool H JsonValue), n)
  | .UStrProperty => .done (true, .str (AsString H JsonValue), n)
  | .UTextProperty =>
    match JsonValue with
    | .string s => .done (true, .text s, n)
    | .object Obj =>
      match GetTextFromObject H Obj with
      | none => .done (false, OutValue, n)
      | some Text => .done (true, .text Text, n)
    | _ => .done (false, OutValue, n)
  | .UArrayProperty Inner =>
    match JsonValue with
    | .array ArrayValue =>
      match ArrayLoop JsonValueToUProperty Inner ArrayValue 0
          (Resize H Inner OutValue.arrayElems ArrayValue.length) n with
      | .done (ok, elems, n1) => .done (ok, .array elems, n1)
      | .assertFailed => .assertFailed
      | .outOfFuel => .outOfFuel
    | _ => .done (false, OutValue, n)
  | .USetProperty ElementProp =>
    match JsonValue with
    | .array ArrayValue =>
      match SetLoop H JsonValueToUProperty ElementProp ArrayValue OutValue.setElems n with
      | .done (true, elems, n1) => .done (true, .set (H.RehashSet elems), n1)
      | .done (false, elems, n1) => .done (false, .set elems, n1)
      | .assertFailed => .assertFailed
      | .outOfFuel => .outOfFuel
    | _ => .done (false, OutValue, n)
  | .UMapProperty KeyProp ValueProp =>
    match JsonValue with
    | .object ObjectValue =>
      match MapLoop H JsonValueToUProperty KeyProp ValueProp ObjectValue OutValue.mapPairs n with
      | .done (true, pairs, n1) => .done (true, .map (H.RehashMap pairs), n1)
      | .done (false, pairs, n1) => .done (false, .map pairs, n1)
      | .assertFailed => .assertFailed
      | .outOfFuel => .outOfFuel
    | _ => .done (false, OutValue, n)
  | .UStructProperty Struct =>
    match JsonValue with
    | .object Obj =>
      self.JsonObjectToUStruct H JsonValueToUProperty Obj (.ScriptStruct Struct) OutValue n
    | .string s =>
      if Struct.GetFName == "LinearColor" then .done (true, .linearColor (H.FromHex s), n)
      else if Struct.GetFName == "Color" then .done (true, .color (H.FromHex s), n)
      else if Struct.GetFName == "DateTime" then
        if FStringEquals s "min" then .done (true, .dateTime H.DateTimeMinValue, n)
        else if FStringEquals s "max" then .done (true, .dateTime H.DateTimeMaxValue, n)
        else if FStringEquals s "now" then .done (true, .dateTime H.UtcNow, n)
        else
          match H.ParseIso8601 s with
          | some t => .done (true, .dateTime t, n)
          | none =>
            match H.Parse s with
            | some t => .done (true, .dateTime t, n)
            | none => .done (false, OutValue, n)
      else if Struct.HasImportTextItem then
        match H.ImportTextItem Struct s OutValue with
        | (true, _, v) => .done (true, v, n)
        | (false, ImportTextPtr, v) => .done (true, (H.ImportText Property ImportTextPtr v).2, n)
      else .done (true, (H.ImportText Property s OutValue).2, n)
    | _ => .done (false, OutValue, n)
  | .UObjectProperty PropertyClass =>
    match JsonValue with
    | .string ObjectReferenceName =>
      .done (true, Val.ofLoaded (H.StaticLoadObject self.DefaultObjectOuter ObjectReferenceName), n)
    | .object JsonObject =>
      if !HasField JsonObject SpecialKeyType then .done (false, OutValue, n)
      else if OutValue.isNullObject then
        match TryGetStringField H JsonObject SpecialKeyType with
        | none => .assertFailed
        | some JsonObjectType =>
          match H.GetChildClassFromName PropertyClass JsonObjectType with
          | none => .done (false, OutValue, n)
          | some ChildClass =>
            self.JsonObjectToUStruct H JsonValueToUProperty JsonObject (.Class PropertyClass)
              (.object n ChildClass (H.NewObjectCells ChildClass)) (n + 1)
      else
        self.JsonObjectToUStruct H JsonValueToUProperty JsonObject (.Class PropertyClass) OutValue n
    | _ => .assertFailed
  | .Other _ =>
    match JsonValue with
    | .object _ => .assertFailed
    | _ =>
      match H.ImportText Property (AsString H JsonValue) OutValue with
      | (ok, v) => .done (ok, v, n)

/-- The loop of `JsonValueToUProperty` that reads a JSON array into a native array:
element `Index` of the region is converted from item `Index`. -/
def NativeArrayLoop (self : DlgJsonParser) (H : Host) (JsonValueToUProperty : Converter)
    (Property : UProperty) : List Json → Nat → Region → Nat → Outcome (Bool × Region × Nat)
  | [], _, OutValue, n => .done (true, OutValue, n)
  | Item :: rest, Index, OutValue, n =>
    match self.ConvertScalarJsonValueToUProperty H JsonValueToUProperty Item Property
        (Region.read OutValue Index) n with
    | .done (true, v, n1) =>
      NativeArrayLoop self H JsonValueToUProperty Property rest (Index + 1) (Region.write OutValue Index v) n1
    | .done (false, v, n1) => .done (false, Region.write OutValue Index v, n1)
    | .assertFailed => .assertFailed
    | .outOfFuel => .outOfFuel

/-- The test `Property->IsA<UArrayProperty>()`. -/
def UProperty.IsArrayProperty (p : UProperty) : Bool :=
  match p.Class with
  | .UArrayProperty _ => true
  | _ => false

/-- The call of the scalar converter on element 0 of the region at `OutValue`. -/
def ConvertAtOutValue (self : DlgJsonParser) (H : Host) (JsonValueToUProperty : Converter)
    (JsonValue : Json) (Property : UProperty) (OutValue : Region) (n : Nat) :
    Outcome (Bool × Region × Nat) :=
  match self.ConvertScalarJsonValueToUProperty H JsonValueToUProperty JsonValue Property
      (Region.read OutValue 0) n with
  | .done (ok, v, n1) => .done (ok, Region.write OutValue 0 v, n1)
  | .assertFailed => .assertFailed
  | .outOfFuel => .outOfFuel

/-- The body of `DlgJsonParser::JsonValueToUProperty`, over the converter of the
recursive calls. -/
def DlgJsonParser.JsonValueToUPropertyBody (self : DlgJsonParser) (H : Host)
    (JsonValueToUProperty : Converter) : Converter :=
  fun JsonValue Property OutValue n =>
    match JsonValue with
    | .array ArrayValue =>
      if Property.IsArrayProperty && Property.ArrayDim == 1 then
        ConvertAtOutValue self H JsonValueToUProperty JsonValue Property OutValue n
      else
        NativeArrayLoop self H JsonValueToUProperty Property
          (ArrayValue.take (Clamp ArrayValue.length 0 Property.ArrayDim).toNat) 0 OutValue n
    | _ =>
      if Property.IsArrayProperty then .done (false, OutValue, n)
      else ConvertAtOutValue self H JsonValueToUProperty JsonValue Property OutValue n

/-- The method `DlgJsonParser::JsonValueToUProperty`; each level of recursion takes
one unit of fuel. -/
def DlgJsonParser.JsonValueToUProperty (self : DlgJsonParser) (H : Host) : Nat → Converter
  | 0 => fun _ _ _ _ => .outOfFuel
  | fuel + 1 => self.JsonValueToUPropertyBody H (self.JsonValueToUProperty H fuel)

/-- The structure filler as the parser runs it: `JsonAttributesToUStruct` with the
recursive converter at the given fuel. -/
def DlgJsonParser.Fill (self : DlgJsonParser) (H : Host) (fuel : Nat)
    (JsonAttributes : JsonAttributes) (StructDefinition : UStruct) (OutStruct : Val) (n : Nat) :
    Outcome (Bool × Val × Nat) :=
  self.JsonAttributesToUStruct H (self.JsonValueToUProperty H fuel) JsonAttributes StructDefinition
    OutStruct n

/-- Modelled from the spec: the header method `DlgJsonParser::IsValidFile`, which is
not among the sources; it reports the validity flag. -/
def DlgJsonParser.IsValidFile (self : DlgJsonParser) : Bool := self.bIsValidFile

/-- The method `DlgJsonParser::InitializeParser`. -/
def DlgJsonParser.InitializeParser (self : DlgJsonParser) (H : Host) (FilePath : String) :
    DlgJsonParser :=
  match H.LoadFileToString FilePath with
  | none => { self with bIsValidFile := false }
  | some text =>
    { self with JsonString := text, FileName := H.GetBaseFilename FilePath, bIsValidFile := true }

/-- The method `DlgJsonParser::JsonObjectStringToUStruct`. -/
def DlgJsonParser.JsonObjectStringToUStruct (self : DlgJsonParser) (H : Host) (fuel : Nat)
    (StructDefinition : UStruct) (TargetPtr : Val) (n : Nat) : Outcome (Bool × Val × Nat) :=
  match H.Deserialize self.JsonString with
  | none => .done (false, TargetPtr, n)
  | some JsonObject =>
    self.JsonObjectToUStruct H (self.JsonValueToUProperty H fuel) JsonObject StructDefinition TargetPtr n

/-- The method `DlgJsonParser::ReadAllProperty`: the parser and the target afterwards. -/
def DlgJsonParser.ReadAllProperty (self : DlgJsonParser) (H : Host) (fuel : Nat)
    (ReferenceClass : UStruct) (TargetObject : Val) (InDefaultObjectOuter : Option Nat) (n : Nat) :
    Outcome (DlgJsonParser × Val × Nat) :=
  if !self.IsValidFile then .done (self, TargetObject, n)
  else
    match { self with DefaultObjectOuter := InDefaultObjectOuter }.JsonObjectStringToUStruct H fuel
        ReferenceClass TargetObject n with
    | .done (ok, t, n1) =>
      .done ({ self with DefaultObjectOuter := InDefaultObjectOuter, bIsValidFile := ok }, t, n1)
    | .assertFailed => .assertFailed
    | .outOfFuel => .outOfFuel

/-! ## Notions used to state the properties -/

/-- The JSON value the property loop converts for a property: none when the flags
exclude the property, no key matches its name, or the matched value is JSON null. -/
def MatchedValue (CheckFlags : Nat) (JsonAttributes : JsonAttributes) (Property : UProperty) :
    Option Json :=
  if CheckFlags != 0 && !Property.HasAnyPropertyFlags CheckFlags then none
  else
    match FindJsonValue Property.GetName JsonAttributes with
    | none => none
    | some JsonValue => if JsonValue.IsNull then none else some JsonValue

/-- The properties the structure filler iterates: those of the script structure, or,
for a class, those of the runtime class of the target instance. -/
def RuntimeProperties (H : Host) : UStruct → Val → List UProperty
  | .ScriptStruct s, _ => s.Properties
  | .Class _, .object _ cls _ => H.ClassProperties cls
  | .Class _, _ => []

/-- The property classes whose conversion writes the slot in one final step: every
class but the containers and the classes left to the generic text import. -/
def UPropertyClass.IsSingleWrite : UPropertyClass → Bool
  | .UArrayProperty _ => false
  | .USetProperty _ => false
  | .UMapProperty _ _ => false
  | .Other _ => false
  | _ => true

/-- The least value an integral type holds. -/
def IntegerType.Min (T : IntegerType) : Int :=
  if T.IsSigned then -(2 ^ (T.Bits - 1)) else 0

/-- The greatest value an integral type holds. -/
def IntegerType.Max (T : IntegerType) : Int :=
  if T.IsSigned then 2 ^ (T.Bits - 1) - 1 else 2 ^ T.Bits - 1

/-- Two regions with the same content in every element. -/
def Region.Same (r1 r2 : Region) : Prop := ∀ k, Region.read r1 k = Region.read r2 k

/-! ## Sample data -/

def sampleParser : DlgJsonParser :=
  { JsonString := "", FileName := "", bIsValidFile := true, DefaultObjectOuter := none,
    CheckFlags := 0 }

/-- A string property named `text`. -/
def textProperty : UProperty := .mk "text" 1 0 .UStrProperty

/-- An `int32` property named `A`. -/
def numberA : UProperty := .mk "A" 1 0 (.UNumericProperty none false true (.integral int32))

/-- An enumeration with the members `Sad = 0` and `Happy = 1`. -/
def moodEnum : UEnum := { CppType := "EMood", Names := [("Sad", 0), ("Happy", 1)] }

/-- An enumeration property named `mood`, stored in a `uint8`. -/
def moodProperty : UProperty := .mk "mood" 1 0 (.UEnumProperty moodEnum uint8)

/-- A dynamic array of moods named `moods`. -/
def moodsProperty : UProperty := .mk "moods" 1 0 (.UArrayProperty moodProperty)

/-- A set of strings named `tags`. -/
def tagsProperty : UProperty := .mk "tags" 1 0 (.USetProperty (.mk "tags" 1 0 .UStrProperty))

/-- An object reference named `greet` whose declared class is `Base`. -/
def greetProperty : UProperty := .mk "greet" 1 0 (.UObjectProperty "Base")

def sampleHost : Host where
  ClassProperties := fun c => if c == "Greeting" then [textProperty] else []
  GetChildClassFromName := fun _ name => if name == "Greeting" then some "Greeting" else none
  NewObjectCells := fun _ => []
  StaticLoadObject := fun _ name => if name == "Hello" then some (7, "Greeting", [[.str "hello"]]) else none
  DefaultValue := fun p =>
    match p.Class with
    | .UEnumProperty _ _ => .int 0
    | .UNumericProperty _ _ _ _ => .int 0
    | .UStrProperty => .str ""
    | _ => Val.none
  RehashSet := fun xs => xs
  RehashMap := fun xs => xs
  AsNumberDefault := fun _ => ⟨0, 0⟩
  AsBoolDefault := fun _ => false
  AsStringDefault := fun _ => ""
  TryGetStringOther := fun _ => none
  Atoi64 := fun _ => 0
  CastOutOfRange := fun _ => 0
  FromHex := fun _ => 0
  DateTimeMinValue := 0
  DateTimeMaxValue := 3155378975999999999
  UtcNow := 636000000000000000
  ParseIso8601 := fun _ => none
  Parse := fun _ => none
  ImportTextItem := fun _ s v => (false, s, v)
  ImportText := fun _ _ v => (false, v)
  CultureList := ["en-US", "en"]
  LoadFileToString := fun _ => none
  GetBaseFilename := fun s => s
  Deserialize := fun _ => none
  DoubleToFloat := fun d => d

/-! ## Text to integer conversion and further sample data -/

/-- The value of a decimal digit character. -/
def digitValue (c : Char) : Option Nat :=
  if 48 ≤ c.toNat ∧ c.toNat ≤ 57 then some (c.toNat - 48) else none

/-- The number read from the leading decimal digits of a text, continuing from `acc`. -/
def parseDigits : List Char → Nat → Nat
  | [], acc => acc
  | c :: cs, acc =>
    match digitValue c with
    | some d => parseDigits cs (acc * 10 + d)
    | none => acc

/-- An integer kept in the signed 64-bit range, as the conversion saturates. -/
def saturateInt64 (v : Int) : Int :=
  if v < -(2 ^ 63) then -(2 ^ 63) else if 2 ^ 63 - 1 < v then 2 ^ 63 - 1 else v

/-- White space of the C library (`isspace`): space, tab, line feed, vertical tab, form
feed and carriage return. -/
def isSpace (c : Char) : Bool :=
  c.toNat == 32 || (9 ≤ c.toNat && c.toNat ≤ 13)

/-- Modelled from the spec: the engine conversion `FCString::Atoi64`, which is not among
the sources; it parses signed 64-bit integer text: after the white space the text starts
with, an optional sign and the decimal digits that follow. -/
def Atoi64 (s : String) : Int :=
  match s.data.dropWhile isSpace with
  | [] => 0
  | c :: cs =>
    if c = '-' then saturateInt64 (-(parseDigits cs 0 : Int))
    else if c = '+' then saturateInt64 (parseDigits cs 0)
    else saturateInt64 (parseDigits (c :: cs) 0)

/-- The sample host with the text to integer conversion of the spec. -/
def decimalHost : Host := { sampleHost with Atoi64 := Atoi64 }

/-- The sample host with a `TryGetString` that renders a boolean as text, as the
engine's boolean JSON value does. -/
def boolTextHost : Host :=
  { sampleHost with
    TryGetStringOther := fun j =>
      match j with
      | .bool b => some (if b then "true" else "false")
      | _ => none }

/-- An enumeration with a member whose value is -1. -/
def signedEnum : UEnum := { CppType := "ESigned", Names := [("Below", -1), ("Above", 1)] }

/-- An enumeration property named `sign`, stored in an `int8`. -/
def signProperty : UProperty := .mk "sign" 1 0 (.UEnumProperty signedEnum int8)

/-- A native array of two moods named `pair`. -/
def pairProperty : UProperty := .mk "pair" 2 0 (.UEnumProperty moodEnum uint8)

/-- A dynamic array of strings named `names`. -/
def namesProperty : UProperty := .mk "names" 1 0 (.UArrayProperty (.mk "names" 1 0 .UStrProperty))

/-- A map from strings to integers named `scores`. -/
def scoresProperty : UProperty :=
  .mk "scores" 1 0 (.UMapProperty (.mk "scores_Key" 1 0 .UStrProperty) numberA)

/-- A localized text property named `title`. -/
def titleProperty : UProperty := .mk "title" 1 0 .UTextProperty

/-- A `DateTime` structure property named `when`. -/
def whenProperty : UProperty :=
  .mk "when" 1 0 (.UStructProperty (.mk "DateTime" false false []))

/-- An `int64` property named `id`. -/
def idProperty : UProperty := .mk "id" 1 0 (.UNumericProperty none false true (.integral int64))

/-- An enumeration-typed byte property named `level` (a `uint8` with the enumeration of
moods). -/
def levelProperty : UProperty :=
  .mk "level" 1 0 (.UNumericProperty (some moodEnum) false true (.integral uint8))

/-! ## Memory lemmas -/

theorem Stored_ne_outOfFuel (o : Option Val) (n : Nat) : Stored o n ≠ .outOfFuel := by
  cases o <;> simp [Stored]

theorem Stored_ne_false (o : Option Val) (n : Nat) (v : Val) (m : Nat) :
    Stored o n ≠ .done (false, v, m) := by
  cases o <;> simp [Stored]

theorem Region.read_write (r : Region) (k j : Nat) (v : Val) :
    Region.read (Region.write r k v) j = if j = k then v else Region.read r j := by
  induction k generalizing r j with
  | zero =>
    cases r <;> cases j <;> simp [Region.write, Region.read]
  | succ k ih =>
    cases r with
    | nil =>
      cases j with
      | zero => simp [Region.write, Region.read]
      | succ j => simpa [Region.write, Region.read] using ih [] j
    | cons x r =>
      cases j with
      | zero => simp [Region.write, Region.read]
      | succ j => simpa [Region.write, Region.read] using ih r j

theorem getD_writeCell (cs : List Region) (i j : Nat) (r : Region) :
    (writeCell cs i r).getD j [] = if j = i then r else cs.getD j [] := by
  induction i generalizing cs j with
  | zero =>
    cases cs <;> cases j <;> simp [writeCell]
  | succ i ih =>
    cases cs with
    | nil =>
      cases j with
      | zero => simp [writeCell]
      | succ j => simpa [writeCell] using ih [] j
    | cons c cs =>
      cases j with
      | zero => simp [writeCell]
      | succ j => simpa [writeCell] using ih cs j

theorem Val.cells_withCells (t : Val) (cs : List Region) : (t.withCells cs).cells = cs := by
  cases t <;> rfl

theorem Val.readProperty_writeProperty (t : Val) (i j : Nat) (r : Region) :
    (t.writeProperty i r).readProperty j = if j = i then r else t.readProperty j := by
  simp only [Val.readProperty, Val.writeProperty, Val.cells_withCells]
  exact getD_writeCell _ _ _ _

theorem Json.depth_le_depthList {x : Json} {xs : List Json} (h : x ∈ xs) :
    x.depth ≤ Json.depthList xs := by
  induction xs with
  | nil => cases h
  | cons y ys ih =>
    simp only [Json.depthList]
    rcases List.mem_cons.mp h with rfl | h
    · exact le_max_left _ _
    · exact le_trans (ih h) (le_max_right _ _)

theorem Json.depth_le_depthValues {k : String} {v : Json} {values : List (String × Json)}
    (h : (k, v) ∈ values) : v.depth ≤ Json.depthValues values := by
  induction values with
  | nil => cases h
  | cons e rest ih =>
    obtain ⟨k1, v1⟩ := e
    simp only [Json.depthValues]
    rcases List.mem_cons.mp h with heq | h
    · cases heq
      exact le_max_left _ _
    · exact le_trans (ih h) (le_max_right _ _)

theorem FindJsonValue_mem {name : String} {attrs : JsonAttributes} {v : Json}
    (h : FindJsonValue name attrs = some v) : ∃ k, (k, v) ∈ attrs := by
  induction attrs with
  | nil => simp [FindJsonValue] at h
  | cons e rest ih =>
    obtain ⟨k1, v1⟩ := e
    simp only [FindJsonValue] at h
    split at h
    · cases h
      exact ⟨k1, List.mem_cons_self _ _⟩
    · obtain ⟨k, hk⟩ := ih h
      exact ⟨k, List.mem_cons_of_mem _ hk⟩

theorem ArrayLoop_fuel (rec : Converter) (Inner : UProperty) (items : List Json)
    (h : ∀ x ∈ items, ∀ P r n, rec x P r n ≠ .outOfFuel) (Index : Nat) (elems : List Val) (n : Nat) :
    ArrayLoop rec Inner items Index elems n ≠ .outOfFuel := by
  induction items generalizing Index elems n with
  | nil => simp [ArrayLoop]
  | cons x rest ih =>
    have hrest : ∀ y ∈ rest, ∀ P r n, rec y P r n ≠ .outOfFuel :=
      fun y hy => h y (List.mem_cons_of_mem _ hy)
    have hx := h x (List.mem_cons_self _ _) Inner [Region.read elems Index] n
    simp only [ArrayLoop]
    split
    · exact ih hrest _ _ _
    · split
      · exact ih hrest _ _ _
      · simp
      · simp
      · rename_i heq
        exact absurd heq hx

theorem SetLoop_fuel (H : Host) (rec : Converter) (ElementProp : UProperty) (items : List Json)
    (h : ∀ x ∈ items, ∀ P r n, rec x P r n ≠ .outOfFuel) (elems : List Val) (n : Nat) :
    SetLoop H rec ElementProp items elems n ≠ .outOfFuel := by
  induction items generalizing elems n with
  | nil => simp [SetLoop]
  | cons x rest ih =>
    have hrest : ∀ y ∈ rest, ∀ P r n, rec y P r n ≠ .outOfFuel :=
      fun y hy => h y (List.mem_cons_of_mem _ hy)
    have hx := h x (List.mem_cons_self _ _) ElementProp [H.DefaultValue ElementProp] n
    simp only [SetLoop]
    split
    · exact ih hrest _ _
    · split
      · exact ih hrest _ _
      · simp
      · simp
      · rename_i heq
        exact absurd heq hx

theorem MapLoop_fuel (H : Host) (rec : Converter) (KeyProp ValueProp : UProperty)
    (entries : List (String × Json))
    (hk : ∀ s P r n, rec (Json.string s) P r n ≠ .outOfFuel)
    (h : ∀ e ∈ entries, ∀ P r n, rec e.2 P r n ≠ .outOfFuel) (pairs : List (Val × Val)) (n : Nat) :
    MapLoop H rec KeyProp ValueProp entries pairs n ≠ .outOfFuel := by
  induction entries generalizing pairs n with
  | nil => simp [MapLoop]
  | cons e rest ih =>
    obtain ⟨Key, Value⟩ := e
    have hrest : ∀ y ∈ rest, ∀ P r n, rec y.2 P r n ≠ .outOfFuel :=
      fun y hy => h y (List.mem_cons_of_mem _ hy)
    have hx := h (Key, Value) (List.mem_cons_self _ _) ValueProp [H.DefaultValue ValueProp]
    simp only [MapLoop]
    split
    · exact ih hrest _ _
    · split
      · split
        · split
          · simp
          · exact ih hrest _ _
        · simp
        · rename_i heq
          exact absurd heq (hx _)
      · simp
      · rename_i heq
        exact absurd heq (hk _ _ _ _)

theorem PropertyLoop_fuel (CheckFlags : Nat) (rec : Converter) (attrs : JsonAttributes)
    (h : ∀ e ∈ attrs, ∀ P r n, rec e.2 P r n ≠ .outOfFuel)
    (props : List UProperty) (Index : Nat) (t : Val) (n : Nat) :
    PropertyLoop CheckFlags rec attrs props Index t n ≠ .outOfFuel := by
  induction props generalizing Index t n with
  | nil => simp [PropertyLoop]
  | cons P rest ih =>
    simp only [PropertyLoop]
    split
    · exact ih _ _ _
    · split
      · exact ih _ _ _
      · rename_i JsonValue hfind
        obtain ⟨k, hk⟩ := FindJsonValue_mem hfind
        split
        · exact ih _ _ _
        · split
          · exact ih _ _ _
          · simp
          · rename_i heq
            exact absurd heq (h (k, JsonValue) hk _ _ _)

theorem JsonAttributesToUStruct_fuel (self : DlgJsonParser) (H : Host) (rec : Converter)
    (attrs : JsonAttributes) (h : ∀ e ∈ attrs, ∀ P r n, rec e.2 P r n ≠ .outOfFuel)
    (StructDefinition : UStruct) (t : Val) (n : Nat) :
    self.JsonAttributesToUStruct H rec attrs StructDefinition t n ≠ .outOfFuel := by
  unfold DlgJsonParser.JsonAttributesToUStruct
  split
  · split
    · simp
    · split
      · simp
      · simp
      · rename_i heq
        exact absurd heq (PropertyLoop_fuel _ _ _ h _ _ _ _)
  · split
    · split
      · simp
      · simp
      · rename_i heq
        exact absurd heq (PropertyLoop_fuel _ _ _ h _ _ _ _)
    · simp

theorem ConvertScalar_fuel (self : DlgJsonParser) (H : Host) (rec : Converter) (JsonValue : Json)
    (h : ∀ j, j.depth < JsonValue.depth → ∀ P r n, rec j P r n ≠ .outOfFuel)
    (Property : UProperty) (OutValue : Val) (n : Nat) :
    self.ConvertScalarJsonValueToUProperty H rec JsonValue Property OutValue n ≠ .outOfFuel := by
  unfold DlgJsonParser.ConvertScalarJsonValueToUProperty
  cases Property.Class with
  | UEnumProperty Enum T =>
    cases JsonValue <;> simp [Stored_ne_outOfFuel]
    split <;> simp [Stored_ne_outOfFuel]
  | UNumericProperty e fl it T =>
    cases e <;> cases JsonValue <;> cases fl <;> cases it <;> simp [Stored_ne_outOfFuel]
    all_goals (split <;> simp [Stored_ne_outOfFuel])
  | UBoolProperty => simp
  | UStrProperty => simp
  | UTextProperty =>
    cases JsonValue <;> simp
    split <;> simp
  | UArrayProperty Inner =>
    cases JsonValue with
    | array xs =>
      have hx : ∀ x ∈ xs, ∀ P r n, rec x P r n ≠ .outOfFuel := fun x hx =>
        h x (by simp only [Json.depth]; exact Nat.lt_succ_of_le (Json.depth_le_depthList hx))
      simp only
      split
      · simp
      · simp
      · rename_i heq
        exact absurd heq (ArrayLoop_fuel _ _ _ hx _ _ _)
    | _ => simp
  | USetProperty ElementProp =>
    cases JsonValue with
    | array xs =>
      have hx : ∀ x ∈ xs, ∀ P r n, rec x P r n ≠ .outOfFuel := fun x hx =>
        h x (by simp only [Json.depth]; exact Nat.lt_succ_of_le (Json.depth_le_depthList hx))
      simp only
      split
      · simp
      · simp
      · simp
      · rename_i heq
        exact absurd heq (SetLoop_fuel _ _ _ _ hx _ _)
    | _ => simp
  | UMapProperty KeyProp ValueProp =>
    cases JsonValue with
    | object values =>
      have hx : ∀ e ∈ values, ∀ P r n, rec e.2 P r n ≠ .outOfFuel := fun e he =>
        h e.2 (by simp only [Json.depth]; exact Nat.lt_succ_of_le (Json.depth_le_depthValues he))
      have hk : ∀ s P r n, rec (Json.string s) P r n ≠ .outOfFuel := fun s =>
        h (Json.string s) (by simp [Json.depth])
      simp only
      split
      · simp
      · simp
      · simp
      · rename_i heq
        exact absurd heq (MapLoop_fuel _ _ _ _ _ hk hx _ _)
    | _ => simp
  | UStructProperty Struct =>
    cases JsonValue with
    | object values =>
      have hx : ∀ e ∈ values, ∀ P r n, rec e.2 P r n ≠ .outOfFuel := fun e he =>
        h e.2 (by simp only [Json.depth]; exact Nat.lt_succ_of_le (Json.depth_le_depthValues he))
      exact JsonAttributesToUStruct_fuel _ _ _ _ hx _ _ _
    | string s =>
      simp only
      repeat (first | simp | split)
    | _ => simp
  | UObjectProperty PropertyClass =>
    cases JsonValue with
    | object values =>
      have hx : ∀ e ∈ values, ∀ P r n, rec e.2 P r n ≠ .outOfFuel := fun e he =>
        h e.2 (by simp only [Json.depth]; exact Nat.lt_succ_of_le (Json.depth_le_depthValues he))
      simp only
      split
      · simp
      · split
        · split
          · simp
          · split
            · simp
            · exact JsonAttributesToUStruct_fuel _ _ _ _ hx _ _ _
        · exact JsonAttributesToUStruct_fuel _ _ _ _ hx _ _ _
    | _ => simp
  | Other c =>
    cases JsonValue <;> simp

theorem NativeArrayLoop_fuel (self : DlgJsonParser) (H : Host) (rec : Converter)
    (Property : UProperty) (items : List Json)
    (h : ∀ x ∈ items, ∀ v n,
      self.ConvertScalarJsonValueToUProperty H rec x Property v n ≠ .outOfFuel)
    (Index : Nat) (OutValue : Region) (n : Nat) :
    NativeArrayLoop self H rec Property items Index OutValue n ≠ .outOfFuel := by
  induction items generalizing Index OutValue n with
  | nil => simp [NativeArrayLoop]
  | cons x rest ih =>
    have hrest : ∀ y ∈ rest, ∀ v n,
        self.ConvertScalarJsonValueToUProperty H rec y Property v n ≠ .outOfFuel :=
      fun y hy => h y (List.mem_cons_of_mem _ hy)
    have hx := h x (List.mem_cons_self _ _) (Region.read OutValue Index) n
    simp only [NativeArrayLoop]
    split
    · exact ih hrest _ _ _
    · simp
    · simp
    · rename_i heq
      exact absurd heq hx

theorem ConvertAtOutValue_fuel (self : DlgJsonParser) (H : Host) (rec : Converter)
    (JsonValue : Json) (Property : UProperty)
    (h : ∀ v n, self.ConvertScalarJsonValueToUProperty H rec JsonValue Property v n ≠ .outOfFuel)
    (OutValue : Region) (n : Nat) :
    ConvertAtOutValue self H rec JsonValue Property OutValue n ≠ .outOfFuel := by
  unfold ConvertAtOutValue
  split
  · simp
  · simp
  · rename_i heq
    exact absurd heq (h _ _)

theorem JsonValueToUProperty_fuel (self : DlgJsonParser) (H : Host) (fuel : Nat) :
    ∀ (JsonValue : Json), JsonValue.depth < fuel → ∀ (Property : UProperty) (OutValue : Region)
      (n : Nat), self.JsonValueToUProperty H fuel JsonValue Property OutValue n ≠ .outOfFuel := by
  induction fuel with
  | zero => intro j hj; exact absurd hj (Nat.not_lt_zero _)
  | succ fuel ih =>
    intro j hj P r n
    have hscalar : ∀ x : Json, x.depth ≤ fuel → ∀ v m,
        self.ConvertScalarJsonValueToUProperty H (self.JsonValueToUProperty H fuel) x P v m
          ≠ .outOfFuel := fun x hx v m =>
      ConvertScalar_fuel self H _ x (fun j1 hj1 => ih j1 (lt_of_lt_of_le hj1 hx)) P v m
    have hjle : j.depth ≤ fuel := Nat.lt_succ_iff.mp hj
    simp only [DlgJsonParser.JsonValueToUProperty, DlgJsonParser.JsonValueToUPropertyBody]
    cases j with
    | array xs =>
      simp only
      split
      · exact ConvertAtOutValue_fuel _ _ _ _ _ (hscalar _ hjle) _ _
      · apply NativeArrayLoop_fuel
        intro x hx
        have hx1 : x ∈ xs := List.mem_of_mem_take hx
        have : x.depth ≤ fuel := by
          have h1 := Json.depth_le_depthList hx1
          simp only [Json.depth] at hjle
          omega
        exact hscalar x this
    | null =>
      simp only
      split
      · simp
      · exact ConvertAtOutValue_fuel _ _ _ _ _ (hscalar _ hjle) _ _
    | bool b =>
      simp only
      split
      · simp
      · exact ConvertAtOutValue_fuel _ _ _ _ _ (hscalar _ hjle) _ _
    | number d =>
      simp only
      split
      · simp
      · exact ConvertAtOutValue_fuel _ _ _ _ _ (hscalar _ hjle) _ _
    | string s =>
      simp only
      split
      · simp
      · exact ConvertAtOutValue_fuel _ _ _ _ _ (hscalar _ hjle) _ _
    | object values =>
      simp only
      split
      · simp
      · exact ConvertAtOutValue_fuel _ _ _ _ _ (hscalar _ hjle) _ _

theorem Fill_fuel (self : DlgJsonParser) (H : Host) (fuel : Nat) (attrs : JsonAttributes)
    (hfuel : Json.depthValues attrs < fuel) (StructDefinition : UStruct) (t : Val) (n : Nat) :
    self.Fill H fuel attrs StructDefinition t n ≠ .outOfFuel := by
  apply JsonAttributesToUStruct_fuel
  intro e he P r m
  exact JsonValueToUProperty_fuel self H fuel e.2
    (lt_of_le_of_lt (Json.depth_le_depthValues he) hfuel) P r m

theorem PropertyLoop_cons_none {CheckFlags : Nat} {rec : Converter} {attrs : JsonAttributes}
    {P : UProperty} (h : MatchedValue CheckFlags attrs P = none) (rest : List UProperty)
    (Index : Nat) (t : Val) (n : Nat) :
    PropertyLoop CheckFlags rec attrs (P :: rest) Index t n
      = PropertyLoop CheckFlags rec attrs rest (Index + 1) t n := by
  unfold MatchedValue at h
  simp only [PropertyLoop]
  split
  · rfl
  · rename_i hc
    rw [if_neg hc] at h
    split
    · rfl
    · rename_i jv hf
      rw [hf] at h
      split
      · rfl
      · rename_i hn
        simp [hn] at h

theorem PropertyLoop_cons_some {CheckFlags : Nat} {rec : Converter} {attrs : JsonAttributes}
    {P : UProperty} {jv : Json} (h : MatchedValue CheckFlags attrs P = some jv)
    (rest : List UProperty) (Index : Nat) (t : Val) (n : Nat) :
    PropertyLoop CheckFlags rec attrs (P :: rest) Index t n
      = match rec jv P (t.readProperty Index) n with
        | .done (_, r, n1) =>
          PropertyLoop CheckFlags rec attrs rest (Index + 1) (t.writeProperty Index r) n1
        | .assertFailed => .assertFailed
        | .outOfFuel => .outOfFuel := by
  unfold MatchedValue at h
  simp only [PropertyLoop]
  split
  · rename_i hc
    rw [if_pos hc] at h
    cases h
  · rename_i hc
    rw [if_neg hc] at h
    split
    · rename_i hf
      rw [hf] at h
      cases h
    · rename_i jv1 hf
      rw [hf] at h
      split
      · rename_i hn
        simp [hn] at h
      · rename_i hn
        simp [hn] at h
        subst h
        rfl

theorem PropertyLoop_frame {CheckFlags : Nat} {rec : Converter} {attrs : JsonAttributes} :
    ∀ (props : List UProperty) (Index : Nat) (t : Val) (n : Nat) (t1 : Val) (n1 : Nat),
      PropertyLoop CheckFlags rec attrs props Index t n = .done (t1, n1) →
      ∀ j, (∀ P, Index ≤ j → props[j - Index]? = some P → MatchedValue CheckFlags attrs P = none) →
        t1.readProperty j = t.readProperty j := by
  intro props
  induction props with
  | nil =>
    intro Index t n t1 n1 h j _
    simp only [PropertyLoop] at h
    cases h
    rfl
  | cons P rest ih =>
    intro Index t n t1 n1 h j hj
    have hrest : ∀ Q, Index + 1 ≤ j → rest[j - (Index + 1)]? = some Q →
        MatchedValue CheckFlags attrs Q = none := by
      intro Q hle hQ
      apply hj Q (by omega)
      have : j - Index = (j - (Index + 1)) + 1 := by omega
      rw [this]
      simpa using hQ
    cases hm : MatchedValue CheckFlags attrs P with
    | none =>
      rw [PropertyLoop_cons_none hm] at h
      exact ih _ _ _ _ _ h j hrest
    | some jv =>
      rw [PropertyLoop_cons_some hm] at h
      split at h
      · rename_i b r n2 _
        have h1 := ih _ _ _ _ _ h j hrest
        rw [h1, Val.readProperty_writeProperty]
        have hne : j ≠ Index := by
          intro heq
          subst heq
          have := hj P (le_refl _) (by simp)
          rw [this] at hm
          cases hm
        simp [hne]
      · cases h
      · cases h

theorem PropertyLoop_converted {CheckFlags : Nat} {rec : Converter} {attrs : JsonAttributes} :
    ∀ (props : List UProperty) (Index : Nat) (t : Val) (n : Nat) (t1 : Val) (n1 : Nat),
      PropertyLoop CheckFlags rec attrs props Index t n = .done (t1, n1) →
      ∀ k P jv, props[k]? = some P → MatchedValue CheckFlags attrs P = some jv →
        ∃ b r m m1, rec jv P (t.readProperty (Index + k)) m = .done (b, r, m1)
          ∧ t1.readProperty (Index + k) = r := by
  intro props
  induction props with
  | nil =>
    intro Index t n t1 n1 _ k P jv hk
    simp at hk
  | cons P0 rest ih =>
    intro Index t n t1 n1 h k P jv hk hm
    cases k with
    | zero =>
      simp at hk
      subst hk
      rw [PropertyLoop_cons_some hm] at h
      split at h
      · rename_i b r n2 hrec
        refine ⟨b, r, n, n2, hrec, ?_⟩
        have h1 := PropertyLoop_frame _ _ _ _ _ _ h Index (by intro Q hle; omega)
        rw [Nat.add_zero, h1, Val.readProperty_writeProperty]
        simp
      · cases h
      · cases h
    | succ k =>
      simp at hk
      have hidx : Index + (k + 1) = (Index + 1) + k := by omega
      cases hm0 : MatchedValue CheckFlags attrs P0 with
      | none =>
        rw [PropertyLoop_cons_none hm0] at h
        obtain ⟨b, r, m, m1, hrec, hread⟩ := ih _ _ _ _ _ h k P jv hk hm
        exact ⟨b, r, m, m1, by rw [hidx]; exact hrec, by rw [hidx]; exact hread⟩
      | some jv0 =>
        rw [PropertyLoop_cons_some hm0] at h
        split at h
        · rename_i b0 r0 n2 _
          obtain ⟨b, r, m, m1, hrec, hread⟩ := ih _ _ _ _ _ h k P jv hk hm
          rw [Val.readProperty_writeProperty] at hrec
          have hne : Index + 1 + k ≠ Index := by omega
          simp only [hne, if_false] at hrec
          exact ⟨b, r, m, m1, by rw [hidx]; exact hrec, by rw [hidx]; exact hread⟩
        · cases h
        · cases h

/-! ## The structure filler -/

theorem JsonAttributesToUStruct_done {self : DlgJsonParser} {H : Host} {rec : Converter}
    {attrs : JsonAttributes} {StructDefinition : UStruct} {t : Val} {n : Nat} {b : Bool}
    {t1 : Val} {n1 : Nat}
    (h : self.JsonAttributesToUStruct H rec attrs StructDefinition t n = .done (b, t1, n1)) :
    b = true ∧
      ((∃ s, StructDefinition = .ScriptStruct s ∧ s.IsJsonObjectWrapper = true
          ∧ t1 = .wrapper attrs t.cells ∧ n1 = n)
       ∨ ((∀ s, StructDefinition = .ScriptStruct s → s.IsJsonObjectWrapper = false)
          ∧ PropertyLoop self.CheckFlags rec attrs (RuntimeProperties H StructDefinition t) 0 t n
              = .done (t1, n1))) := by
  unfold DlgJsonParser.JsonAttributesToUStruct at h
  split at h
  · rename_i s
    split at h
    · rename_i hw
      cases h
      exact ⟨rfl, Or.inl ⟨s, rfl, hw, rfl, rfl⟩⟩
    · rename_i hw
      split at h
      · rename_i t2 n2 hloop
        cases h
        refine ⟨rfl, Or.inr ⟨?_, hloop⟩⟩
        intro s1 hs1
        cases hs1
        simpa using hw
      · cases h
      · cases h
  · split at h
    · split at h
      · rename_i t2 n2 hloop
        cases h
        refine ⟨rfl, Or.inr ⟨?_, hloop⟩⟩
        intro s1 hs1
        cases hs1
      · cases h
      · cases h
    · cases h

theorem PropertyLoop_no_assert {CheckFlags : Nat} {rec : Converter} {attrs : JsonAttributes} :
    ∀ (props : List UProperty),
      (∀ (k : Nat) P jv, props[k]? = some P → MatchedValue CheckFlags attrs P = some jv →
        ∀ r m, rec jv P r m ≠ .assertFailed) →
      ∀ (Index : Nat) (t : Val) (n : Nat),
        PropertyLoop CheckFlags rec attrs props Index t n ≠ .assertFailed := by
  intro props
  induction props with
  | nil => intro _ Index t n; simp [PropertyLoop]
  | cons P rest ih =>
    intro h Index t n
    have hrest : ∀ (k : Nat) Q jv, rest[k]? = some Q → MatchedValue CheckFlags attrs Q = some jv →
        ∀ r m, rec jv Q r m ≠ .assertFailed := fun k Q jv hk => h (k + 1) Q jv (by simpa using hk)
    cases hm : MatchedValue CheckFlags attrs P with
    | none =>
      rw [PropertyLoop_cons_none hm]
      exact ih hrest _ _ _
    | some jv =>
      rw [PropertyLoop_cons_some hm]
      split
      · exact ih hrest _ _ _
      · rename_i heq
        exact absurd heq (h 0 P jv (by simp) hm _ _)
      · simp

theorem PropertyLoop_object {CheckFlags : Nat} {rec : Converter} {attrs : JsonAttributes} :
    ∀ (props : List UProperty) (Index : Nat) (id : Nat) (cls : String) (cells : List Region)
      (n : Nat) (t1 : Val) (n1 : Nat),
      PropertyLoop CheckFlags rec attrs props Index (.object id cls cells) n = .done (t1, n1) →
      ∃ cells1, t1 = .object id cls cells1 := by
  intro props
  induction props with
  | nil =>
    intro Index id cls cells n t1 n1 h
    simp only [PropertyLoop] at h
    cases h
    exact ⟨cells, rfl⟩
  | cons P rest ih =>
    intro Index id cls cells n t1 n1 h
    cases hm : MatchedValue CheckFlags attrs P with
    | none =>
      rw [PropertyLoop_cons_none hm] at h
      exact ih _ _ _ _ _ _ _ h
    | some jv =>
      rw [PropertyLoop_cons_some hm] at h
      split at h
      · exact ih _ _ _ _ _ _ _ h
      · cases h
      · cases h


/-! ## C1 to C3: the structure filler -/

theorem Fill_done_converted {self : DlgJsonParser} {H : Host} {rec : Converter}
    {attrs : JsonAttributes} {StructDefinition : UStruct} {t : Val} {n : Nat} {b : Bool}
    {t1 : Val} {n1 : Nat}
    (h : self.JsonAttributesToUStruct H rec attrs StructDefinition t n = .done (b, t1, n1))
    (hw : ∀ s, StructDefinition = .ScriptStruct s → s.IsJsonObjectWrapper = false)
    {k : Nat} {P : UProperty} {jv : Json}
    (hP : (RuntimeProperties H StructDefinition t)[k]? = some P)
    (hm : MatchedValue self.CheckFlags attrs P = some jv) :
    ∃ ok r m m1, rec jv P (t.readProperty k) m = .done (ok, r, m1) ∧ t1.readProperty k = r := by
  rcases (JsonAttributesToUStruct_done h).2 with ⟨s, hs, hwrap, _, _⟩ | ⟨_, hloop⟩
  · rw [hw s hs] at hwrap
    cases hwrap
  · have := PropertyLoop_converted _ _ _ _ _ _ hloop k P jv hP hm
    simpa using this

theorem Fill_done_untouched {self : DlgJsonParser} {H : Host} {rec : Converter}
    {attrs : JsonAttributes} {StructDefinition : UStruct} {t : Val} {n : Nat} {b : Bool}
    {t1 : Val} {n1 : Nat}
    (h : self.JsonAttributesToUStruct H rec attrs StructDefinition t n = .done (b, t1, n1))
    {k : Nat}
    (hk : ∀ P, (RuntimeProperties H StructDefinition t)[k]? = some P →
      MatchedValue self.CheckFlags attrs P = none) :
    t1.readProperty k = t.readProperty k := by
  rcases (JsonAttributesToUStruct_done h).2 with ⟨s, _, _, ht1, _⟩ | ⟨_, hloop⟩
  · rw [ht1]
    cases t <;> rfl
  · exact PropertyLoop_frame _ _ _ _ _ _ hloop k (fun P _ hP => hk P (by simpa using hP))

/-- C1 (as amended): with fuel above the nesting depth of the attribute values,
`JsonAttributesToUStruct` never reports failure and never fails to end: either a `check`
assertion stops the pass or it returns true; it returns true whenever no property
conversion it starts trips an assertion (and a class descriptor comes with an instance);
and every property that has a non-null matching value is converted, whatever the
conversions of the other properties returned, its slot holding what its own conversion
left there. -/
theorem JsonAttributesToUStruct_never_reports_failure (self : DlgJsonParser) (H : Host)
    (fuel : Nat) (attrs : JsonAttributes) (StructDefinition : UStruct) (t : Val) (n : Nat)
    (hfuel : Json.depthValues attrs < fuel) :
    (self.Fill H fuel attrs StructDefinition t n = .assertFailed
      ∨ ∃ t1 n1, self.Fill H fuel attrs StructDefinition t n = .done (true, t1, n1))
    ∧ ((∀ (k : Nat) P jv, (RuntimeProperties H StructDefinition t)[k]? = some P →
          MatchedValue self.CheckFlags attrs P = some jv →
          ∀ r m, self.JsonValueToUProperty H fuel jv P r m ≠ .assertFailed) →
        (∀ c, StructDefinition = .Class c → t.isNullObject = false) →
        ∃ t1 n1, self.Fill H fuel attrs StructDefinition t n = .done (true, t1, n1))
    ∧ (∀ b t1 n1, self.Fill H fuel attrs StructDefinition t n = .done (b, t1, n1) →
        (∀ s, StructDefinition = .ScriptStruct s → s.IsJsonObjectWrapper = false) →
        ∀ (k : Nat) P jv, (RuntimeProperties H StructDefinition t)[k]? = some P →
          MatchedValue self.CheckFlags attrs P = some jv →
          ∃ ok r m m1, self.JsonValueToUProperty H fuel jv P (t.readProperty k) m = .done (ok, r, m1)
            ∧ t1.readProperty k = r) := by
  have hnofuel := Fill_fuel self H fuel attrs hfuel StructDefinition t n
  have hcases : ∀ o : Outcome (Bool × Val × Nat), o = self.Fill H fuel attrs StructDefinition t n →
      o ≠ .assertFailed → ∃ t1 n1, self.Fill H fuel attrs StructDefinition t n = .done (true, t1, n1) := by
    intro o ho hna
    cases o with
    | done a =>
      obtain ⟨b, t1, n1⟩ := a
      have hb := (JsonAttributesToUStruct_done ho.symm).1
      subst hb
      exact ⟨t1, n1, ho.symm⟩
    | assertFailed => exact absurd rfl hna
    | outOfFuel => exact absurd ho.symm hnofuel
  refine ⟨?_, ?_, ?_⟩
  · by_cases hA : self.Fill H fuel attrs StructDefinition t n = .assertFailed
    · exact Or.inl hA
    · exact Or.inr (hcases _ rfl hA)
  · intro hconv hinst
    apply hcases _ rfl
    unfold DlgJsonParser.Fill DlgJsonParser.JsonAttributesToUStruct
    cases StructDefinition with
    | ScriptStruct s =>
      simp only
      split
      · simp
      · split
        · simp
        · rename_i heq
          exact absurd heq (PropertyLoop_no_assert _ hconv _ _ _)
        · simp
    | Class c =>
      cases t with
      | object id cls cells =>
        simp only
        split
        · simp
        · rename_i heq
          exact absurd heq (PropertyLoop_no_assert _ hconv _ _ _)
        · simp
      | _ => simp [Val.isNullObject] at hinst
  · intro b t1 n1 h hw k P jv hP hm
    exact Fill_done_converted h hw hP hm

/-- Witness of C1: an enumeration property whose value names no member fails, the
integer property after it is still filled, and the call returns true. -/
theorem JsonAttributesToUStruct_never_reports_failure_witness :
    Json.depthValues [("mood", Json.string "Angry"), ("A", Json.number ⟨5, 0⟩)] < 1
    ∧ (sampleParser.JsonValueToUProperty sampleHost 1 (Json.string "Angry") moodProperty
        [Val.int 0] 0 = .done (false, [Val.int 0], 0))
    ∧ (sampleParser.Fill sampleHost 1 [("mood", Json.string "Angry"), ("A", Json.number ⟨5, 0⟩)]
        (.ScriptStruct (.mk "Sample" false false [moodProperty, numberA]))
        (.struct [[Val.int 0], [Val.int 0]]) 0
        = .done (true, .struct [[Val.int 0], [Val.int 5]], 0))
    ∧ (sampleParser.Fill sampleHost 1 [("mood", Json.string "Angry"), ("A", Json.number ⟨5, 0⟩)]
        (.ScriptStruct (.mk "Sample" false false [moodProperty, numberA]))
        (.struct [[Val.int 0], [Val.int 0]]) 0 = .assertFailed
      ∨ ∃ t1 n1, sampleParser.Fill sampleHost 1
        [("mood", Json.string "Angry"), ("A", Json.number ⟨5, 0⟩)]
        (.ScriptStruct (.mk "Sample" false false [moodProperty, numberA]))
        (.struct [[Val.int 0], [Val.int 0]]) 0 = .done (true, t1, n1)) :=
  ⟨by decide, rfl, rfl,
    (JsonAttributesToUStruct_never_reports_failure sampleParser sampleHost 1
      [("mood", Json.string "Angry"), ("A", Json.number ⟨5, 0⟩)]
      (.ScriptStruct (.mk "Sample" false false [moodProperty, numberA]))
      (.struct [[Val.int 0], [Val.int 0]]) 0 (by decide)).1⟩

/-- Counterexample to C1 as stated: an object reference property given a JSON number
trips `check(JsonValue->Type == EJson::Object)`, so the call does not return true. -/
theorem JsonAttributesToUStruct_returns_true_counterexample :
    sampleParser.Fill sampleHost 1 [("greet", Json.number ⟨1, 0⟩)]
        (.ScriptStruct (.mk "Sample" false false [greetProperty])) (.struct [[Val.null]]) 0
      = .assertFailed
    ∧ ¬ ∃ t1 n1, sampleParser.Fill sampleHost 1 [("greet", Json.number ⟨1, 0⟩)]
        (.ScriptStruct (.mk "Sample" false false [greetProperty])) (.struct [[Val.null]]) 0
      = .done (true, t1, n1) := by
  have h : sampleParser.Fill sampleHost 1 [("greet", Json.number ⟨1, 0⟩)]
        (.ScriptStruct (.mk "Sample" false false [greetProperty])) (.struct [[Val.null]]) 0
      = .assertFailed := rfl
  refine ⟨h, ?_⟩
  rintro ⟨t1, n1, h1⟩
  rw [h] at h1
  cases h1


theorem MatchedValue_none_of_unmatched {CheckFlags : Nat} {attrs : JsonAttributes} {P : UProperty}
    (h : FindJsonValue P.GetName attrs = none ∨ FindJsonValue P.GetName attrs = some Json.null) :
    MatchedValue CheckFlags attrs P = none := by
  unfold MatchedValue
  split
  · rfl
  · rcases h with h | h
    · rw [h]
    · rw [h]
      rfl

/-- C2: after `JsonAttributesToUStruct` returns, a property whose name matches no key of
the JSON object, or whose matched value is JSON null, has the content of its slot
unchanged. -/
theorem unmatched_or_null_property_is_untouched (self : DlgJsonParser) (H : Host) (fuel : Nat)
    (attrs : JsonAttributes) (StructDefinition : UStruct) (t : Val) (n : Nat) (b : Bool)
    (t1 : Val) (n1 : Nat)
    (hdone : self.Fill H fuel attrs StructDefinition t n = .done (b, t1, n1))
    (k : Nat) (P : UProperty) (hP : (RuntimeProperties H StructDefinition t)[k]? = some P)
    (hskip : FindJsonValue P.GetName attrs = none
      ∨ FindJsonValue P.GetName attrs = some Json.null) :
    t1.readProperty k = t.readProperty k := by
  apply Fill_done_untouched hdone
  intro Q hQ
  rw [hP] at hQ
  cases hQ
  exact MatchedValue_none_of_unmatched hskip

/-- Witness of C2: `text` is matched by a JSON null and `A` by no key; both slots keep
their content while `mood` is filled. -/
theorem unmatched_or_null_property_is_untouched_witness :
    sampleParser.Fill sampleHost 1 [("text", Json.null), ("mood", Json.string "Happy")]
        (.ScriptStruct (.mk "Sample" false false [numberA, textProperty, moodProperty]))
        (.struct [[Val.int 3], [Val.str "old"], [Val.int 0]]) 0
      = .done (true, .struct [[Val.int 3], [Val.str "old"], [Val.int 1]], 0)
    ∧ (Val.struct [[Val.int 3], [Val.str "old"], [Val.int 1]]).readProperty 1
      = (Val.struct [[Val.int 3], [Val.str "old"], [Val.int 0]]).readProperty 1 :=
  ⟨rfl, unmatched_or_null_property_is_untouched sampleParser sampleHost 1
      [("text", Json.null), ("mood", Json.string "Happy")]
      (.ScriptStruct (.mk "Sample" false false [numberA, textProperty, moodProperty]))
      (.struct [[Val.int 3], [Val.str "old"], [Val.int 0]]) 0 true
      (.struct [[Val.int 3], [Val.str "old"], [Val.int 1]]) 0 rfl 1 textProperty rfl (Or.inr rfl)⟩

theorem FindJsonValue_iff (name : String) (attrs : JsonAttributes) (v : Json) :
    FindJsonValue name attrs = some v ↔
      ∃ pre key post, attrs = pre ++ (key, v) :: post ∧ EqualsIgnoreCase name key = true
        ∧ ∀ e ∈ pre, EqualsIgnoreCase name e.1 = false := by
  constructor
  · intro h
    induction attrs with
    | nil => simp [FindJsonValue] at h
    | cons e rest ih =>
      obtain ⟨k1, v1⟩ := e
      simp only [FindJsonValue] at h
      split at h
      · rename_i heq
        cases h
        exact ⟨[], k1, rest, rfl, heq, by simp⟩
      · rename_i hne
        obtain ⟨pre, key, post, hattrs, hkey, hpre⟩ := ih h
        refine ⟨(k1, v1) :: pre, key, post, by rw [hattrs]; rfl, hkey, ?_⟩
        intro e he
        rcases List.mem_cons.mp he with rfl | he
        · simpa using hne
        · exact hpre e he
  · rintro ⟨pre, key, post, hattrs, hkey, hpre⟩
    subst hattrs
    induction pre with
    | nil => simp [FindJsonValue, hkey]
    | cons e pre ih =>
      obtain ⟨k1, v1⟩ := e
      have h1 : EqualsIgnoreCase name k1 = false := hpre (k1, v1) (List.mem_cons_self _ _)
      simp only [List.cons_append, FindJsonValue, h1]
      exact ih (fun e he => hpre e (List.mem_cons_of_mem _ he))

theorem EqualsIgnoreCase_iff (a b : String) :
    EqualsIgnoreCase a b = true ↔ a.data.map Char.toLower = b.data.map Char.toLower := by
  simp [EqualsIgnoreCase]

theorem EqualsIgnoreCase_symm (a b : String) : EqualsIgnoreCase a b = EqualsIgnoreCase b a := by
  rw [Bool.eq_iff_iff, EqualsIgnoreCase_iff, EqualsIgnoreCase_iff]
  exact eq_comm

theorem EqualsIgnoreCase_trans {a b c : String} (h1 : EqualsIgnoreCase a b = true)
    (h2 : EqualsIgnoreCase b c = true) : EqualsIgnoreCase a c = true := by
  rw [EqualsIgnoreCase_iff] at h1 h2 ⊢
  rw [h1, h2]

theorem FindJsonValue_SetField (name : String) (Values : JsonAttributes) (key : String)
    (v : Json) :
    FindJsonValue name (SetField Values key v)
      = if EqualsIgnoreCase name key then some v else FindJsonValue name Values := by
  induction Values with
  | nil => simp [SetField, FindJsonValue]
  | cons e rest ih =>
    obtain ⟨k0, v0⟩ := e
    simp only [SetField, FStringEquals]
    by_cases hk : EqualsIgnoreCase k0 key = true
    · rw [if_pos hk]
      simp only [FindJsonValue]
      by_cases hn : EqualsIgnoreCase name key = true
      · simp [hn]
      · have hn0 : ¬ EqualsIgnoreCase name k0 = true := fun h =>
          hn (EqualsIgnoreCase_trans h hk)
        simp [hn, hn0]
    · rw [if_neg hk]
      simp only [FindJsonValue]
      by_cases hn0 : EqualsIgnoreCase name k0 = true
      · have hn : ¬ EqualsIgnoreCase name key = true := fun h =>
          hk (EqualsIgnoreCase_trans (by rw [EqualsIgnoreCase_symm]; exact hn0) h)
        simp [hn, hn0]
      · simp [hn0, ih]

theorem FindJsonValue_foldl_SetField (name : String) (post : List (String × Json))
    (hpost : ∀ e ∈ post, EqualsIgnoreCase name e.1 = false) (Values : JsonAttributes) :
    FindJsonValue name (post.foldl (fun Values e => SetField Values e.1 e.2) Values)
      = FindJsonValue name Values := by
  induction post generalizing Values with
  | nil => rfl
  | cons e post ih =>
    simp only [List.foldl_cons]
    rw [ih (fun x hx => hpost x (List.mem_cons_of_mem _ hx)), FindJsonValue_SetField,
      hpost e (List.mem_cons_self _ _)]
    simp

theorem FindJsonValue_FromMembers_last (name : String) (pre post : List (String × Json))
    (key : String) (v : Json) (hkey : EqualsIgnoreCase name key = true)
    (hpost : ∀ e ∈ post, EqualsIgnoreCase name e.1 = false) :
    FindJsonValue name (FromMembers (pre ++ (key, v) :: post)) = some v := by
  unfold FromMembers
  rw [List.foldl_append, List.foldl_cons, FindJsonValue_foldl_SetField name post hpost,
    FindJsonValue_SetField, hkey]
  simp

theorem FindJsonValue_FromMembers_none (name : String) (members : List (String × Json))
    (h : ∀ e ∈ members, EqualsIgnoreCase name e.1 = false) :
    FindJsonValue name (FromMembers members) = none := by
  unfold FromMembers
  rw [FindJsonValue_foldl_SetField name members h]
  rfl

theorem mem_SetField {Values : JsonAttributes} {key : String} {v : Json} {e : String × Json}
    (h : e ∈ SetField Values key v) : e = (key, v) ∨ e ∈ Values := by
  induction Values with
  | nil =>
    simp only [SetField, List.mem_singleton] at h
    exact Or.inl h
  | cons e0 rest ih =>
    obtain ⟨k0, v0⟩ := e0
    simp only [SetField] at h
    split at h
    · rcases List.mem_cons.mp h with h | h
      · exact Or.inl h
      · exact Or.inr (List.mem_cons_of_mem _ h)
    · rcases List.mem_cons.mp h with h | h
      · exact Or.inr (by rw [h]; exact List.mem_cons_self _ _)
      · rcases ih h with h | h
        · exact Or.inl h
        · exact Or.inr (List.mem_cons_of_mem _ h)

theorem KeysDistinct_cons (k0 : String) (v0 : Json) (rest : JsonAttributes) :
    KeysDistinct ((k0, v0) :: rest) = true
      ↔ (∀ e ∈ rest, EqualsIgnoreCase k0 e.1 = false) ∧ KeysDistinct rest = true := by
  simp [KeysDistinct, FStringEquals]

theorem KeysDistinct_SetField (Values : JsonAttributes) (key : String) (v : Json)
    (h : KeysDistinct Values = true) : KeysDistinct (SetField Values key v) = true := by
  induction Values with
  | nil => simp [SetField, KeysDistinct]
  | cons e0 rest ih =>
    obtain ⟨k0, v0⟩ := e0
    rw [KeysDistinct_cons] at h
    simp only [SetField, FStringEquals]
    by_cases hk : EqualsIgnoreCase k0 key = true
    · rw [if_pos hk, KeysDistinct_cons]
      refine ⟨?_, h.2⟩
      intro e he
      have h0 := h.1 e he
      cases hke : EqualsIgnoreCase key e.1 with
      | false => rfl
      | true =>
        rw [EqualsIgnoreCase_trans hk hke] at h0
        cases h0
    · rw [if_neg hk, KeysDistinct_cons]
      refine ⟨?_, ih h.2⟩
      intro e he
      rcases mem_SetField he with rfl | he
      · simpa using hk
      · exact h.1 e he

theorem KeysDistinct_FromMembers (members : List (String × Json)) :
    KeysDistinct (FromMembers members) = true := by
  unfold FromMembers
  suffices hs : ∀ (Values : JsonAttributes), KeysDistinct Values = true →
      KeysDistinct (members.foldl (fun Values e => SetField Values e.1 e.2) Values) = true from
    hs [] rfl
  induction members with
  | nil => intro Values h; exact h
  | cons e members ih =>
    intro Values h
    simp only [List.foldl_cons]
    exact ih _ (KeysDistinct_SetField Values e.1 e.2 h)

theorem FindJsonValue_of_mem {attrs : JsonAttributes} (hd : KeysDistinct attrs = true)
    {name key : String} {v : Json} (hmem : (key, v) ∈ attrs)
    (hkey : EqualsIgnoreCase name key = true) : FindJsonValue name attrs = some v := by
  induction attrs with
  | nil => cases hmem
  | cons e0 rest ih =>
    obtain ⟨k0, v0⟩ := e0
    rw [KeysDistinct_cons] at hd
    simp only [FindJsonValue]
    rcases List.mem_cons.mp hmem with heq | hmem
    · cases heq
      rw [if_pos hkey]
    · have h0 := hd.1 (key, v) hmem
      have hn0 : ¬ EqualsIgnoreCase name k0 = true := by
        intro hn
        have : EqualsIgnoreCase k0 key = true :=
          EqualsIgnoreCase_trans (by rw [EqualsIgnoreCase_symm]; exact hn) hkey
        rw [this] at h0
        cases h0
      rw [if_neg hn0]
      exact ih hd.2 hmem

theorem KeysDistinct_unique {attrs : JsonAttributes} (hd : KeysDistinct attrs = true)
    {key1 key2 : String} {v1 v2 : Json} (h1 : (key1, v1) ∈ attrs) (h2 : (key2, v2) ∈ attrs)
    (hk : EqualsIgnoreCase key1 key2 = true) : (key1, v1) = (key2, v2) := by
  induction attrs with
  | nil => cases h1
  | cons e0 rest ih =>
    obtain ⟨k0, v0⟩ := e0
    rw [KeysDistinct_cons] at hd
    rcases List.mem_cons.mp h1 with e1 | m1
    · rcases List.mem_cons.mp h2 with e2 | m2
      · rw [e1, e2]
      · cases e1
        have := hd.1 (key2, v2) m2
        rw [hk] at this
        cases this
    · rcases List.mem_cons.mp h2 with e2 | m2
      · cases e2
        have := hd.1 (key1, v1) m1
        rw [EqualsIgnoreCase_symm, hk] at this
        cases this
      · exact ih hd.2 m1 m2

/-- C3 (as amended): the structure filler matches a property to a JSON key ignoring
case. The attributes are a map that holds one entry for each key ignoring case, so at
most one entry matches a property: the search finds that entry wherever it stands in the
map, and when the filler returns the slot of the property holds what the conversion of
the value of that entry left there. The map of a document holds one entry for each key
and, for a key that the document repeats ignoring case, the value of its last
occurrence. -/
theorem matching_entry_of_map_is_converted :
    (∀ (attrs : JsonAttributes) (name key : String) (v : Json),
      KeysDistinct attrs = true → (key, v) ∈ attrs → EqualsIgnoreCase name key = true →
      FindJsonValue name attrs = some v
        ∧ ∀ (key1 : String) (v1 : Json), (key1, v1) ∈ attrs →
            EqualsIgnoreCase name key1 = true → (key1, v1) = (key, v))
    ∧ (∀ (self : DlgJsonParser) (H : Host) (fuel : Nat) (StructDefinition : UStruct) (t : Val)
        (n : Nat) (b : Bool) (t1 : Val) (n1 : Nat) (k : Nat) (P : UProperty)
        (attrs : JsonAttributes) (key : String) (v : Json),
        self.Fill H fuel attrs StructDefinition t n = .done (b, t1, n1) →
        (∀ s, StructDefinition = .ScriptStruct s → s.IsJsonObjectWrapper = false) →
        (RuntimeProperties H StructDefinition t)[k]? = some P →
        (self.CheckFlags != 0 && !P.HasAnyPropertyFlags self.CheckFlags) = false →
        KeysDistinct attrs = true → (key, v) ∈ attrs →
        EqualsIgnoreCase P.GetName key = true →
        v.IsNull = false →
        ∃ ok r m m1,
          self.JsonValueToUProperty H fuel v P (t.readProperty k) m = .done (ok, r, m1)
            ∧ t1.readProperty k = r)
    ∧ (∀ (members : List (String × Json)), KeysDistinct (FromMembers members) = true)
    ∧ (∀ (name : String) (pre post : List (String × Json)) (key : String) (v : Json),
        EqualsIgnoreCase name key = true →
        (∀ e ∈ post, EqualsIgnoreCase name e.1 = false) →
        FindJsonValue name (FromMembers (pre ++ (key, v) :: post)) = some v)
    ∧ (∀ (name : String) (members : List (String × Json)),
        (∀ e ∈ members, EqualsIgnoreCase name e.1 = false) →
        FindJsonValue name (FromMembers members) = none) := by
  refine ⟨?_, ?_, KeysDistinct_FromMembers, FindJsonValue_FromMembers_last,
    FindJsonValue_FromMembers_none⟩
  · intro attrs name key v hd hmem hkey
    refine ⟨FindJsonValue_of_mem hd hmem hkey, ?_⟩
    intro key1 v1 hmem1 hkey1
    exact KeysDistinct_unique hd hmem1 hmem
      (EqualsIgnoreCase_trans (by rw [EqualsIgnoreCase_symm]; exact hkey1) hkey)
  · intro self H fuel StructDefinition t n b t1 n1 k P attrs key v hdone hw hP hflags hd hmem
      hkey hnull
    have hfind : FindJsonValue P.GetName attrs = some v := FindJsonValue_of_mem hd hmem hkey
    have hm : MatchedValue self.CheckFlags attrs P = some v := by
      unfold MatchedValue
      rw [hflags, hfind]
      simp [hnull]
    exact Fill_done_converted hdone hw hP hm

/-- Witness of C3: in the map `{"text": "hi", "a": 2}` the entry of key `a` is the one
that matches the property `A`, after the entry of another key; the filler stores 2. -/
theorem matching_entry_of_map_is_converted_witness :
    KeysDistinct [("text", Json.string "hi"), ("a", Json.number ⟨2, 0⟩)] = true
    ∧ EqualsIgnoreCase "A" "a" = true
    ∧ FindJsonValue "A" [("text", Json.string "hi"), ("a", Json.number ⟨2, 0⟩)]
      = some (Json.number ⟨2, 0⟩)
    ∧ sampleParser.Fill sampleHost 1 [("text", Json.string "hi"), ("a", Json.number ⟨2, 0⟩)]
        (.ScriptStruct (.mk "Sample" false false [numberA])) (.struct [[Val.int 0]]) 0
      = .done (true, .struct [[Val.int 2]], 0) :=
  ⟨rfl, rfl,
    (matching_entry_of_map_is_converted.1 [("text", Json.string "hi"), ("a", Json.number ⟨2, 0⟩)]
      "A" "a" (Json.number ⟨2, 0⟩) rfl (List.mem_cons_of_mem _ (List.mem_cons_self _ _)) rfl).1,
    rfl⟩

/-- Counterexample to C3 as stated: the document `{"A": 1, "a": 2}` repeats a key ignoring
case; its map holds the single entry of the last occurrence, and the integer property
`A` filled from it holds 2, not 1. -/
theorem repeated_key_in_document_counterexample :
    FromMembers [("A", Json.number ⟨1, 0⟩), ("a", Json.number ⟨2, 0⟩)]
      = [("a", Json.number ⟨2, 0⟩)]
    ∧ sampleParser.Fill sampleHost 1
        (FromMembers [("A", Json.number ⟨1, 0⟩), ("a", Json.number ⟨2, 0⟩)])
        (.ScriptStruct (.mk "Sample" false false [numberA])) (.struct [[Val.int 0]]) 0
      = .done (true, .struct [[Val.int 2]], 0) :=
  ⟨rfl, rfl⟩

/-! ## C4: what a failed conversion leaves -/

theorem JsonObjectToUStruct_not_false {self : DlgJsonParser} {H : Host} {rec : Converter}
    {attrs : JsonAttributes} {StructDefinition : UStruct} {t : Val} {n : Nat} {t1 : Val} {n1 : Nat}
    (h : self.JsonObjectToUStruct H rec attrs StructDefinition t n = .done (false, t1, n1)) :
    False := by
  have := (JsonAttributesToUStruct_done h).1
  cases this

theorem ConvertScalar_failure_untouched {self : DlgJsonParser} {H : Host} {rec : Converter}
    {JsonValue : Json} {Property : UProperty} {OutValue : Val} {n : Nat} {v1 : Val} {n1 : Nat}
    (hkind : Property.Class.IsSingleWrite = true)
    (h : self.ConvertScalarJsonValueToUProperty H rec JsonValue Property OutValue n
      = .done (false, v1, n1)) :
    v1 = OutValue ∧ n1 = n := by
  revert h hkind
  unfold DlgJsonParser.ConvertScalarJsonValueToUProperty
  cases Property.Class with
  | UEnumProperty Enum T =>
    intro _ h
    cases JsonValue <;> simp [Stored_ne_false] at h
    split at h <;> simp [Stored_ne_false] at h
    exact ⟨h.1.symm, h.2.symm⟩
  | UNumericProperty e fl it T =>
    intro _ h
    cases e <;> cases JsonValue <;> cases fl <;> cases it <;> simp [Stored_ne_false] at h
    all_goals first
      | exact ⟨h.1.symm, h.2.symm⟩
      | (split at h <;> simp [Stored_ne_false] at h; exact ⟨h.1.symm, h.2.symm⟩)
  | UBoolProperty => intro _ h; simp at h
  | UStrProperty => intro _ h; simp at h
  | UTextProperty =>
    intro _ h
    cases JsonValue <;> simp at h
    all_goals first
      | exact ⟨h.1.symm, h.2.symm⟩
      | (split at h <;> simp at h; exact ⟨h.1.symm, h.2.symm⟩)
  | UArrayProperty Inner => intro hk; simp [UPropertyClass.IsSingleWrite] at hk
  | USetProperty ElementProp => intro hk; simp [UPropertyClass.IsSingleWrite] at hk
  | UMapProperty KeyProp ValueProp => intro hk; simp [UPropertyClass.IsSingleWrite] at hk
  | Other c => intro hk; simp [UPropertyClass.IsSingleWrite] at hk
  | UStructProperty Struct =>
    intro _ h
    cases JsonValue with
    | object values => exact (JsonObjectToUStruct_not_false h).elim
    | string s =>
      simp only at h
      repeat' split at h
      all_goals first
        | (simp at h; done)
        | (simp at h; exact ⟨h.1.symm, h.2.symm⟩)
    | _ =>
      simp at h
      exact ⟨h.1.symm, h.2.symm⟩
  | UObjectProperty PropertyClass =>
    intro _ h
    cases JsonValue with
    | object values =>
      simp only at h
      split at h
      · simp at h
        exact ⟨h.1.symm, h.2.symm⟩
      · split at h
        · split at h
          · cases h
          · split at h
            · simp at h
              exact ⟨h.1.symm, h.2.symm⟩
            · exact (JsonObjectToUStruct_not_false h).elim
        · exact (JsonObjectToUStruct_not_false h).elim
    | _ => simp at h

theorem Region.write_read_same (r : Region) (k : Nat) : Region.Same (Region.write r k (Region.read r k)) r := by
  intro j
  rw [Region.read_write]
  split
  · rename_i h
    rw [h]
  · rfl

theorem IsArrayProperty_of_singleWrite {P : UProperty} (h : P.Class.IsSingleWrite = true) :
    P.IsArrayProperty = false := by
  unfold UProperty.IsArrayProperty
  revert h
  cases P.Class <;> simp [UPropertyClass.IsSingleWrite]

theorem ConvertAtOutValue_failure_untouched {self : DlgJsonParser} {H : Host} {rec : Converter}
    {JsonValue : Json} {Property : UProperty} {OutValue : Region} {n : Nat} {r : Region} {n1 : Nat}
    (hkind : Property.Class.IsSingleWrite = true)
    (h : ConvertAtOutValue self H rec JsonValue Property OutValue n = .done (false, r, n1)) :
    Region.Same r OutValue ∧ n1 = n := by
  unfold ConvertAtOutValue at h
  split at h
  · rename_i ok v n2 hconv
    simp at h
    obtain ⟨hok, hr, hn⟩ := h
    subst hok
    obtain ⟨hv, hn2⟩ := ConvertScalar_failure_untouched hkind hconv
    subst hv hn2 hr
    exact ⟨Region.write_read_same _ _, hn.symm⟩
  · cases h
  · cases h

theorem JsonValueToUProperty_failure_untouched {self : DlgJsonParser} {H : Host} {fuel : Nat}
    {JsonValue : Json} {Property : UProperty} {OutValue : Region} {n : Nat} {r : Region} {n1 : Nat}
    (hkind : Property.Class.IsSingleWrite = true) (hdim : Property.ArrayDim ≤ 1)
    (h : self.JsonValueToUProperty H fuel JsonValue Property OutValue n = .done (false, r, n1)) :
    Region.Same r OutValue ∧ n1 = n := by
  cases fuel with
  | zero => simp [DlgJsonParser.JsonValueToUProperty] at h
  | succ fuel =>
    have harr := IsArrayProperty_of_singleWrite hkind
    simp only [DlgJsonParser.JsonValueToUProperty, DlgJsonParser.JsonValueToUPropertyBody, harr] at h
    cases JsonValue with
    | array xs =>
      simp only [Bool.false_and, Bool.false_eq_true, if_false] at h
      have hcount : (Clamp xs.length 0 Property.ArrayDim).toNat ≤ 1 := by
        unfold Clamp
        split
        · simp
        · split <;> omega
      generalize (Clamp xs.length 0 Property.ArrayDim).toNat = m at h hcount
      have hlen : (xs.take m).length ≤ 1 := by
        rw [List.length_take]
        omega
      generalize xs.take m = items at h hlen
      cases items with
      | nil => simp [NativeArrayLoop] at h
      | cons x rest =>
        cases rest with
        | nil =>
          simp only [NativeArrayLoop] at h
          split at h
          · cases h
          · rename_i v n2 hconv
            simp at h
            obtain ⟨hr, hn⟩ := h
            obtain ⟨hv, hn2⟩ := ConvertScalar_failure_untouched hkind hconv
            subst hv hn2 hr
            exact ⟨Region.write_read_same _ _, hn.symm⟩
          · cases h
          · cases h
        | cons y rest => simp at hlen
    | null =>
      simp only [Bool.false_eq_true, if_false] at h
      exact ConvertAtOutValue_failure_untouched hkind h
    | bool b =>
      simp only [Bool.false_eq_true, if_false] at h
      exact ConvertAtOutValue_failure_untouched hkind h
    | number d =>
      simp only [Bool.false_eq_true, if_false] at h
      exact ConvertAtOutValue_failure_untouched hkind h
    | string s =>
      simp only [Bool.false_eq_true, if_false] at h
      exact ConvertAtOutValue_failure_untouched hkind h
    | object values =>
      simp only [Bool.false_eq_true, if_false] at h
      exact ConvertAtOutValue_failure_untouched hkind h

/-- C4 (as amended): a failed conversion leaves the slot as it was for the property
classes that write their slot in one final step (Enum, Numeric, Bool, String,
LocalizedText, Struct and PolymorphicObjectRef): for these, when
`ConvertScalarJsonValueToUProperty` returns false the element and the instance counter
are unchanged, and when `JsonValueToUProperty` returns false for such a property that is
not a fixed-size native array (`ArrayDim` at most 1) every element of the region has its
content unchanged.  Dynamic arrays, sets, maps and native arrays are not covered. -/
theorem failed_single_write_conversion_leaves_slot (self : DlgJsonParser) (H : Host)
    (fuel : Nat) (JsonValue : Json) (Property : UProperty)
    (hkind : Property.Class.IsSingleWrite = true) :
    (∀ (rec : Converter) (OutValue : Val) (n : Nat) (v1 : Val) (n1 : Nat),
      self.ConvertScalarJsonValueToUProperty H rec JsonValue Property OutValue n
        = .done (false, v1, n1) → v1 = OutValue ∧ n1 = n)
    ∧ (Property.ArrayDim ≤ 1 → ∀ (OutValue : Region) (n : Nat) (r : Region) (n1 : Nat),
      self.JsonValueToUProperty H fuel JsonValue Property OutValue n = .done (false, r, n1) →
        (∀ k, Region.read r k = Region.read OutValue k) ∧ n1 = n) :=
  ⟨fun _ _ _ _ _ h => ConvertScalar_failure_untouched hkind h,
   fun hdim _ _ _ _ h => JsonValueToUProperty_failure_untouched hkind hdim h⟩

/-- Witness of C4: the enumeration property given a name that is no member fails and
its slot keeps the value 7. -/
theorem failed_single_write_conversion_leaves_slot_witness :
    moodProperty.Class.IsSingleWrite = true
    ∧ sampleParser.JsonValueToUProperty sampleHost 1 (Json.string "Angry") moodProperty
        [Val.int 7] 0 = .done (false, [Val.int 7], 0)
    ∧ ((∀ k, Region.read [Val.int 7] k = Region.read [Val.int 7] k) ∧ 0 = 0) :=
  ⟨rfl, rfl,
    (failed_single_write_conversion_leaves_slot sampleParser sampleHost 1 (Json.string "Angry")
      moodProperty rfl).2 (by decide) [Val.int 7] 0 [Val.int 7] 0 rfl⟩

/-- Counterexample to C4 as stated: converting `["Happy", "Angry"]` into an empty dynamic
array of moods returns false, and the array is left resized to two elements with the
first one written. -/
theorem failed_array_conversion_counterexample :
    sampleParser.JsonValueToUProperty sampleHost 2
        (Json.array [Json.string "Happy", Json.string "Angry"]) moodsProperty [Val.array []] 0
      = .done (false, [Val.array [Val.int 1, Val.int 0]], 0)
    ∧ Region.read [Val.array [Val.int 1, Val.int 0]] 0 ≠ Region.read [Val.array []] 0 := by
  refine ⟨rfl, ?_⟩
  intro h
  simp [Region.read] at h


/-! ## C5: a set property given a JSON array -/

theorem Clamp_succ_one (len : Nat) : (Clamp ((len + 1 : Nat) : Int) 0 1).toNat = 1 := by
  unfold Clamp
  split
  · omega
  · split <;> omega

/-- C5 (the code departs from the claim): through `JsonValueToUProperty` the JSON array
`["a","b","a"]` given to an empty set of strings returns false and leaves the set empty.
A set property is not an array property, so the array takes the native-array path: only
item 0 reaches the scalar converter, whose `TSet` branch rejects a JSON string.  This
holds for every set property with `ArrayDim` 1 and every JSON array that starts with a
string; the `TSet` branch itself, handed the array, would add the three elements. -/
theorem set_property_rejects_json_array :
    sampleParser.JsonValueToUProperty sampleHost 2
        (Json.array [Json.string "a", Json.string "b", Json.string "a"]) tagsProperty
        [Val.set []] 0
      = .done (false, [Val.set []], 0)
    ∧ (∀ (self : DlgJsonParser) (H : Host) (fuel : Nat) (name : String) (flags : Nat)
        (ElementProp : UProperty) (s : String) (rest : List Json) (OutValue : Region) (n : Nat),
        self.JsonValueToUProperty H (fuel + 1) (Json.array (Json.string s :: rest))
            (.mk name 1 flags (.USetProperty ElementProp)) OutValue n
          = .done (false, Region.write OutValue 0 (Region.read OutValue 0), n))
    ∧ sampleParser.ConvertScalarJsonValueToUProperty sampleHost
        (sampleParser.JsonValueToUProperty sampleHost 1)
        (Json.array [Json.string "a", Json.string "b", Json.string "a"]) tagsProperty
        (Val.set []) 0
      = .done (true, Val.set [Val.str "a", Val.str "b", Val.str "a"], 0) := by
  refine ⟨rfl, ?_, rfl⟩
  intro self H fuel name flags ElementProp s rest OutValue n
  have hc := Clamp_succ_one rest.length
  simp only [DlgJsonParser.JsonValueToUProperty, DlgJsonParser.JsonValueToUPropertyBody,
    UProperty.IsArrayProperty, UProperty.Class, UProperty.ArrayDim, List.length_cons]
  simp only [Bool.false_and, Bool.false_eq_true, if_false]
  rw [hc]
  simp [NativeArrayLoop, DlgJsonParser.ConvertScalarJsonValueToUProperty, UProperty.Class]

/-! ## C6 to C10: object references -/

theorem HasField_of_TryGetStringField {H : Host} {Values : JsonAttributes} {FieldName s : String}
    (h : TryGetStringField H Values FieldName = some s) : HasField Values FieldName = true := by
  unfold TryGetStringField at h
  unfold HasField
  cases hf : FindField Values FieldName with
  | none => rw [hf] at h; cases h
  | some j => rfl

theorem ConvertScalar_object_without_type (self : DlgJsonParser) (H : Host) (rec : Converter)
    (JsonObject : JsonAttributes) (name : String) (dim : Int) (flags : Nat) (cls : String)
    (OutValue : Val) (n : Nat) (hno : HasField JsonObject SpecialKeyType = false) :
    self.ConvertScalarJsonValueToUProperty H rec (Json.object JsonObject)
        (.mk name dim flags (.UObjectProperty cls)) OutValue n
      = .done (false, OutValue, n) := by
  simp [DlgJsonParser.ConvertScalarJsonValueToUProperty, UProperty.Class, hno]

theorem JsonValueToUProperty_object_without_type (self : DlgJsonParser) (H : Host) (fuel : Nat)
    (JsonObject : JsonAttributes) (name : String) (dim : Int) (flags : Nat) (cls : String)
    (OutValue : Region) (n : Nat) (hno : HasField JsonObject SpecialKeyType = false) :
    self.JsonValueToUProperty H (fuel + 1) (Json.object JsonObject)
        (.mk name dim flags (.UObjectProperty cls)) OutValue n
      = .done (false, Region.write OutValue 0 (Region.read OutValue 0), n) := by
  simp only [DlgJsonParser.JsonValueToUProperty, DlgJsonParser.JsonValueToUPropertyBody,
    UProperty.IsArrayProperty, UProperty.Class, ConvertAtOutValue]
  rw [ConvertScalar_object_without_type self H _ JsonObject name dim flags cls _ n hno]
  simp

/-- C6: for an object reference property whose slot is empty, a JSON object without the
`__type__` key makes the conversion return false with the slot still empty and nothing
constructed; an enclosing `JsonAttributesToUStruct` call that returns reports success
with the slot still empty; and the fill of a structure with this one property does return
true, with every slot content as before. -/
theorem missing_type_tag_on_empty_slot (self : DlgJsonParser) (H : Host) (fuel : Nat)
    (JsonObject : JsonAttributes) (name : String) (dim : Int) (flags : Nat) (cls : String)
    (hno : HasField JsonObject SpecialKeyType = false) :
    (∀ (OutValue : Region) (n : Nat), (Region.read OutValue 0).isNullObject = true →
      ∃ r, self.JsonValueToUProperty H (fuel + 1) (Json.object JsonObject)
            (.mk name dim flags (.UObjectProperty cls)) OutValue n = .done (false, r, n)
        ∧ (∀ k, Region.read r k = Region.read OutValue k)
        ∧ (Region.read r 0).isNullObject = true)
    ∧ (∀ (attrs : JsonAttributes) (StructDefinition : UStruct) (t : Val) (n : Nat) (b : Bool)
        (t1 : Val) (n1 : Nat) (k : Nat),
        (RuntimeProperties H StructDefinition t)[k]?
          = some (.mk name dim flags (.UObjectProperty cls)) →
        MatchedValue self.CheckFlags attrs (.mk name dim flags (.UObjectProperty cls))
          = some (Json.object JsonObject) →
        (Region.read (t.readProperty k) 0).isNullObject = true →
        self.Fill H (fuel + 1) attrs StructDefinition t n = .done (b, t1, n1) →
        b = true ∧ (Region.read (t1.readProperty k) 0).isNullObject = true)
    ∧ (∀ (StructName : String) (attrs : JsonAttributes) (t : Val) (n : Nat),
        MatchedValue self.CheckFlags attrs (.mk name dim flags (.UObjectProperty cls))
          = some (Json.object JsonObject) →
        ∃ t1, self.Fill H (fuel + 1) attrs
            (.ScriptStruct (.mk StructName false false [.mk name dim flags (.UObjectProperty cls)]))
            t n = .done (true, t1, n)
          ∧ ∀ j k, Region.read (t1.readProperty j) k = Region.read (t.readProperty j) k) := by
  refine ⟨?_, ?_, ?_⟩
  · intro OutValue n hempty
    refine ⟨_, JsonValueToUProperty_object_without_type self H fuel JsonObject name dim flags cls
      OutValue n hno, Region.write_read_same _ _, ?_⟩
    rw [Region.write_read_same]
    exact hempty
  rotate_left
  · intro StructName attrs t n hm
    refine ⟨t.writeProperty 0 (Region.write (t.readProperty 0) 0 (Region.read (t.readProperty 0) 0)),
      ?_, ?_⟩
    · simp only [DlgJsonParser.Fill, DlgJsonParser.JsonAttributesToUStruct,
        UScriptStruct.IsJsonObjectWrapper, UScriptStruct.Properties, Bool.false_eq_true, if_false]
      rw [PropertyLoop_cons_some hm,
        JsonValueToUProperty_object_without_type self H fuel JsonObject name dim flags cls _ n hno]
      simp [PropertyLoop]
    · intro j k
      rw [Val.readProperty_writeProperty]
      split
      · rename_i hj
        rw [hj]
        exact Region.write_read_same _ _ k
      · rfl
  · intro attrs StructDefinition t n b t1 n1 k hP hm hempty hdone
    refine ⟨(JsonAttributesToUStruct_done hdone).1, ?_⟩
    rcases (JsonAttributesToUStruct_done hdone).2 with ⟨s, _, _, ht1, _⟩ | ⟨hw, _⟩
    · have : t1.readProperty k = t.readProperty k := by
        rw [ht1]
        cases t <;> rfl
      rw [this]
      exact hempty
    · obtain ⟨ok, r, m, m1, hconv, hread⟩ := Fill_done_converted hdone hw hP hm
      rw [JsonValueToUProperty_object_without_type self H fuel JsonObject name dim flags cls
        _ m hno] at hconv
      simp at hconv
      rw [hread, ← hconv.2.1, Region.write_read_same]
      exact hempty

/-- Witness of C6: `{"text": "hi"}` for the empty `greet` slot fails, the slot stays
empty, and the fill of the structure holding it returns true. -/
theorem missing_type_tag_on_empty_slot_witness :
    HasField [("text", Json.string "hi")] SpecialKeyType = false
    ∧ sampleParser.JsonValueToUProperty sampleHost 2 (Json.object [("text", Json.string "hi")])
        greetProperty [Val.null] 0 = .done (false, [Val.null], 0)
    ∧ sampleParser.Fill sampleHost 2 [("greet", Json.object [("text", Json.string "hi")])]
        (.ScriptStruct (.mk "Sample" false false [greetProperty])) (.struct [[Val.null]]) 0
      = .done (true, .struct [[Val.null]], 0)
    ∧ (true = true ∧ (Region.read ((Val.struct [[Val.null]]).readProperty 0) 0).isNullObject = true) :=
  ⟨rfl, rfl, rfl,
    (missing_type_tag_on_empty_slot sampleParser sampleHost 1 [("text", Json.string "hi")]
      "greet" 1 0 "Base" rfl).2.1 [("greet", Json.object [("text", Json.string "hi")])]
      (.ScriptStruct (.mk "Sample" false false [greetProperty])) (.struct [[Val.null]]) 0 true
      (.struct [[Val.null]]) 0 0 rfl rfl rfl rfl⟩


/-- C7 (as amended): for an object reference property whose slot holds a live instance, a
JSON object without the `__type__` key is rejected before the slot is looked at: the
conversion returns false and the slot, the instance and the instance counter are
unchanged. -/
theorem missing_type_tag_on_live_instance (self : DlgJsonParser) (H : Host) (fuel : Nat)
    (rec : Converter) (JsonObject : JsonAttributes) (name : String) (dim : Int) (flags : Nat)
    (base : String) (id : Nat) (cls : String) (cells : List Region) (n : Nat)
    (hno : HasField JsonObject SpecialKeyType = false) :
    self.ConvertScalarJsonValueToUProperty H rec (Json.object JsonObject)
        (.mk name dim flags (.UObjectProperty base)) (Val.object id cls cells) n
      = .done (false, Val.object id cls cells, n)
    ∧ self.JsonValueToUProperty H (fuel + 1) (Json.object JsonObject)
        (.mk name dim flags (.UObjectProperty base)) [Val.object id cls cells] n
      = .done (false, [Val.object id cls cells], n) := by
  constructor
  · exact ConvertScalar_object_without_type self H rec JsonObject name dim flags base _ n hno
  · rw [JsonValueToUProperty_object_without_type self H fuel JsonObject name dim flags base _ n hno]
    rfl

/-- Witness of C7: the amended statement at the `greet` slot holding a `Greeting`. -/
theorem missing_type_tag_on_live_instance_witness :
    HasField [("text", Json.string "hi")] SpecialKeyType = false
    ∧ sampleParser.JsonValueToUProperty sampleHost (1 + 1) (Json.object [("text", Json.string "hi")])
        (.mk "greet" 1 0 (.UObjectProperty "Base")) [Val.object 7 "Greeting" [[Val.str "old"]]] 0
      = .done (false, [Val.object 7 "Greeting" [[Val.str "old"]]], 0) :=
  ⟨rfl, (missing_type_tag_on_live_instance sampleParser sampleHost 1
      (sampleParser.JsonValueToUProperty sampleHost 1) [("text", Json.string "hi")] "greet" 1 0
      "Base" 7 "Greeting" [[Val.str "old"]] 0 rfl).2⟩

/-- Counterexample to C7 as stated: the `greet` slot holds a live `Greeting` whose text
is `old`; converting `{"text": "hi"}` does not succeed and does not fill the instance. -/
theorem live_instance_without_type_tag_counterexample :
    sampleParser.JsonValueToUProperty sampleHost 2 (Json.object [("text", Json.string "hi")])
        greetProperty [Val.object 7 "Greeting" [[Val.str "old"]]] 0
      = .done (false, [Val.object 7 "Greeting" [[Val.str "old"]]], 0)
    ∧ ¬ ∃ r n1, sampleParser.JsonValueToUProperty sampleHost 2
        (Json.object [("text", Json.string "hi")]) greetProperty
        [Val.object 7 "Greeting" [[Val.str "old"]]] 0 = .done (true, r, n1) := by
  have h : sampleParser.JsonValueToUProperty sampleHost 2
        (Json.object [("text", Json.string "hi")]) greetProperty
        [Val.object 7 "Greeting" [[Val.str "old"]]] 0
      = .done (false, [Val.object 7 "Greeting" [[Val.str "old"]]], 0) := rfl
  refine ⟨h, ?_⟩
  rintro ⟨r, n1, h1⟩
  rw [h] at h1
  cases h1

theorem JsonAttributesToUStruct_on_instance {self : DlgJsonParser} {H : Host} {rec : Converter}
    {attrs : JsonAttributes} {base : String} {id : Nat} {cls : String} {cells : List Region}
    {n : Nat} {b : Bool} {t : Val} {n1 : Nat}
    (h : self.JsonAttributesToUStruct H rec attrs (.Class base) (Val.object id cls cells) n
      = .done (b, t, n1)) :
    b = true ∧ ∃ cells1, t = Val.object id cls cells1
      ∧ ∀ (k : Nat) P jv, (H.ClassProperties cls)[k]? = some P →
          MatchedValue self.CheckFlags attrs P = some jv →
          ∃ ok r m m1, rec jv P (cells.getD k []) m = .done (ok, r, m1) ∧ cells1.getD k [] = r := by
  refine ⟨(JsonAttributesToUStruct_done h).1, ?_⟩
  rcases (JsonAttributesToUStruct_done h).2 with ⟨s, hs, _⟩ | ⟨hw, hloop⟩
  · cases hs
  · obtain ⟨cells1, ht⟩ := PropertyLoop_object _ _ _ _ _ _ _ _ hloop
    refine ⟨cells1, ht, ?_⟩
    intro k P jv hP hm
    obtain ⟨ok, r, m, m1, hconv, hread⟩ := Fill_done_converted h hw (k := k) hP hm
    rw [ht] at hread
    exact ⟨ok, r, m, m1, hconv, hread⟩

/-- C8: for an object reference property whose slot is empty and a JSON object whose
`__type__` reads as the string `JsonObjectType`: when the name resolves to the child
class `T` of the declared class, the conversion is the structure fill of a newly
constructed instance of `T` (numbered by the counter, which is advanced), so that when it
returns it returns true, the slot references that instance and each property of the
runtime class `T` with a matching non-null value holds what its conversion left; when the
name does not resolve the conversion returns false and the slot is unchanged. -/
theorem empty_slot_constructs_named_subtype (self : DlgJsonParser) (H : Host) (rec : Converter)
    (JsonObject : JsonAttributes) (name : String) (dim : Int) (flags : Nat) (base : String)
    (OutValue : Val) (n : Nat) (JsonObjectType : String)
    (hempty : OutValue.isNullObject = true)
    (htype : TryGetStringField H JsonObject SpecialKeyType = some JsonObjectType) :
    (∀ T, H.GetChildClassFromName base JsonObjectType = some T →
      self.ConvertScalarJsonValueToUProperty H rec (Json.object JsonObject)
          (.mk name dim flags (.UObjectProperty base)) OutValue n
        = self.JsonAttributesToUStruct H rec JsonObject (.Class base)
            (Val.object n T (H.NewObjectCells T)) (n + 1)
      ∧ ∀ b t n1, self.ConvertScalarJsonValueToUProperty H rec (Json.object JsonObject)
          (.mk name dim flags (.UObjectProperty base)) OutValue n = .done (b, t, n1) →
        b = true ∧ ∃ cells1, t = Val.object n T cells1
          ∧ ∀ (k : Nat) P jv, (H.ClassProperties T)[k]? = some P →
              MatchedValue self.CheckFlags JsonObject P = some jv →
              ∃ ok r m m1, rec jv P ((H.NewObjectCells T).getD k []) m = .done (ok, r, m1)
                ∧ cells1.getD k [] = r)
    ∧ (H.GetChildClassFromName base JsonObjectType = none →
      self.ConvertScalarJsonValueToUProperty H rec (Json.object JsonObject)
          (.mk name dim flags (.UObjectProperty base)) OutValue n
        = .done (false, OutValue, n)) := by
  have hhas := HasField_of_TryGetStringField htype
  constructor
  · intro T hT
    have heq : self.ConvertScalarJsonValueToUProperty H rec (Json.object JsonObject)
          (.mk name dim flags (.UObjectProperty base)) OutValue n
        = self.JsonAttributesToUStruct H rec JsonObject (.Class base)
            (Val.object n T (H.NewObjectCells T)) (n + 1) := by
      simp [DlgJsonParser.ConvertScalarJsonValueToUProperty, UProperty.Class, hhas, hempty, htype,
        hT, DlgJsonParser.JsonObjectToUStruct]
    refine ⟨heq, ?_⟩
    intro b t n1 h
    rw [heq] at h
    exact JsonAttributesToUStruct_on_instance h
  · intro hT
    simp [DlgJsonParser.ConvertScalarJsonValueToUProperty, UProperty.Class, hhas, hempty, htype, hT]

/-- Witness of C8: `{"__type__": "Greeting", "text": "hi"}` on the empty `greet` slot
yields a new `Greeting` whose `text` is `hi`; the name `Farewell` does not resolve and
leaves the slot empty. -/
theorem empty_slot_constructs_named_subtype_witness :
    sampleParser.JsonValueToUProperty sampleHost 2
        (Json.object [("__type__", Json.string "Greeting"), ("text", Json.string "hi")])
        greetProperty [Val.null] 0
      = .done (true, [Val.object 0 "Greeting" [[Val.str "hi"]]], 1)
    ∧ sampleParser.JsonValueToUProperty sampleHost 2
        (Json.object [("__type__", Json.string "Farewell"), ("text", Json.string "hi")])
        greetProperty [Val.null] 0
      = .done (false, [Val.null], 0)
    ∧ sampleParser.ConvertScalarJsonValueToUProperty sampleHost
        (sampleParser.JsonValueToUProperty sampleHost 1)
        (Json.object [("__type__", Json.string "Greeting"), ("text", Json.string "hi")])
        (.mk "greet" 1 0 (.UObjectProperty "Base")) Val.null 0
      = sampleParser.JsonAttributesToUStruct sampleHost
        (sampleParser.JsonValueToUProperty sampleHost 1)
        [("__type__", Json.string "Greeting"), ("text", Json.string "hi")] (.Class "Base")
        (Val.object 0 "Greeting" (sampleHost.NewObjectCells "Greeting")) (0 + 1) :=
  ⟨rfl, rfl,
    ((empty_slot_constructs_named_subtype sampleParser sampleHost
      (sampleParser.JsonValueToUProperty sampleHost 1)
      [("__type__", Json.string "Greeting"), ("text", Json.string "hi")] "greet" 1 0 "Base"
      Val.null 0 "Greeting" rfl rfl).1 "Greeting" rfl).1⟩

/-- C9: for an object reference property whose slot holds a live instance and a JSON
object that has the `__type__` key, the conversion is the structure fill of that very
instance, started with the instance counter as it is: when it returns it returns true,
the slot references the same instance (same number, same runtime class) and each property
of the runtime class with a matching non-null value holds what its conversion left.
Neither the value of `__type__` nor the provider's subtype resolution or construction
enters the result. -/
theorem live_instance_is_updated_in_place (self : DlgJsonParser) (H : Host) (rec : Converter)
    (JsonObject : JsonAttributes) (name : String) (dim : Int) (flags : Nat) (base : String)
    (id : Nat) (cls : String) (cells : List Region) (n : Nat)
    (hhas : HasField JsonObject SpecialKeyType = true) :
    self.ConvertScalarJsonValueToUProperty H rec (Json.object JsonObject)
        (.mk name dim flags (.UObjectProperty base)) (Val.object id cls cells) n
      = self.JsonAttributesToUStruct H rec JsonObject (.Class base) (Val.object id cls cells) n
    ∧ (∀ b t n1, self.ConvertScalarJsonValueToUProperty H rec (Json.object JsonObject)
          (.mk name dim flags (.UObjectProperty base)) (Val.object id cls cells) n
          = .done (b, t, n1) →
        b = true ∧ ∃ cells1, t = Val.object id cls cells1
          ∧ ∀ (k : Nat) P jv, (H.ClassProperties cls)[k]? = some P →
              MatchedValue self.CheckFlags JsonObject P = some jv →
              ∃ ok r m m1, rec jv P (cells.getD k []) m = .done (ok, r, m1)
                ∧ cells1.getD k [] = r)
    ∧ (∀ resolve construct,
        self.ConvertScalarJsonValueToUProperty
            { H with GetChildClassFromName := resolve, NewObjectCells := construct } rec
            (Json.object JsonObject) (.mk name dim flags (.UObjectProperty base))
            (Val.object id cls cells) n
          = self.ConvertScalarJsonValueToUProperty H rec (Json.object JsonObject)
            (.mk name dim flags (.UObjectProperty base)) (Val.object id cls cells) n) := by
  have heq : ∀ H1 : Host, self.ConvertScalarJsonValueToUProperty H1 rec (Json.object JsonObject)
        (.mk name dim flags (.UObjectProperty base)) (Val.object id cls cells) n
      = self.JsonAttributesToUStruct H1 rec JsonObject (.Class base) (Val.object id cls cells) n := by
    intro H1
    simp [DlgJsonParser.ConvertScalarJsonValueToUProperty, UProperty.Class, hhas,
      Val.isNullObject, DlgJsonParser.JsonObjectToUStruct]
  refine ⟨heq H, ?_, ?_⟩
  · intro b t n1 h
    rw [heq H] at h
    exact JsonAttributesToUStruct_on_instance h
  · intro resolve construct
    rw [heq, heq]
    rfl

/-- Witness of C9: the `greet` slot holds `Greeting` number 7 with text `old`; the JSON
names the unknown type `Farewell` and still the instance is kept and its text overwritten. -/
theorem live_instance_is_updated_in_place_witness :
    HasField [("__type__", Json.string "Farewell"), ("text", Json.string "hi")] SpecialKeyType = true
    ∧ sampleParser.JsonValueToUProperty sampleHost 2
        (Json.object [("__type__", Json.string "Farewell"), ("text", Json.string "hi")])
        greetProperty [Val.object 7 "Greeting" [[Val.str "old"]]] 0
      = .done (true, [Val.object 7 "Greeting" [[Val.str "hi"]]], 0)
    ∧ sampleParser.ConvertScalarJsonValueToUProperty sampleHost
        (sampleParser.JsonValueToUProperty sampleHost 1)
        (Json.object [("__type__", Json.string "Farewell"), ("text", Json.string "hi")])
        (.mk "greet" 1 0 (.UObjectProperty "Base")) (Val.object 7 "Greeting" [[Val.str "old"]]) 0
      = sampleParser.JsonAttributesToUStruct sampleHost
        (sampleParser.JsonValueToUProperty sampleHost 1)
        [("__type__", Json.string "Farewell"), ("text", Json.string "hi")] (.Class "Base")
        (Val.object 7 "Greeting" [[Val.str "old"]]) 0 :=
  ⟨rfl, rfl,
    (live_instance_is_updated_in_place sampleParser sampleHost
      (sampleParser.JsonValueToUProperty sampleHost 1)
      [("__type__", Json.string "Farewell"), ("text", Json.string "hi")] "greet" 1 0 "Base"
      7 "Greeting" [[Val.str "old"]] 0 rfl).1⟩

/-- C10: for an object reference property and every JSON string, the conversion returns
true and stores in the slot exactly what the provider's lookup by name returns for that
string and the parser's outer object, whatever the slot held; when the name does not
resolve that is the empty reference. -/
theorem string_value_stores_named_instance (self : DlgJsonParser) (H : Host) (fuel : Nat)
    (rec : Converter) (ObjectReferenceName : String) (name : String) (dim : Int) (flags : Nat)
    (base : String) :
    (∀ (OutValue : Val) (n : Nat),
      self.ConvertScalarJsonValueToUProperty H rec (Json.string ObjectReferenceName)
          (.mk name dim flags (.UObjectProperty base)) OutValue n
        = .done (true, Val.ofLoaded (H.StaticLoadObject self.DefaultObjectOuter ObjectReferenceName), n))
    ∧ (∀ (OutValue : Region) (n : Nat),
      ∃ r, self.JsonValueToUProperty H (fuel + 1) (Json.string ObjectReferenceName)
            (.mk name dim flags (.UObjectProperty base)) OutValue n = .done (true, r, n)
        ∧ Region.read r 0
            = Val.ofLoaded (H.StaticLoadObject self.DefaultObjectOuter ObjectReferenceName)
        ∧ ∀ k, k ≠ 0 → Region.read r k = Region.read OutValue k)
    ∧ (H.StaticLoadObject self.DefaultObjectOuter ObjectReferenceName = none →
      Val.ofLoaded (H.StaticLoadObject self.DefaultObjectOuter ObjectReferenceName) = Val.null)
    ∧ sampleParser.JsonValueToUProperty sampleHost 1 (Json.string "Nobody") greetProperty
        [Val.object 7 "Greeting" [[Val.str "old"]]] 0 = .done (true, [Val.null], 0)
    ∧ sampleParser.JsonValueToUProperty sampleHost 1 (Json.string "Hello") greetProperty
        [Val.null] 0 = .done (true, [Val.object 7 "Greeting" [[Val.str "hello"]]], 0) := by
  have hconv : ∀ (OutValue : Val) (n : Nat),
      self.ConvertScalarJsonValueToUProperty H rec (Json.string ObjectReferenceName)
          (.mk name dim flags (.UObjectProperty base)) OutValue n
        = .done (true, Val.ofLoaded (H.StaticLoadObject self.DefaultObjectOuter ObjectReferenceName), n) := by
    intro OutValue n
    simp [DlgJsonParser.ConvertScalarJsonValueToUProperty, UProperty.Class]
  refine ⟨hconv, ?_, ?_, rfl, rfl⟩
  · intro OutValue n
    refine ⟨Region.write OutValue 0
      (Val.ofLoaded (H.StaticLoadObject self.DefaultObjectOuter ObjectReferenceName)), ?_, ?_, ?_⟩
    · simp [DlgJsonParser.JsonValueToUProperty, DlgJsonParser.JsonValueToUPropertyBody,
        UProperty.IsArrayProperty, UProperty.Class, ConvertAtOutValue,
        DlgJsonParser.ConvertScalarJsonValueToUProperty]
    · rw [Region.read_write]
      simp
    · intro k hk
      rw [Region.read_write]
      simp [hk]
  · intro h
    rw [h]
    rfl


/-! ## C11 to C13: enumerations and integers -/

theorem UEnum.GetValueByName_of_find {e : UEnum} {s : String} {m : String × Int}
    (h : e.Names.find? (fun m => FNameEquals m.1 s) = some m) : e.GetValueByName s = m.2 := by
  simp [UEnum.GetValueByName, h]

theorem UEnum.GetValueByName_of_no_member {e : UEnum} {s : String}
    (h : ∀ m ∈ e.Names, FNameEquals m.1 s = false) : e.GetValueByName s = INDEX_NONE := by
  have hfind : e.Names.find? (fun m => FNameEquals m.1 s) = none := by
    rw [List.find?_eq_none]
    intro m hm
    simpa using h m hm
  simp [UEnum.GetValueByName, hfind]

theorem ConvertScalar_enum_string (self : DlgJsonParser) (H : Host) (rec : Converter)
    (Enum : UEnum) (T : IntegerType) (name : String) (dim : Int) (flags : Nat) (s : String)
    (OutValue : Val) (n : Nat) :
    self.ConvertScalarJsonValueToUProperty H rec (Json.string s)
        (.mk name dim flags (.UEnumProperty Enum T)) OutValue n
      = if Enum.GetValueByName s = INDEX_NONE then .done (false, OutValue, n)
        else .done (true, Val.int (T.cast (Enum.GetValueByName s)), n) := by
  simp [DlgJsonParser.ConvertScalarJsonValueToUProperty, UProperty.Class, Stored,
    SetIntPropertyValue]

theorem ConvertScalar_numeric_enum_string (self : DlgJsonParser) (H : Host) (rec : Converter)
    (Enum : UEnum) (T : IntegerType) (name : String) (dim : Int) (flags : Nat) (fl it : Bool)
    (s : String) (OutValue : Val) (n : Nat) :
    self.ConvertScalarJsonValueToUProperty H rec (Json.string s)
        (.mk name dim flags (.UNumericProperty (some Enum) fl it (.integral T))) OutValue n
      = if Enum.GetValueByName s = INDEX_NONE then .done (false, OutValue, n)
        else .done (true, Val.int (T.cast (Enum.GetValueByName s)), n) := by
  simp [DlgJsonParser.ConvertScalarJsonValueToUProperty, UProperty.Class, Stored,
    SetIntPropertyValue]

theorem IntegerType.cast_of_holds (T : IntegerType) (v : Int) (hb : 0 < T.Bits)
    (hlo : T.Min ≤ v) (hhi : v ≤ T.Max) : T.cast v = v := by
  obtain ⟨Bits, IsSigned⟩ := T
  simp only at hb
  have hpow : (2 : Int) ^ Bits = 2 * 2 ^ (Bits - 1) := by
    obtain ⟨k, rfl⟩ : ∃ k, Bits = k + 1 := ⟨Bits - 1, by omega⟩
    rw [pow_succ]
    simp [mul_comm]
  have hK : (0 : Int) < 2 ^ (Bits - 1) := by positivity
  cases IsSigned with
  | false =>
    simp only [IntegerType.Min, IntegerType.Max, Bool.false_eq_true, if_false] at hlo hhi
    simp only [IntegerType.cast, Bool.false_and, Bool.false_eq_true, if_false]
    exact Int.emod_eq_of_lt hlo (by omega)
  | true =>
    simp only [IntegerType.Min, IntegerType.Max, if_true] at hlo hhi
    simp only [IntegerType.cast, Bool.true_and, decide_eq_true_eq]
    by_cases hv : 0 ≤ v
    · have hmod : v % 2 ^ Bits = v := Int.emod_eq_of_lt hv (by omega)
      rw [hmod, if_neg (by omega)]
    · have hmod : v % 2 ^ Bits = v + 2 ^ Bits := by
        rw [← Int.add_emod_self]
        exact Int.emod_eq_of_lt (by omega) (by omega)
      rw [hmod, if_pos (by omega)]
      omega

/-- C11 (as amended): for an Enum property and for an enum-typed Numeric property of an
integral type given a JSON string `s`, the member is looked up by name ignoring case.
When the first member whose name equals `s` ignoring case has a value other than -1, the
conversion returns true and stores that value converted to the integral type of the
property, which is the value itself when the type holds it; when no member has such a
name it returns false and leaves the slot; and a member whose value is -1 (`INDEX_NONE`)
is taken for a missing one, the conversion returning false. These are the only ways it
fails. -/
theorem enum_member_by_name (self : DlgJsonParser) (H : Host) (rec : Converter) (Enum : UEnum)
    (T : IntegerType) (name : String) (dim : Int) (flags : Nat) (fl it : Bool) (s : String)
    (OutValue : Val) (n : Nat) :
    (∀ m, Enum.Names.find? (fun m => FNameEquals m.1 s) = some m → m.2 ≠ INDEX_NONE →
      self.ConvertScalarJsonValueToUProperty H rec (Json.string s)
          (.mk name dim flags (.UEnumProperty Enum T)) OutValue n
        = .done (true, Val.int (T.cast m.2), n)
      ∧ self.ConvertScalarJsonValueToUProperty H rec (Json.string s)
          (.mk name dim flags (.UNumericProperty (some Enum) fl it (.integral T))) OutValue n
          = .done (true, Val.int (T.cast m.2), n)
      ∧ (0 < T.Bits → T.Min ≤ m.2 → m.2 ≤ T.Max → T.cast m.2 = m.2))
    ∧ ((∀ m ∈ Enum.Names, FNameEquals m.1 s = false) →
      self.ConvertScalarJsonValueToUProperty H rec (Json.string s)
          (.mk name dim flags (.UEnumProperty Enum T)) OutValue n = .done (false, OutValue, n)
      ∧ self.ConvertScalarJsonValueToUProperty H rec (Json.string s)
          (.mk name dim flags (.UNumericProperty (some Enum) fl it (.integral T))) OutValue n
          = .done (false, OutValue, n))
    ∧ (∀ m, Enum.Names.find? (fun m => FNameEquals m.1 s) = some m → m.2 = INDEX_NONE →
      self.ConvertScalarJsonValueToUProperty H rec (Json.string s)
          (.mk name dim flags (.UEnumProperty Enum T)) OutValue n = .done (false, OutValue, n)
      ∧ self.ConvertScalarJsonValueToUProperty H rec (Json.string s)
          (.mk name dim flags (.UNumericProperty (some Enum) fl it (.integral T))) OutValue n
          = .done (false, OutValue, n))
    ∧ (∀ v n1, self.ConvertScalarJsonValueToUProperty H rec (Json.string s)
          (.mk name dim flags (.UEnumProperty Enum T)) OutValue n = .done (false, v, n1) →
        (∀ m ∈ Enum.Names, FNameEquals m.1 s = false)
          ∨ ∃ m, Enum.Names.find? (fun m => FNameEquals m.1 s) = some m ∧ m.2 = INDEX_NONE)
    ∧ (∀ v n1, self.ConvertScalarJsonValueToUProperty H rec (Json.string s)
          (.mk name dim flags (.UNumericProperty (some Enum) fl it (.integral T))) OutValue n
          = .done (false, v, n1) →
        (∀ m ∈ Enum.Names, FNameEquals m.1 s = false)
          ∨ ∃ m, Enum.Names.find? (fun m => FNameEquals m.1 s) = some m ∧ m.2 = INDEX_NONE) := by
  rw [ConvertScalar_enum_string, ConvertScalar_numeric_enum_string]
  have hfail : ∀ v n1,
      (if Enum.GetValueByName s = INDEX_NONE then
          (Outcome.done (false, OutValue, n) : Outcome (Bool × Val × Nat))
        else .done (true, Val.int (T.cast (Enum.GetValueByName s)), n)) = .done (false, v, n1) →
      (∀ m ∈ Enum.Names, FNameEquals m.1 s = false)
        ∨ ∃ m, Enum.Names.find? (fun m => FNameEquals m.1 s) = some m ∧ m.2 = INDEX_NONE := by
    intro v n1 h
    cases hfind : Enum.Names.find? (fun m => FNameEquals m.1 s) with
    | none =>
      left
      intro m hm
      have := List.find?_eq_none.mp hfind m hm
      simpa using this
    | some m =>
      right
      refine ⟨m, rfl, ?_⟩
      rw [UEnum.GetValueByName_of_find hfind] at h
      by_contra hne
      simp [hne] at h
  refine ⟨?_, ?_, ?_, hfail, hfail⟩
  · intro m hm hne
    rw [UEnum.GetValueByName_of_find hm]
    simp only [hne, if_false, true_and]
    exact IntegerType.cast_of_holds T m.2
  · intro hno
    rw [UEnum.GetValueByName_of_no_member hno]
    simp
  · intro m hm heq
    rw [UEnum.GetValueByName_of_find hm]
    simp [heq]

/-- Witness of C11: `"happy"` finds the member `Happy` of the enumeration of moods and
stores its value 1; `"Angry"` names no member and leaves the slot. -/
theorem enum_member_by_name_witness :
    moodEnum.Names.find? (fun m => FNameEquals m.1 "happy") = some ("Happy", 1)
    ∧ sampleParser.ConvertScalarJsonValueToUProperty sampleHost
        (sampleParser.JsonValueToUProperty sampleHost 0) (Json.string "happy")
        (.mk "mood" 1 0 (.UEnumProperty moodEnum uint8)) (Val.int 0) 0
      = .done (true, Val.int (uint8.cast 1), 0)
    ∧ sampleParser.JsonValueToUProperty sampleHost 1 (Json.string "happy") moodProperty
        [Val.int 0] 0 = .done (true, [Val.int 1], 0)
    ∧ sampleParser.JsonValueToUProperty sampleHost 1 (Json.string "HAPPY") levelProperty
        [Val.int 0] 0 = .done (true, [Val.int 1], 0)
    ∧ sampleParser.JsonValueToUProperty sampleHost 1 (Json.string "Angry") moodProperty
        [Val.int 0] 0 = .done (false, [Val.int 0], 0) :=
  ⟨rfl,
    ((enum_member_by_name sampleParser sampleHost (sampleParser.JsonValueToUProperty sampleHost 0)
      moodEnum uint8 "mood" 1 0 false true "happy" (Val.int 0) 0).1 ("Happy", 1) rfl
      (by decide)).1,
    rfl, rfl, rfl⟩

/-- Counterexample to C11 as stated: the member `Below` of the enumeration has the value
-1; the name is found, yet the conversion returns false and the slot keeps 5. -/
theorem enum_member_minus_one_counterexample :
    ("Below", (-1 : Int)) ∈ signedEnum.Names
    ∧ sampleParser.JsonValueToUProperty sampleHost 1 (Json.string "Below") signProperty
        [Val.int 5] 0 = .done (false, [Val.int 5], 0)
    ∧ sampleParser.JsonValueToUProperty sampleHost 1 (Json.string "Above") signProperty
        [Val.int 5] 0 = .done (true, [Val.int 1], 0) := by
  refine ⟨?_, rfl, rfl⟩
  simp [signedEnum]

/-- C12 (as amended): for every Enum property and every JSON number the conversion
returns true and stores the number cast to a 64-bit integer (the number with its fraction
dropped whenever that fits in 64 bits) and then converted to the integral type under the
enumeration, that is kept modulo `2 ^ Bits`; the stored integer is the truncated number
whenever the type holds it. The enumeration is not consulted, so the stored integer need
not be the value of any member. -/
theorem enum_number_is_stored_unchecked (self : DlgJsonParser) (H : Host) (fuel : Nat)
    (rec : Converter) (Enum : UEnum) (T : IntegerType) (name : String) (dim : Int)
    (flags : Nat) (d : Double) :
    (∀ (OutValue : Val) (n : Nat),
      self.ConvertScalarJsonValueToUProperty H rec (Json.number d)
          (.mk name dim flags (.UEnumProperty Enum T)) OutValue n
        = .done (true, Val.int (T.cast (toInt64 H d)), n))
    ∧ (∀ (OutValue : Region) (n : Nat),
      self.JsonValueToUProperty H (fuel + 1) (Json.number d)
          (.mk name dim flags (.UEnumProperty Enum T)) OutValue n
        = .done (true, Region.write OutValue 0 (Val.int (T.cast (toInt64 H d))), n))
    ∧ (-(2 ^ 63) ≤ d.trunc → d.trunc < 2 ^ 63 → toInt64 H d = d.trunc)
    ∧ (-(2 ^ 63) ≤ d.trunc → d.trunc < 2 ^ 63 → 0 < T.Bits → T.Min ≤ d.trunc →
        d.trunc ≤ T.Max → T.cast (toInt64 H d) = d.trunc)
    ∧ sampleParser.JsonValueToUProperty sampleHost 1 (Json.number ⟨7, 0⟩) moodProperty
        [Val.int 0] 0 = .done (true, [Val.int 7], 0)
    ∧ (∀ m ∈ moodEnum.Names, m.2 ≠ 7) := by
  have hconv : ∀ (OutValue : Val) (n : Nat),
      self.ConvertScalarJsonValueToUProperty H rec (Json.number d)
          (.mk name dim flags (.UEnumProperty Enum T)) OutValue n
        = .done (true, Val.int (T.cast (toInt64 H d)), n) := by
    intro OutValue n
    simp [DlgJsonParser.ConvertScalarJsonValueToUProperty, UProperty.Class, AsNumber, Stored,
      SetIntPropertyValue]
  have h64 : -(2 ^ 63) ≤ d.trunc → d.trunc < 2 ^ 63 → toInt64 H d = d.trunc := by
    intro h1 h2
    unfold toInt64
    rw [if_pos ⟨h1, h2⟩]
  refine ⟨hconv, ?_, h64, ?_, rfl, ?_⟩
  · intro OutValue n
    simp [DlgJsonParser.JsonValueToUProperty, DlgJsonParser.JsonValueToUPropertyBody,
      UProperty.IsArrayProperty, UProperty.Class, ConvertAtOutValue,
      DlgJsonParser.ConvertScalarJsonValueToUProperty, AsNumber, Stored, SetIntPropertyValue]
  · intro h1 h2 hb hlo hhi
    rw [h64 h1 h2]
    exact IntegerType.cast_of_holds T d.trunc hb hlo hhi
  · intro m hm
    simp [moodEnum] at hm
    rcases hm with rfl | rfl <;> decide

/-- Witness of C12: the number 7 fits the `uint8` under the enumeration of moods and is
stored as it is. -/
theorem enum_number_is_stored_unchecked_witness :
    -(2 ^ 63) ≤ (⟨7, 0⟩ : Double).trunc ∧ (⟨7, 0⟩ : Double).trunc < 2 ^ 63
    ∧ 0 < uint8.Bits ∧ uint8.Min ≤ (⟨7, 0⟩ : Double).trunc
    ∧ (⟨7, 0⟩ : Double).trunc ≤ uint8.Max
    ∧ uint8.cast (toInt64 sampleHost ⟨7, 0⟩) = (⟨7, 0⟩ : Double).trunc :=
  ⟨by decide, by decide, by decide, by decide, by decide,
    (enum_number_is_stored_unchecked sampleParser sampleHost 0
      (sampleParser.JsonValueToUProperty sampleHost 0) moodEnum uint8 "mood" 1 0 ⟨7, 0⟩).2.2.2.1
      (by decide) (by decide) (by decide) (by decide) (by decide)⟩

/-- Counterexample to C12 as stated: the enumeration of moods is stored in a `uint8`; the
number 300 truncates to 300 and 44 is stored, the number -2.5 truncates to -2 and 254 is
stored. -/
theorem enum_number_out_of_type_counterexample :
    (⟨300, 0⟩ : Double).trunc = 300
    ∧ sampleParser.JsonValueToUProperty sampleHost 1 (Json.number ⟨300, 0⟩) moodProperty
        [Val.int 0] 0 = .done (true, [Val.int 44], 0)
    ∧ (⟨-5, -1⟩ : Double).trunc = -2
    ∧ sampleParser.JsonValueToUProperty sampleHost 1 (Json.number ⟨-5, -1⟩) moodProperty
        [Val.int 0] 0 = .done (true, [Val.int 254], 0) :=
  ⟨by decide, rfl, by decide, rfl⟩

theorem digitValue_digitChar (k : Nat) (hk : k < 10) : digitValue (Nat.digitChar k) = some k := by
  interval_cases k <;> rfl

theorem digitChar_not_space (k : Nat) (hk : k < 10) : isSpace (Nat.digitChar k) = false := by
  interval_cases k <;> rfl

theorem dropWhile_isSpace_of_head (c : Char) (cs : List Char) (h : isSpace c = false) :
    (c :: cs).dropWhile isSpace = c :: cs := by
  simp [List.dropWhile, h]

theorem digitChar_ne_sign (k : Nat) (hk : k < 10) :
    Nat.digitChar k ≠ '-' ∧ Nat.digitChar k ≠ '+' := by
  interval_cases k <;> decide

theorem parseDigits_toDigitsCore (fuel : Nat) :
    ∀ (n : Nat) (ds : List Char), n < fuel →
      ∃ L : List Char, Nat.toDigitsCore 10 fuel n ds = L ++ ds
        ∧ (∃ k, k < 10 ∧ L.head? = some (Nat.digitChar k))
        ∧ ∀ (rest : List Char) (acc : Nat),
            parseDigits (L ++ rest) acc = parseDigits rest (acc * 10 ^ L.length + n) := by
  induction fuel with
  | zero => intro n ds h; exact absurd h (Nat.not_lt_zero _)
  | succ fuel ih =>
    intro n ds hn
    have hmod : n % 10 < 10 := Nat.mod_lt _ (by decide)
    simp only [Nat.toDigitsCore]
    split
    · rename_i hdiv
      refine ⟨[Nat.digitChar (n % 10)], rfl, ⟨n % 10, hmod, rfl⟩, ?_⟩
      intro rest acc
      have hlt : n < 10 := by omega
      simp [parseDigits, digitValue_digitChar n hlt, Nat.mod_eq_of_lt hlt]
    · rename_i hdiv
      have hn' : n / 10 < fuel := by omega
      obtain ⟨L, hL, ⟨k, hk, hhead⟩, hparse⟩ := ih (n / 10) (Nat.digitChar (n % 10) :: ds) hn'
      refine ⟨L ++ [Nat.digitChar (n % 10)], by rw [hL]; simp, ⟨k, hk, ?_⟩, ?_⟩
      · cases L with
        | nil => simp at hhead
        | cons c cs => simpa using hhead
      · intro rest acc
        rw [List.append_assoc, hparse]
        simp only [List.cons_append, List.nil_append, parseDigits, digitValue_digitChar _ hmod,
          List.length_append, List.length_singleton]
        congr 1
        have := Nat.div_add_mod n 10
        rw [pow_succ]
        nlinarith [this]

theorem parseDigits_toDigits (n : Nat) :
    ∃ c cs k, Nat.toDigits 10 n = c :: cs ∧ k < 10 ∧ c = Nat.digitChar k
      ∧ parseDigits (c :: cs) 0 = n := by
  obtain ⟨L, hL, ⟨k, hk, hhead⟩, hparse⟩ := parseDigits_toDigitsCore (n + 1) n [] (Nat.lt_succ_self n)
  cases L with
  | nil => simp at hhead
  | cons c cs =>
    refine ⟨c, cs, k, by simpa [Nat.toDigits] using hL, hk, by simpa using hhead, ?_⟩
    have := hparse [] 0
    simpa [parseDigits] using this

theorem Atoi64_toString (v : Int) (hlo : -(2 ^ 63) ≤ v) (hhi : v < 2 ^ 63) :
    Atoi64 (toString v) = v := by
  cases v with
  | ofNat m =>
    obtain ⟨c, cs, k, hdig, hk, hc, hparse⟩ := parseDigits_toDigits m
    have hdata : (toString (Int.ofNat m)).data = c :: cs := by
      show (Nat.repr m).data = c :: cs
      simp only [Nat.repr, hdig]
      rfl
    have hne := digitChar_ne_sign k hk
    unfold Atoi64
    rw [hdata, dropWhile_isSpace_of_head c cs (by rw [hc]; exact digitChar_not_space k hk)]
    simp only
    rw [if_neg (by rw [hc]; exact hne.1), if_neg (by rw [hc]; exact hne.2), hparse]
    unfold saturateInt64
    simp only [Int.ofNat_eq_coe] at hlo hhi ⊢
    split
    · omega
    · split
      · omega
      · rfl
  | negSucc m =>
    obtain ⟨c, cs, k, hdig, hk, hc, hparse⟩ := parseDigits_toDigits (m + 1)
    have hdata : (toString (Int.negSucc m)).data = '-' :: c :: cs := by
      show ("-" ++ Nat.repr (m + 1)).data = '-' :: c :: cs
      simp only [Nat.repr, hdig]
      rfl
    unfold Atoi64
    rw [hdata, dropWhile_isSpace_of_head '-' (c :: cs) rfl]
    simp only [if_true]
    rw [hparse]
    unfold saturateInt64
    have hv : Int.negSucc m = -((m + 1 : Nat) : Int) := by
      simp [Int.negSucc_eq]
    rw [hv] at hlo hhi ⊢
    split
    · omega
    · split
      · omega
      · rfl

/-- C13 (as amended): for an integer Numeric property without an enumeration, a JSON
string is handed to the text to integer conversion and its result is stored converted to
the integral type of the property; no number coercion and no cast from a double takes
part. With the conversion of the spec, the decimal text of a signed 64-bit integer `v`
stores exactly `v` whenever the type of the property holds `v`, as a 64-bit property
does for every such `v`: in an `int64` property `"9223372036854775807"` stores
`2 ^ 63 - 1`. -/
theorem integer_text_is_stored_in_field_type (self : DlgJsonParser) (H : Host) (fuel : Nat)
    (rec : Converter) (T : IntegerType) (name : String) (dim : Int) (flags : Nat) :
    (∀ (s : String) (OutValue : Val) (n : Nat),
      self.ConvertScalarJsonValueToUProperty H rec (Json.string s)
          (.mk name dim flags (.UNumericProperty none false true (.integral T))) OutValue n
        = .done (true, Val.int (T.cast (H.Atoi64 s)), n))
    ∧ (∀ (s : String) (OutValue : Region) (n : Nat),
      self.JsonValueToUProperty H (fuel + 1) (Json.string s)
          (.mk name dim flags (.UNumericProperty none false true (.integral T))) OutValue n
        = .done (true, Region.write OutValue 0 (Val.int (T.cast (H.Atoi64 s))), n))
    ∧ (∀ (s : String) (OutValue : Val) (n : Nat) (coerce : Json → Double) (cast : Double → Int),
      self.ConvertScalarJsonValueToUProperty
          { H with AsNumberDefault := coerce, CastOutOfRange := cast } rec (Json.string s)
          (.mk name dim flags (.UNumericProperty none false true (.integral T))) OutValue n
        = self.ConvertScalarJsonValueToUProperty H rec (Json.string s)
          (.mk name dim flags (.UNumericProperty none false true (.integral T))) OutValue n)
    ∧ (∀ (v : Int), -(2 ^ 63) ≤ v → v < 2 ^ 63 → 0 < T.Bits → T.Min ≤ v → v ≤ T.Max →
      ∀ (OutValue : Val) (n : Nat),
      self.ConvertScalarJsonValueToUProperty { H with Atoi64 := Atoi64 } rec
          (Json.string (toString v))
          (.mk name dim flags (.UNumericProperty none false true (.integral T))) OutValue n
        = .done (true, Val.int v, n))
    ∧ (∀ (v : Int), -(2 ^ 63) ≤ v → v < 2 ^ 63 → ∀ (OutValue : Val) (n : Nat),
      self.ConvertScalarJsonValueToUProperty { H with Atoi64 := Atoi64 } rec
          (Json.string (toString v))
          (.mk name dim flags (.UNumericProperty none false true (.integral int64))) OutValue n
        = .done (true, Val.int v, n))
    ∧ sampleParser.JsonValueToUProperty decimalHost 1 (Json.string "9223372036854775807")
        idProperty [Val.int 0] 0 = .done (true, [Val.int (2 ^ 63 - 1)], 0)
    ∧ sampleParser.JsonValueToUProperty decimalHost 1 (Json.string "-9223372036854775808")
        idProperty [Val.int 0] 0 = .done (true, [Val.int (-(2 ^ 63))], 0) := by
  have hconv : ∀ (T1 : IntegerType) (H1 : Host) (rec1 : Converter) (s : String) (OutValue : Val)
      (n : Nat),
      self.ConvertScalarJsonValueToUProperty H1 rec1 (Json.string s)
          (.mk name dim flags (.UNumericProperty none false true (.integral T1))) OutValue n
        = .done (true, Val.int (T1.cast (H1.Atoi64 s)), n) := by
    intro T1 H1 rec1 s OutValue n
    simp [DlgJsonParser.ConvertScalarJsonValueToUProperty, UProperty.Class, Stored,
      SetIntPropertyValue]
  refine ⟨hconv T H rec, ?_, ?_, ?_, ?_, rfl, rfl⟩
  · intro s OutValue n
    simp [DlgJsonParser.JsonValueToUProperty, DlgJsonParser.JsonValueToUPropertyBody,
      UProperty.IsArrayProperty, UProperty.Class, ConvertAtOutValue, hconv]
  · intro s OutValue n coerce cast
    rw [hconv, hconv]
  · intro v hlo hhi hb hmin hmax OutValue n
    rw [hconv]
    simp only
    rw [Atoi64_toString v hlo hhi, IntegerType.cast_of_holds T v hb hmin hmax]
  · intro v hlo hhi OutValue n
    rw [hconv]
    simp only
    rw [Atoi64_toString v hlo hhi, IntegerType.cast_of_holds int64 v (by decide)
      (by simpa [IntegerType.Min, int64] using hlo)
      (by simp only [IntegerType.Max, int64, if_true]; omega)]

/-- Witness of C13: the text of 2147483647 stores that value in an `int32` property. -/
theorem integer_text_is_stored_in_field_type_witness :
    -(2 ^ 63) ≤ (2147483647 : Int) ∧ (2147483647 : Int) < 2 ^ 63 ∧ 0 < int32.Bits
    ∧ int32.Min ≤ 2147483647 ∧ 2147483647 ≤ int32.Max
    ∧ sampleParser.ConvertScalarJsonValueToUProperty { sampleHost with Atoi64 := Atoi64 }
        (sampleParser.JsonValueToUProperty sampleHost 0) (Json.string (toString (2147483647 : Int)))
        (.mk "A" 1 0 (.UNumericProperty none false true (.integral int32))) (Val.int 0) 0
      = .done (true, Val.int 2147483647, 0) :=
  ⟨by decide, by decide, by decide, by decide, by decide,
    (integer_text_is_stored_in_field_type sampleParser sampleHost 0
      (sampleParser.JsonValueToUProperty sampleHost 0) int32 "A" 1 0).2.2.2.1 2147483647
      (by decide) (by decide) (by decide) (by decide) (by decide) (Val.int 0) 0⟩

/-- Counterexample to C13 as stated: `"9223372036854775807"` is the decimal text of a
signed 64-bit integer, and the `int32` property `A` stores -1 for it; the text of
`2 ^ 31` stores `-(2 ^ 31)`. -/
theorem integer_text_in_narrow_field_counterexample :
    Atoi64 "9223372036854775807" = 2 ^ 63 - 1
    ∧ sampleParser.JsonValueToUProperty decimalHost 1 (Json.string "9223372036854775807")
        numberA [Val.int 0] 0 = .done (true, [Val.int (-1)], 0)
    ∧ sampleParser.JsonValueToUProperty decimalHost 1 (Json.string "2147483648")
        numberA [Val.int 0] 0 = .done (true, [Val.int (-2147483648)], 0) :=
  ⟨by decide, rfl, rfl⟩

/-! ## C14 to C17: containers and native arrays -/

theorem Region.length_write (r : Region) (k : Nat) (v : Val) (h : k < r.length) :
    (Region.write r k v).length = r.length := by
  induction k generalizing r with
  | zero =>
    cases r with
    | nil => simp at h
    | cons x r => simp [Region.write]
  | succ k ih =>
    cases r with
    | nil => simp at h
    | cons x r =>
      simp only [Region.write, List.length_cons]
      rw [ih r (by simpa using h)]

theorem ArrayLoop_spec {rec : Converter} {Inner : UProperty} :
    ∀ (items : List Json) (Index : Nat) (elems : List Val) (n : Nat) (ok : Bool)
      (elems1 : List Val) (n1 : Nat),
      ArrayLoop rec Inner items Index elems n = .done (ok, elems1, n1) →
      Index + items.length ≤ elems.length →
      elems1.length = elems.length
      ∧ (∀ j, (j < Index ∨ Index + items.length ≤ j) →
          Region.read elems1 j = Region.read elems j)
      ∧ (∀ (k : Nat) x, items[k]? = some x → x.IsNull = true →
          Region.read elems1 (Index + k) = Region.read elems (Index + k))
      ∧ (ok = true → ∀ (k : Nat) x, items[k]? = some x → x.IsNull = false →
          ∃ m r m1, rec x Inner [Region.read elems (Index + k)] m = .done (true, r, m1)
            ∧ Region.read elems1 (Index + k) = Region.read r 0)
      ∧ (ok = false → ∃ (k : Nat) (x : Json) (m : Nat) (r : Region) (m1 : Nat), items[k]? = some x ∧ x.IsNull = false
          ∧ rec x Inner [Region.read elems (Index + k)] m = .done (false, r, m1)
          ∧ Region.read elems1 (Index + k) = Region.read r 0
          ∧ ∀ j, Index + k < j → Region.read elems1 j = Region.read elems j) := by
  intro items
  induction items with
  | nil =>
    intro Index elems n ok elems1 n1 h _
    simp only [ArrayLoop] at h
    cases h
    refine ⟨rfl, fun _ _ => rfl, ?_, ?_, ?_⟩
    · intro k x hk
      simp at hk
    · intro _ k x hk
      simp at hk
    · intro hf
      cases hf
  | cons x rest ih =>
    intro Index elems n ok elems1 n1 h hlen
    simp only [List.length_cons] at hlen
    have hidx : ∀ k : Nat, Index + (k + 1) = Index + 1 + k := fun k => by omega
    simp only [ArrayLoop] at h
    split at h
    · rename_i hnull
      obtain ⟨hl, hframe, hnul, htrue, hfalse⟩ := ih (Index + 1) elems n ok elems1 n1 h (by omega)
      refine ⟨hl, ?_, ?_, ?_, ?_⟩
      · intro j hj
        apply hframe
        simp only [List.length_cons] at hj
        omega
      · intro k y hk hy
        cases k with
        | zero => exact hframe _ (Or.inl (by omega))
        | succ k =>
          rw [hidx]
          exact hnul k y (by simpa using hk) hy
      · intro hok k y hk hy
        cases k with
        | zero =>
          simp at hk
          subst hk
          rw [hnull] at hy
          cases hy
        | succ k =>
          rw [hidx]
          exact htrue hok k y (by simpa using hk) hy
      · intro hok
        obtain ⟨k, y, m, r, m1, hk, hy, hrec, hread, hlater⟩ := hfalse hok
        refine ⟨k + 1, y, m, r, m1, by simpa using hk, hy, ?_, ?_, ?_⟩
        · rw [hidx]; exact hrec
        · rw [hidx]; exact hread
        · intro j hj
          exact hlater j (by omega)
    · rename_i hnull
      have hnull1 : x.IsNull = false := by simpa using hnull
      split at h
      · rename_i r n2 hrec
        have hlw : (Region.write elems Index (Region.read r 0)).length = elems.length :=
          Region.length_write _ _ _ (by omega)
        obtain ⟨hl, hframe, hnul, htrue, hfalse⟩ :=
          ih (Index + 1) (Region.write elems Index (Region.read r 0)) n2 ok elems1 n1 h
            (by rw [hlw]; omega)
        have hother : ∀ j, j ≠ Index →
            Region.read (Region.write elems Index (Region.read r 0)) j = Region.read elems j := by
          intro j hj
          rw [Region.read_write]
          simp [hj]
        have hsame : Region.read elems1 Index = Region.read r 0 := by
          rw [hframe Index (Or.inl (by omega)), Region.read_write]
          simp
        refine ⟨by rw [hl, hlw], ?_, ?_, ?_, ?_⟩
        · intro j hj
          simp only [List.length_cons] at hj
          rw [hframe j (by omega), hother j (by omega)]
        · intro k y hk hy
          cases k with
          | zero =>
            simp at hk
            subst hk
            rw [hnull1] at hy
            cases hy
          | succ k =>
            rw [hidx, hnul k y (by simpa using hk) hy, hother _ (by omega)]
        · intro hok k y hk hy
          cases k with
          | zero =>
            simp at hk
            subst hk
            exact ⟨n, r, n2, hrec, hsame⟩
          | succ k =>
            obtain ⟨m, r1, m1, hrec1, hread1⟩ := htrue hok k y (by simpa using hk) hy
            rw [hother _ (by omega)] at hrec1
            exact ⟨m, r1, m1, by rw [hidx]; exact hrec1, by rw [hidx]; exact hread1⟩
        · intro hok
          obtain ⟨k, y, m, r1, m1, hk, hy, hrec1, hread1, hlater⟩ := hfalse hok
          rw [hother _ (by omega)] at hrec1
          refine ⟨k + 1, y, m, r1, m1, by simpa using hk, hy, ?_, ?_, ?_⟩
          · rw [hidx]; exact hrec1
          · rw [hidx]; exact hread1
          · intro j hj
            rw [hlater j (by omega), hother j (by omega)]
      · rename_i r n2 hrec
        simp only [Outcome.done.injEq, Prod.mk.injEq] at h
        obtain ⟨hok, helems, _⟩ := h
        subst hok helems
        refine ⟨Region.length_write _ _ _ (by omega), ?_, ?_, ?_, ?_⟩
        · intro j hj
          simp only [List.length_cons] at hj
          rw [Region.read_write]
          have : j ≠ Index := by omega
          simp [this]
        · intro k y hk hy
          cases k with
          | zero =>
            simp at hk
            subst hk
            rw [hnull1] at hy
            cases hy
          | succ k =>
            rw [Region.read_write]
            have : Index + (k + 1) ≠ Index := by omega
            simp [this]
        · intro hf
          cases hf
        · intro _
          refine ⟨0, x, n, r, n2, by simp, hnull1, hrec, ?_, ?_⟩
          · rw [Region.read_write]
            simp
          · intro j hj
            rw [Region.read_write]
            have : j ≠ Index := by omega
            simp [this]
      · cases h
      · cases h

theorem Resize_length (H : Host) (Inner : UProperty) (elems : List Val) (Num : Nat) :
    (Resize H Inner elems Num).length = Num := by
  simp only [Resize, List.length_append, List.length_take, List.length_replicate]
  omega

/-- C15 (as amended): for every Map property, converting the empty JSON object returns
true and adds nothing: the map holds the rehash of the pairs it held before, so an empty
map stays empty and the pairs of a map that was not empty are kept. -/
theorem empty_object_keeps_map_pairs (self : DlgJsonParser) (H : Host) (fuel : Nat)
    (rec : Converter) (KeyProp ValueProp : UProperty) (name : String) (dim : Int) (flags : Nat) :
    (∀ (OutValue : Val) (n : Nat),
      self.ConvertScalarJsonValueToUProperty H rec (Json.object [])
          (.mk name dim flags (.UMapProperty KeyProp ValueProp)) OutValue n
        = .done (true, Val.map (H.RehashMap OutValue.mapPairs), n))
    ∧ (∀ (OutValue : Region) (n : Nat),
      self.JsonValueToUProperty H (fuel + 1) (Json.object [])
          (.mk name dim flags (.UMapProperty KeyProp ValueProp)) OutValue n
        = .done (true,
            Region.write OutValue 0 (Val.map (H.RehashMap (Region.read OutValue 0).mapPairs)), n))
    ∧ sampleParser.JsonValueToUProperty sampleHost 1 (Json.object []) scoresProperty
        [Val.map []] 0 = .done (true, [Val.map []], 0)
    ∧ sampleParser.JsonValueToUProperty sampleHost 1 (Json.object []) scoresProperty
        [Val.map [(Val.str "k", Val.int 1), (Val.str "l", Val.int 2)]] 0
      = .done (true, [Val.map [(Val.str "k", Val.int 1), (Val.str "l", Val.int 2)]], 0) := by
  refine ⟨?_, ?_, rfl, rfl⟩
  · intro OutValue n
    simp [DlgJsonParser.ConvertScalarJsonValueToUProperty, UProperty.Class, MapLoop]
  · intro OutValue n
    simp [DlgJsonParser.JsonValueToUProperty, DlgJsonParser.JsonValueToUPropertyBody,
      UProperty.IsArrayProperty, UProperty.Class, ConvertAtOutValue,
      DlgJsonParser.ConvertScalarJsonValueToUProperty, MapLoop]

/-- Counterexample to C15 as stated: the `scores` map holds one pair; converting `{}`
returns true and the map still has that pair. -/
theorem empty_object_on_filled_map_counterexample :
    sampleParser.JsonValueToUProperty sampleHost 1 (Json.object []) scoresProperty
        [Val.map [(Val.str "k", Val.int 1)]] 0
      = .done (true, [Val.map [(Val.str "k", Val.int 1)]], 0)
    ∧ (Region.read [Val.map [(Val.str "k", Val.int 1)]] 0).mapPairs ≠ [] := by
  refine ⟨rfl, ?_⟩
  simp [Region.read, Val.mapPairs]

/-- C16 (as amended): through `JsonValueToUProperty`, an Array property and a Set
property given a JSON value that is not an array return false, and a Map property given
JSON null, a boolean, a number or a string returns false, in each case with the slot
content unchanged. A JSON array given to a Map property is not rejected for its shape:
it is read as native-array input, so the empty array returns true without writing, and
`[{}]` given to a map with `ArrayDim` 1 returns true. -/
theorem containers_reject_wrong_shape (self : DlgJsonParser) (H : Host) (fuel : Nat)
    (name : String) (dim : Int) (flags : Nat) (OutValue : Region) (n : Nat) :
    (∀ (Inner : UProperty) (JsonValue : Json), (∀ xs, JsonValue ≠ Json.array xs) →
      self.JsonValueToUProperty H (fuel + 1) JsonValue
          (.mk name dim flags (.UArrayProperty Inner)) OutValue n = .done (false, OutValue, n))
    ∧ (∀ (ElementProp : UProperty) (JsonValue : Json), (∀ xs, JsonValue ≠ Json.array xs) →
      self.JsonValueToUProperty H (fuel + 1) JsonValue
          (.mk name dim flags (.USetProperty ElementProp)) OutValue n
        = .done (false, Region.write OutValue 0 (Region.read OutValue 0), n))
    ∧ (∀ (KeyProp ValueProp : UProperty) (JsonValue : Json), (∀ xs, JsonValue ≠ Json.array xs) →
      (∀ values, JsonValue ≠ Json.object values) →
      self.JsonValueToUProperty H (fuel + 1) JsonValue
          (.mk name dim flags (.UMapProperty KeyProp ValueProp)) OutValue n
        = .done (false, Region.write OutValue 0 (Region.read OutValue 0), n))
    ∧ (∀ (KeyProp ValueProp : UProperty),
      self.JsonValueToUProperty H (fuel + 1) (Json.array [])
          (.mk name dim flags (.UMapProperty KeyProp ValueProp)) OutValue n
        = .done (true, OutValue, n))
    ∧ sampleParser.JsonValueToUProperty sampleHost 1 (Json.array [Json.object []])
        scoresProperty [Val.map []] 0 = .done (true, [Val.map []], 0) := by
  refine ⟨?_, ?_, ?_, ?_, rfl⟩
  · intro Inner JsonValue hj
    cases JsonValue with
    | array xs => exact absurd rfl (hj xs)
    | _ =>
      simp [DlgJsonParser.JsonValueToUProperty, DlgJsonParser.JsonValueToUPropertyBody,
        UProperty.IsArrayProperty, UProperty.Class]
  · intro ElementProp JsonValue hj
    cases JsonValue with
    | array xs => exact absurd rfl (hj xs)
    | _ =>
      simp [DlgJsonParser.JsonValueToUProperty, DlgJsonParser.JsonValueToUPropertyBody,
        UProperty.IsArrayProperty, UProperty.Class, ConvertAtOutValue,
        DlgJsonParser.ConvertScalarJsonValueToUProperty]
  · intro KeyProp ValueProp JsonValue hj ho
    cases JsonValue with
    | array xs => exact absurd rfl (hj xs)
    | object values => exact absurd rfl (ho values)
    | _ =>
      simp [DlgJsonParser.JsonValueToUProperty, DlgJsonParser.JsonValueToUPropertyBody,
        UProperty.IsArrayProperty, UProperty.Class, ConvertAtOutValue,
        DlgJsonParser.ConvertScalarJsonValueToUProperty]
  · intro KeyProp ValueProp
    simp [DlgJsonParser.JsonValueToUProperty, DlgJsonParser.JsonValueToUPropertyBody,
      UProperty.IsArrayProperty, UProperty.Class, NativeArrayLoop]

/-- Counterexample to C16 as stated: the JSON array `[]` given to the `scores` map is
not rejected, the conversion returns true. -/
theorem map_given_json_array_counterexample :
    sampleParser.JsonValueToUProperty sampleHost 1 (Json.array []) scoresProperty [Val.map []] 0
      = .done (true, [Val.map []], 0)
    ∧ ¬ ∃ r n1, sampleParser.JsonValueToUProperty sampleHost 1 (Json.array []) scoresProperty
        [Val.map []] 0 = .done (false, r, n1) := by
  have h : sampleParser.JsonValueToUProperty sampleHost 1 (Json.array []) scoresProperty
      [Val.map []] 0 = .done (true, [Val.map []], 0) := rfl
  refine ⟨h, ?_⟩
  rintro ⟨r, n1, h1⟩
  rw [h] at h1
  cases h1

theorem NativeArrayLoop_spec {self : DlgJsonParser} {H : Host} {rec : Converter}
    {Property : UProperty} :
    ∀ (items : List Json) (Index : Nat) (OutValue : Region) (n : Nat) (ok : Bool)
      (r : Region) (n1 : Nat),
      NativeArrayLoop self H rec Property items Index OutValue n = .done (ok, r, n1) →
      (∀ j, (j < Index ∨ Index + items.length ≤ j) → Region.read r j = Region.read OutValue j)
      ∧ (ok = true → ∀ (k : Nat) x, items[k]? = some x →
          ∃ m v m1, self.ConvertScalarJsonValueToUProperty H rec x Property
              (Region.read OutValue (Index + k)) m = .done (true, v, m1)
            ∧ Region.read r (Index + k) = v)
      ∧ (ok = false → ∃ (k : Nat) (x : Json) (m : Nat) (v : Val) (m1 : Nat),
          items[k]? = some x
          ∧ self.ConvertScalarJsonValueToUProperty H rec x Property
              (Region.read OutValue (Index + k)) m = .done (false, v, m1)
          ∧ Region.read r (Index + k) = v
          ∧ (∀ j, Index + k < j → Region.read r j = Region.read OutValue j)
          ∧ ∀ (k1 : Nat) y, k1 < k → items[k1]? = some y →
              ∃ m2 v2 m3, self.ConvertScalarJsonValueToUProperty H rec y Property
                  (Region.read OutValue (Index + k1)) m2 = .done (true, v2, m3)
                ∧ Region.read r (Index + k1) = v2) := by
  intro items
  induction items with
  | nil =>
    intro Index OutValue n ok r n1 h
    simp only [NativeArrayLoop] at h
    cases h
    refine ⟨fun _ _ => rfl, ?_, ?_⟩
    · intro _ k x hk
      simp at hk
    · intro hf
      cases hf
  | cons x rest ih =>
    intro Index OutValue n ok r n1 h
    have hidx : ∀ k : Nat, Index + (k + 1) = Index + 1 + k := fun k => by omega
    simp only [NativeArrayLoop] at h
    split at h
    · rename_i v n2 hconv
      obtain ⟨hframe, htrue, hfalse⟩ := ih (Index + 1) (Region.write OutValue Index v) n2 ok r n1 h
      have hother : ∀ j, j ≠ Index →
          Region.read (Region.write OutValue Index v) j = Region.read OutValue j := by
        intro j hj
        rw [Region.read_write]
        simp [hj]
      have hsame : Region.read r Index = v := by
        rw [hframe Index (Or.inl (by omega)), Region.read_write]
        simp
      refine ⟨?_, ?_, ?_⟩
      · intro j hj
        simp only [List.length_cons] at hj
        rw [hframe j (by omega), hother j (by omega)]
      · intro hok k y hk
        cases k with
        | zero =>
          simp at hk
          subst hk
          exact ⟨n, v, n2, hconv, hsame⟩
        | succ k =>
          obtain ⟨m, v1, m1, hc1, hr1⟩ := htrue hok k y (by simpa using hk)
          rw [hother _ (by omega)] at hc1
          exact ⟨m, v1, m1, by rw [hidx]; exact hc1, by rw [hidx]; exact hr1⟩
      · intro hok
        obtain ⟨k, y, m, v1, m1, hk, hc1, hr1, hlater, hbefore⟩ := hfalse hok
        rw [hother _ (by omega)] at hc1
        refine ⟨k + 1, y, m, v1, m1, by simpa using hk, by rw [hidx]; exact hc1,
          by rw [hidx]; exact hr1, ?_, ?_⟩
        · intro j hj
          rw [hlater j (by omega), hother j (by omega)]
        · intro k1 z hk1 hz
          cases k1 with
          | zero =>
            simp at hz
            subst hz
            exact ⟨n, v, n2, hconv, hsame⟩
          | succ k1 =>
            obtain ⟨m2, v2, m3, hc2, hr2⟩ := hbefore k1 z (by omega) (by simpa using hz)
            rw [hother _ (by omega)] at hc2
            exact ⟨m2, v2, m3, by rw [hidx]; exact hc2, by rw [hidx]; exact hr2⟩
    · rename_i v n2 hconv
      simp only [Outcome.done.injEq, Prod.mk.injEq] at h
      obtain ⟨hok, hr, _⟩ := h
      subst hok hr
      refine ⟨?_, ?_, ?_⟩
      · intro j hj
        simp only [List.length_cons] at hj
        rw [Region.read_write]
        have : j ≠ Index := by omega
        simp [this]
      · intro hf
        cases hf
      · intro _
        refine ⟨0, x, n, v, n2, by simp, hconv, ?_, ?_, ?_⟩
        · rw [Region.read_write]
          simp
        · intro j hj
          rw [Region.read_write]
          have : j ≠ Index := by omega
          simp [this]
        · intro k1 y hk1
          omega
    · cases h
    · cases h

theorem Clamp_toNat (m N : Nat) : (Clamp (m : Int) 0 (N : Int)).toNat = min m N := by
  unfold Clamp
  split
  · omega
  · split <;> omega

/-- C17 (as amended): for a property with `ArrayDim = N > 1`. A JSON value that is not an
array leaves the slots 1 and above unchanged and, unless the property is a dynamic array
(which rejects it), is converted into slot 0. A JSON array of length `m` is read
positionally and in order: the slots at `min N m` and above are unchanged; when the call
returns true each of the first `min N m` items was converted into the slot of its index
and each conversion returned true; when it returns false the loop stopped at the first
item whose conversion returned false: the items before it were converted, the slots
after it are unchanged. -/
theorem native_array_is_read_positionally (self : DlgJsonParser) (H : Host) (fuel : Nat)
    (Property : UProperty) (N : Nat) (OutValue : Region) (n : Nat)
    (hN : Property.ArrayDim = (N : Int)) (hgt : 1 < N) :
    (∀ (JsonValue : Json), (∀ xs, JsonValue ≠ Json.array xs) → ∀ ok r n1,
      self.JsonValueToUProperty H (fuel + 1) JsonValue Property OutValue n = .done (ok, r, n1) →
      (∀ k, k ≠ 0 → Region.read r k = Region.read OutValue k)
      ∧ (Property.IsArrayProperty = false →
          self.ConvertScalarJsonValueToUProperty H (self.JsonValueToUProperty H fuel) JsonValue
            Property (Region.read OutValue 0) n = .done (ok, Region.read r 0, n1)))
    ∧ (∀ (ArrayValue : List Json) ok r n1,
      self.JsonValueToUProperty H (fuel + 1) (Json.array ArrayValue) Property OutValue n
        = .done (ok, r, n1) →
      (∀ j, min N ArrayValue.length ≤ j → Region.read r j = Region.read OutValue j)
      ∧ (ok = true → ∀ (i : Nat) x, i < min N ArrayValue.length → ArrayValue[i]? = some x →
          ∃ m v m1, self.ConvertScalarJsonValueToUProperty H (self.JsonValueToUProperty H fuel)
              x Property (Region.read OutValue i) m = .done (true, v, m1)
            ∧ Region.read r i = v)
      ∧ (ok = false → ∃ (i : Nat) (x : Json) (m : Nat) (v : Val) (m1 : Nat),
          i < min N ArrayValue.length ∧ ArrayValue[i]? = some x
          ∧ self.ConvertScalarJsonValueToUProperty H (self.JsonValueToUProperty H fuel)
              x Property (Region.read OutValue i) m = .done (false, v, m1)
          ∧ Region.read r i = v
          ∧ (∀ j, i < j → Region.read r j = Region.read OutValue j)
          ∧ ∀ (i1 : Nat) y, i1 < i → ArrayValue[i1]? = some y →
              ∃ m2 v2 m3, self.ConvertScalarJsonValueToUProperty H
                  (self.JsonValueToUProperty H fuel) y Property (Region.read OutValue i1) m2
                  = .done (true, v2, m3)
                ∧ Region.read r i1 = v2)) := by
  have hdim : (Property.ArrayDim == 1) = false := by
    rw [hN]
    simp
    omega
  constructor
  · intro JsonValue hj ok r n1 h
    have hbody : self.JsonValueToUProperty H (fuel + 1) JsonValue Property OutValue n
        = if Property.IsArrayProperty then .done (false, OutValue, n)
          else ConvertAtOutValue self H (self.JsonValueToUProperty H fuel) JsonValue Property
            OutValue n := by
      cases JsonValue with
      | array xs => exact absurd rfl (hj xs)
      | _ => rfl
    rw [hbody] at h
    split at h
    · rename_i harr
      simp only [Outcome.done.injEq, Prod.mk.injEq] at h
      obtain ⟨_, hr, _⟩ := h
      subst hr
      exact ⟨fun _ _ => rfl, fun hf => by rw [hf] at harr; cases harr⟩
    · unfold ConvertAtOutValue at h
      split at h
      · rename_i ok1 v n2 hconv
        simp only [Outcome.done.injEq, Prod.mk.injEq] at h
        obtain ⟨hok, hr, hn⟩ := h
        subst hok hr hn
        refine ⟨?_, ?_⟩
        · intro k hk
          rw [Region.read_write]
          simp [hk]
        · intro _
          rw [Region.read_write]
          simpa using hconv
      · cases h
      · cases h
  · intro ArrayValue ok r n1 h
    have hdimN : (((N : Nat) : Int) == 1) = false := by
      rw [← hN]
      exact hdim
    simp only [DlgJsonParser.JsonValueToUProperty, DlgJsonParser.JsonValueToUPropertyBody] at h
    rw [hN] at h
    simp only [hdimN, Bool.and_false, Bool.false_eq_true, if_false, Clamp_toNat] at h
    obtain ⟨hframe, htrue, hfalse⟩ := NativeArrayLoop_spec _ _ _ _ _ _ _ h
    have hlen : (ArrayValue.take (min ArrayValue.length N)).length = min N ArrayValue.length := by
      rw [List.length_take]
      omega
    refine ⟨?_, ?_, ?_⟩
    · intro j hj
      exact hframe j (Or.inr (by rw [hlen]; omega))
    · intro hok i x hi hx
      have hx1 : (ArrayValue.take (min ArrayValue.length N))[i]? = some x := by
        rw [List.getElem?_take_of_lt (by omega)]
        exact hx
      simpa using htrue hok i x hx1
    · intro hok
      obtain ⟨k, x, m, v, m1, hk, hconv, hr, hlater, hbefore⟩ := hfalse hok
      have hklt : k < min N ArrayValue.length := by
        have := (List.getElem?_eq_some_iff.mp hk).1
        rw [hlen] at this
        exact this
      have hk1 : ArrayValue[k]? = some x := by
        rw [List.getElem?_take_of_lt (by omega)] at hk
        exact hk
      refine ⟨k, x, m, v, m1, hklt, hk1, by simpa using hconv, by simpa using hr, ?_, ?_⟩
      · intro j hj
        exact hlater j (by omega)
      · intro i1 y hi1 hy
        have hy1 : (ArrayValue.take (min ArrayValue.length N))[i1]? = some y := by
          rw [List.getElem?_take_of_lt (by omega)]
          exact hy
        simpa using hbefore i1 y hi1 hy1

/-- Witness of C17: the native array `pair` of two moods given `["Happy", "Sad", "Happy"]`
has its two slots written and the slot after them kept. -/
theorem native_array_is_read_positionally_witness :
    pairProperty.ArrayDim = ((2 : Nat) : Int)
    ∧ sampleParser.JsonValueToUProperty sampleHost (0 + 1)
        (Json.array [Json.string "Happy", Json.string "Sad", Json.string "Happy"]) pairProperty
        [Val.int 5, Val.int 6, Val.int 7] 0
      = .done (true, [Val.int 1, Val.int 0, Val.int 7], 0)
    ∧ (∀ j, min 2 [Json.string "Happy", Json.string "Sad", Json.string "Happy"].length ≤ j →
        Region.read [Val.int 1, Val.int 0, Val.int 7] j
          = Region.read [Val.int 5, Val.int 6, Val.int 7] j) :=
  ⟨rfl, rfl,
    ((native_array_is_read_positionally sampleParser sampleHost 0 pairProperty 2
      [Val.int 5, Val.int 6, Val.int 7] 0 rfl (by decide)).2
      [Json.string "Happy", Json.string "Sad", Json.string "Happy"] true
      [Val.int 1, Val.int 0, Val.int 7] 0 rfl).1⟩

/-- Counterexample to C17 as stated: the native array `pair` given `["Angry", "Happy"]`.
Both items are within the first `min N m = 2`, but the conversion of item 0 returns false
and the loop returns at once: item 1, which converts to 1, is never written to slot 1. -/
theorem native_array_stops_at_failure_counterexample :
    sampleParser.JsonValueToUProperty sampleHost 1
        (Json.array [Json.string "Angry", Json.string "Happy"]) pairProperty
        [Val.int 0, Val.int 0] 0
      = .done (false, [Val.int 0, Val.int 0], 0)
    ∧ sampleParser.ConvertScalarJsonValueToUProperty sampleHost
        (sampleParser.JsonValueToUProperty sampleHost 0) (Json.string "Happy") pairProperty
        (Val.int 0) 0 = .done (true, Val.int 1, 0)
    ∧ Region.read [Val.int 0, Val.int 0] 1 ≠ Val.int 1 := by
  refine ⟨rfl, rfl, ?_⟩
  simp [Region.read]


/-! ## C18 to C20: localized text, dates and the driver -/

theorem GetTextFromObjectLoop_first (H : Host) (Obj : JsonAttributes) (pre : List String)
    (c : String) (post : List String) (s : String)
    (hc : TryGetStringField H Obj c = some s)
    (hpre : ∀ c1 ∈ pre, TryGetStringField H Obj c1 = none) :
    GetTextFromObjectLoop H Obj (pre ++ c :: post) = some s := by
  induction pre with
  | nil => simp [GetTextFromObjectLoop, hc]
  | cons c1 pre ih =>
    have h1 := hpre c1 (List.mem_cons_self _ _)
    simp only [List.cons_append, GetTextFromObjectLoop, h1]
    exact ih (fun c2 hc2 => hpre c2 (List.mem_cons_of_mem _ hc2))

theorem GetTextFromObjectLoop_none (H : Host) (Obj : JsonAttributes) (cs : List String)
    (h : ∀ c ∈ cs, TryGetStringField H Obj c = none) :
    GetTextFromObjectLoop H Obj cs = none := by
  induction cs with
  | nil => rfl
  | cons c cs ih =>
    have h1 := h c (List.mem_cons_self _ _)
    simp only [GetTextFromObjectLoop, h1]
    exact ih (fun c2 hc2 => h c2 (List.mem_cons_of_mem _ hc2))

theorem TryGetStringField_of_string {H : Host} {Obj : JsonAttributes} {c s : String}
    (h : FindField Obj c = some (Json.string s)) : TryGetStringField H Obj c = some s := by
  simp [TryGetStringField, h]

theorem TryGetStringField_of_no_key {H : Host} {Obj : JsonAttributes} {c : String}
    (h : FindField Obj c = none) : TryGetStringField H Obj c = none := by
  simp [TryGetStringField, h]

theorem ConvertScalar_text_object (self : DlgJsonParser) (H : Host) (rec : Converter)
    (name : String) (dim : Int) (flags : Nat) (Obj : JsonAttributes) (OutValue : Val) (n : Nat) :
    self.ConvertScalarJsonValueToUProperty H rec (Json.object Obj)
        (.mk name dim flags .UTextProperty) OutValue n
      = match GetTextFromObjectLoop H Obj H.CultureList with
        | none => .done (false, OutValue, n)
        | some Text => .done (true, Val.text Text, n) := by
  simp only [DlgJsonParser.ConvertScalarJsonValueToUProperty, UProperty.Class, GetTextFromObject]

/-- C18 (as amended): for a LocalizedText property a JSON string is stored as it is. For
a JSON object, with the prioritized culture names taken in order, the conversion stores
the string that `TryGetStringField` reads under the first candidate for which that read
succeeds, and returns false, leaving the slot, when it succeeds for no candidate. The
read succeeds for a key whose value is a string and fails for a candidate that is not a
key; for a key with another kind of value it is the engine's `TryGetString` that
decides. So the string under a string-valued candidate is stored when no earlier
candidate is a key, and the conversion fails when no candidate is a key. -/
theorem localized_text_first_readable_candidate (self : DlgJsonParser) (H : Host)
    (rec : Converter) (name : String) (dim : Int) (flags : Nat) (OutValue : Val) (n : Nat) :
    (∀ s, self.ConvertScalarJsonValueToUProperty H rec (Json.string s)
        (.mk name dim flags .UTextProperty) OutValue n = .done (true, Val.text s, n))
    ∧ (∀ (Obj : JsonAttributes) (pre : List String) (c : String) (post : List String) (s : String),
        H.CultureList = pre ++ c :: post → TryGetStringField H Obj c = some s →
        (∀ c1 ∈ pre, TryGetStringField H Obj c1 = none) →
        self.ConvertScalarJsonValueToUProperty H rec (Json.object Obj)
          (.mk name dim flags .UTextProperty) OutValue n = .done (true, Val.text s, n))
    ∧ (∀ (Obj : JsonAttributes), (∀ c ∈ H.CultureList, TryGetStringField H Obj c = none) →
        self.ConvertScalarJsonValueToUProperty H rec (Json.object Obj)
          (.mk name dim flags .UTextProperty) OutValue n = .done (false, OutValue, n))
    ∧ (∀ (Obj : JsonAttributes) (c s : String), FindField Obj c = some (Json.string s) →
        TryGetStringField H Obj c = some s)
    ∧ (∀ (Obj : JsonAttributes) (c : String), FindField Obj c = none →
        TryGetStringField H Obj c = none)
    ∧ (∀ (Obj : JsonAttributes) (pre : List String) (c : String) (post : List String) (s : String),
        H.CultureList = pre ++ c :: post → FindField Obj c = some (Json.string s) →
        (∀ c1 ∈ pre, FindField Obj c1 = none) →
        self.ConvertScalarJsonValueToUProperty H rec (Json.object Obj)
          (.mk name dim flags .UTextProperty) OutValue n = .done (true, Val.text s, n))
    ∧ (∀ (Obj : JsonAttributes), (∀ c ∈ H.CultureList, FindField Obj c = none) →
        self.ConvertScalarJsonValueToUProperty H rec (Json.object Obj)
          (.mk name dim flags .UTextProperty) OutValue n = .done (false, OutValue, n)) := by
  have hfirst : ∀ (Obj : JsonAttributes) (pre : List String) (c : String) (post : List String)
      (s : String), H.CultureList = pre ++ c :: post → TryGetStringField H Obj c = some s →
      (∀ c1 ∈ pre, TryGetStringField H Obj c1 = none) →
      self.ConvertScalarJsonValueToUProperty H rec (Json.object Obj)
        (.mk name dim flags .UTextProperty) OutValue n = .done (true, Val.text s, n) := by
    intro Obj pre c post s hlist hc hpre
    rw [ConvertScalar_text_object, hlist, GetTextFromObjectLoop_first H Obj pre c post s hc hpre]
  have hnone : ∀ (Obj : JsonAttributes), (∀ c ∈ H.CultureList, TryGetStringField H Obj c = none) →
      self.ConvertScalarJsonValueToUProperty H rec (Json.object Obj)
        (.mk name dim flags .UTextProperty) OutValue n = .done (false, OutValue, n) := by
    intro Obj h
    rw [ConvertScalar_text_object, GetTextFromObjectLoop_none H Obj _ h]
  refine ⟨?_, hfirst, hnone, ?_, ?_, ?_, ?_⟩
  · intro s
    simp [DlgJsonParser.ConvertScalarJsonValueToUProperty, UProperty.Class]
  · intro Obj c s h
    exact TryGetStringField_of_string h
  · intro Obj c h
    exact TryGetStringField_of_no_key h
  · intro Obj pre c post s hlist hc hpre
    exact hfirst Obj pre c post s hlist (TryGetStringField_of_string hc)
      (fun c1 hc1 => TryGetStringField_of_no_key (hpre c1 hc1))
  · intro Obj h
    exact hnone Obj (fun c hc => TryGetStringField_of_no_key (h c hc))

/-- Counterexample to C18 as stated: the candidates are `en-US`, `en`; in the object
`{"en-US": true, "en": "hi"}` the first candidate that is a string-valued key is `en`,
yet with a `TryGetString` that renders a boolean as text the conversion stores `true`. -/
theorem localized_text_boolean_candidate_counterexample :
    boolTextHost.CultureList = ["en-US", "en"]
    ∧ FindField [("en-US", Json.bool true), ("en", Json.string "hi")] "en-US"
        = some (Json.bool true)
    ∧ FindField [("en-US", Json.bool true), ("en", Json.string "hi")] "en"
        = some (Json.string "hi")
    ∧ sampleParser.JsonValueToUProperty boolTextHost 1
        (Json.object [("en-US", Json.bool true), ("en", Json.string "hi")]) titleProperty
        [Val.text "old"] 0 = .done (true, [Val.text "true"], 0)
    ∧ Val.text "true" ≠ Val.text "hi" := by
  refine ⟨rfl, rfl, rfl, rfl, ?_⟩
  intro h
  simp at h

/-- C19 (as amended): for a structure property whose structure is named `DateTime` and a
JSON string `s`: when `s` equals `min`, `max` or `now` under the comparison of `FString`,
which ignores case, the minimum value, the maximum value or the current UTC time is
stored, whatever the parsers would say; for any other `s` the ISO-8601 parse is stored
when that parser accepts `s`, else the result of the flexible parser when that accepts
`s`, and when neither accepts the conversion returns false and the slot is unchanged. -/
theorem date_time_keywords_then_parsers (self : DlgJsonParser) (H : Host) (rec : Converter)
    (name : String) (dim : Int) (flags : Nat) (wrapper importItem : Bool)
    (Properties : List UProperty) (s : String) (OutValue : Val) (n : Nat) :
    (FStringEquals s "min" = true →
      self.ConvertScalarJsonValueToUProperty H rec (Json.string s)
          (.mk name dim flags (.UStructProperty (.mk "DateTime" wrapper importItem Properties)))
          OutValue n = .done (true, Val.dateTime H.DateTimeMinValue, n))
    ∧ (FStringEquals s "min" = false → FStringEquals s "max" = true →
      self.ConvertScalarJsonValueToUProperty H rec (Json.string s)
          (.mk name dim flags (.UStructProperty (.mk "DateTime" wrapper importItem Properties)))
          OutValue n = .done (true, Val.dateTime H.DateTimeMaxValue, n))
    ∧ (FStringEquals s "min" = false → FStringEquals s "max" = false →
        FStringEquals s "now" = true →
      self.ConvertScalarJsonValueToUProperty H rec (Json.string s)
          (.mk name dim flags (.UStructProperty (.mk "DateTime" wrapper importItem Properties)))
          OutValue n = .done (true, Val.dateTime H.UtcNow, n))
    ∧ (FStringEquals s "min" = false → FStringEquals s "max" = false →
        FStringEquals s "now" = false →
      self.ConvertScalarJsonValueToUProperty H rec (Json.string s)
          (.mk name dim flags (.UStructProperty (.mk "DateTime" wrapper importItem Properties)))
          OutValue n
        = match H.ParseIso8601 s with
          | some t => .done (true, Val.dateTime t, n)
          | none =>
            match H.Parse s with
            | some t => .done (true, Val.dateTime t, n)
            | none => .done (false, OutValue, n))
    ∧ (FStringEquals "min" "min" = true ∧ FStringEquals "max" "min" = false
        ∧ FStringEquals "max" "max" = true ∧ FStringEquals "now" "min" = false
        ∧ FStringEquals "now" "max" = false ∧ FStringEquals "now" "now" = true)
    ∧ sampleParser.JsonValueToUProperty sampleHost 1 (Json.string "now") whenProperty
        [Val.dateTime 5] 0 = .done (true, [Val.dateTime sampleHost.UtcNow], 0)
    ∧ sampleParser.JsonValueToUProperty sampleHost 1 (Json.string "not-a-date") whenProperty
        [Val.dateTime 5] 0 = .done (false, [Val.dateTime 5], 0) := by
  have h1 : ("DateTime" == "LinearColor") = false := by decide
  have h2 : ("DateTime" == "Color") = false := by decide
  have h3 : ("DateTime" == "DateTime") = true := by decide
  refine ⟨?_, ?_, ?_, ?_, ⟨rfl, rfl, rfl, rfl, rfl, rfl⟩, rfl, rfl⟩
  · intro hmin
    simp only [DlgJsonParser.ConvertScalarJsonValueToUProperty, UProperty.Class,
      UScriptStruct.GetFName, h1, h2, h3, hmin, Bool.false_eq_true, if_false, if_true]
  · intro hmin hmax
    simp only [DlgJsonParser.ConvertScalarJsonValueToUProperty, UProperty.Class,
      UScriptStruct.GetFName, h1, h2, h3, hmin, hmax, Bool.false_eq_true, if_false, if_true]
  · intro hmin hmax hnow
    simp only [DlgJsonParser.ConvertScalarJsonValueToUProperty, UProperty.Class,
      UScriptStruct.GetFName, h1, h2, h3, hmin, hmax, hnow, Bool.false_eq_true, if_false,
      if_true]
  · intro hmin hmax hnow
    simp only [DlgJsonParser.ConvertScalarJsonValueToUProperty, UProperty.Class,
      UScriptStruct.GetFName, h1, h2, h3, hmin, hmax, hnow, Bool.false_eq_true, if_false,
      if_true]

/-- Counterexample to C19 as stated: `MIN` is not the literal `min` when case counts and
no parser of the sample host accepts it, yet the conversion returns true and stores the
minimum value, because `FString` compares ignoring case. -/
theorem date_time_keyword_case_counterexample :
    ("MIN" == "min") = false
    ∧ sampleHost.ParseIso8601 "MIN" = none ∧ sampleHost.Parse "MIN" = none
    ∧ sampleParser.JsonValueToUProperty sampleHost 1 (Json.string "MIN") whenProperty
        [Val.dateTime 5] 0 = .done (true, [Val.dateTime sampleHost.DateTimeMinValue], 0)
    ∧ Val.dateTime sampleHost.DateTimeMinValue ≠ Val.dateTime 5 := by
  refine ⟨by decide, rfl, rfl, rfl, ?_⟩
  intro h
  simp [sampleHost] at h

/-- C20: when the file cannot be loaded, `InitializeParser` marks the parser invalid, and
`ReadAllProperty` on an invalid parser returns at once: the JSON reader is not run (the
result is the same for every host), the target and the instance counter are as before
and the parser, still invalid, is unchanged. -/
theorem failed_load_stops_read (self : DlgJsonParser) (H : Host) (FilePath : String)
    (hload : H.LoadFileToString FilePath = none) :
    (self.InitializeParser H FilePath).bIsValidFile = false
    ∧ (∀ (H1 : Host) (fuel : Nat) (ReferenceClass : UStruct) (TargetObject : Val)
        (InDefaultObjectOuter : Option Nat) (n : Nat),
        (self.InitializeParser H FilePath).ReadAllProperty H1 fuel ReferenceClass TargetObject
            InDefaultObjectOuter n
          = .done (self.InitializeParser H FilePath, TargetObject, n))
    ∧ (self.InitializeParser H FilePath).JsonString = self.JsonString := by
  have hinit : self.InitializeParser H FilePath = { self with bIsValidFile := false } := by
    simp [DlgJsonParser.InitializeParser, hload]
  refine ⟨by rw [hinit], ?_, by rw [hinit]⟩
  intro H1 fuel ReferenceClass TargetObject InDefaultObjectOuter n
  rw [hinit]
  simp [DlgJsonParser.ReadAllProperty, DlgJsonParser.IsValidFile]

/-- Witness of C20: the sample host loads no file; a read into a structure with the
integer property `A` leaves the target as it was. -/
theorem failed_load_stops_read_witness :
    sampleHost.LoadFileToString "Dialogue.json" = none
    ∧ (sampleParser.InitializeParser sampleHost "Dialogue.json").bIsValidFile = false
    ∧ (sampleParser.InitializeParser sampleHost "Dialogue.json").ReadAllProperty sampleHost 3
        (.ScriptStruct (.mk "Sample" false false [numberA])) (.struct [[Val.int 3]]) none 0
      = .done (sampleParser.InitializeParser sampleHost "Dialogue.json", .struct [[Val.int 3]], 0) :=
  ⟨rfl, (failed_load_stops_read sampleParser sampleHost "Dialogue.json" rfl).1,
    (failed_load_stops_read sampleParser sampleHost "Dialogue.json" rfl).2.1 sampleHost 3
      (.ScriptStruct (.mk "Sample" false false [numberA])) (.struct [[Val.int 3]]) none 0⟩


/-! ## C21 to C23: behaviours the code shows beyond the spec -/

/-- C21: in `JsonValueToUProperty`, a JSON array given to a property that is not a dynamic
array and has `ArrayDim` 1 is read as native-array input. The empty array returns true
with the region as it was. Of a non-empty array only item 0 is used: the call is the
scalar conversion of item 0 into element 0 of the region, with its success flag, and the
items after it do not enter the result. -/
theorem json_array_on_single_slot_reads_item_zero (self : DlgJsonParser) (H : Host)
    (fuel : Nat) (Property : UProperty) (OutValue : Region) (n : Nat)
    (hnot : Property.IsArrayProperty = false) (hdim : Property.ArrayDim = 1) :
    self.JsonValueToUProperty H (fuel + 1) (Json.array []) Property OutValue n
      = .done (true, OutValue, n)
    ∧ (∀ (x : Json) (rest : List Json),
        self.JsonValueToUProperty H (fuel + 1) (Json.array (x :: rest)) Property OutValue n
          = ConvertAtOutValue self H (self.JsonValueToUProperty H fuel) x Property OutValue n)
    ∧ (∀ (x : Json) (rest : List Json) (ok : Bool) (v : Val) (n1 : Nat),
        self.ConvertScalarJsonValueToUProperty H (self.JsonValueToUProperty H fuel) x Property
            (Region.read OutValue 0) n = .done (ok, v, n1) →
        self.JsonValueToUProperty H (fuel + 1) (Json.array (x :: rest)) Property OutValue n
          = .done (ok, Region.write OutValue 0 v, n1))
    ∧ (∀ (x : Json) (rest rest1 : List Json),
        self.JsonValueToUProperty H (fuel + 1) (Json.array (x :: rest)) Property OutValue n
          = self.JsonValueToUProperty H (fuel + 1) (Json.array (x :: rest1)) Property OutValue n) := by
  have hitem : ∀ (x : Json) (rest : List Json),
      self.JsonValueToUProperty H (fuel + 1) (Json.array (x :: rest)) Property OutValue n
        = ConvertAtOutValue self H (self.JsonValueToUProperty H fuel) x Property OutValue n := by
    intro x rest
    simp only [DlgJsonParser.JsonValueToUProperty, DlgJsonParser.JsonValueToUPropertyBody, hnot,
      Bool.false_and, Bool.false_eq_true, if_false, hdim, List.length_cons]
    rw [Clamp_succ_one]
    simp only [List.take_succ_cons, List.take_zero, NativeArrayLoop, ConvertAtOutValue]
    cases hc : self.ConvertScalarJsonValueToUProperty H (self.JsonValueToUProperty H fuel) x
        Property (Region.read OutValue 0) n with
    | done a =>
      obtain ⟨ok, v, n1⟩ := a
      cases ok <;> rfl
    | assertFailed => rfl
    | outOfFuel => rfl
  refine ⟨?_, hitem, ?_, ?_⟩
  · simp [DlgJsonParser.JsonValueToUProperty, DlgJsonParser.JsonValueToUPropertyBody, hnot,
      NativeArrayLoop]
  · intro x rest ok v n1 hconv
    rw [hitem]
    simp [ConvertAtOutValue, hconv]
  · intro x rest rest1
    rw [hitem, hitem]

/-- Witness of C21: the integer property `A` given `[7, 8]` holds 7, and given `[]` is
left as it was. -/
theorem json_array_on_single_slot_reads_item_zero_witness :
    numberA.IsArrayProperty = false ∧ numberA.ArrayDim = 1
    ∧ sampleParser.JsonValueToUProperty sampleHost (0 + 1) (Json.array []) numberA
        [Val.int 3] 0 = .done (true, [Val.int 3], 0)
    ∧ sampleParser.JsonValueToUProperty sampleHost 1
        (Json.array [Json.number ⟨7, 0⟩, Json.number ⟨8, 0⟩]) numberA [Val.int 3] 0
      = .done (true, [Val.int 7], 0)
    ∧ sampleParser.JsonValueToUProperty sampleHost 1
        (Json.array [Json.string "Angry", Json.string "Happy"]) moodProperty [Val.int 0] 0
      = .done (false, [Val.int 0], 0) :=
  ⟨rfl, rfl,
    (json_array_on_single_slot_reads_item_zero sampleParser sampleHost 0 numberA [Val.int 3] 0
      rfl rfl).1, rfl, rfl⟩

/-- C22 (as amended): in `JsonAttributesToUStruct`, when the entry of the map whose key
equals the name of a property ignoring case has the value JSON null, the property is
skipped: the property loop goes on to the next property without calling the converter,
and when the fill returns the slot of the property has its content unchanged. The map
holds one entry for each key ignoring case, and for a document that repeats the key that
entry carries the value of the last occurrence: the property is skipped when the last
occurrence carries null, and it is converted from the value of the last occurrence when
that value is not null, whatever the earlier occurrences carry. -/
theorem null_entry_skips_property (self : DlgJsonParser) (H : Host) (Property : UProperty) :
    (∀ (attrs : JsonAttributes) (key : String),
      KeysDistinct attrs = true → (key, Json.null) ∈ attrs →
      EqualsIgnoreCase Property.GetName key = true →
      FindJsonValue Property.GetName attrs = some Json.null
      ∧ (∀ (rec : Converter) (rest : List UProperty) (Index : Nat) (t : Val) (n : Nat),
          PropertyLoop self.CheckFlags rec attrs (Property :: rest) Index t n
            = PropertyLoop self.CheckFlags rec attrs rest (Index + 1) t n)
      ∧ (∀ (fuel : Nat) (StructDefinition : UStruct) (t : Val) (n : Nat) (b : Bool) (t1 : Val)
          (n1 : Nat) (k : Nat),
          (RuntimeProperties H StructDefinition t)[k]? = some Property →
          self.Fill H fuel attrs StructDefinition t n = .done (b, t1, n1) →
          t1.readProperty k = t.readProperty k))
    ∧ (∀ (pre post : List (String × Json)) (key : String),
      EqualsIgnoreCase Property.GetName key = true →
      (∀ e ∈ post, EqualsIgnoreCase Property.GetName e.1 = false) →
      (∀ (rec : Converter) (rest : List UProperty) (Index : Nat) (t : Val) (n : Nat),
          PropertyLoop self.CheckFlags rec (FromMembers (pre ++ (key, Json.null) :: post))
              (Property :: rest) Index t n
            = PropertyLoop self.CheckFlags rec (FromMembers (pre ++ (key, Json.null) :: post))
              rest (Index + 1) t n)
      ∧ (∀ (fuel : Nat) (StructDefinition : UStruct) (t : Val) (n : Nat) (b : Bool) (t1 : Val)
          (n1 : Nat) (k : Nat),
          (RuntimeProperties H StructDefinition t)[k]? = some Property →
          self.Fill H fuel (FromMembers (pre ++ (key, Json.null) :: post)) StructDefinition t n
            = .done (b, t1, n1) →
          t1.readProperty k = t.readProperty k))
    ∧ (∀ (pre post : List (String × Json)) (key : String) (v : Json),
      EqualsIgnoreCase Property.GetName key = true →
      (∀ e ∈ post, EqualsIgnoreCase Property.GetName e.1 = false) →
      v.IsNull = false →
      (self.CheckFlags != 0 && !Property.HasAnyPropertyFlags self.CheckFlags) = false →
      MatchedValue self.CheckFlags (FromMembers (pre ++ (key, v) :: post)) Property = some v) := by
  have hskip : ∀ (attrs : JsonAttributes),
      FindJsonValue Property.GetName attrs = some Json.null →
      (∀ (rec : Converter) (rest : List UProperty) (Index : Nat) (t : Val) (n : Nat),
          PropertyLoop self.CheckFlags rec attrs (Property :: rest) Index t n
            = PropertyLoop self.CheckFlags rec attrs rest (Index + 1) t n)
      ∧ (∀ (fuel : Nat) (StructDefinition : UStruct) (t : Val) (n : Nat) (b : Bool) (t1 : Val)
          (n1 : Nat) (k : Nat),
          (RuntimeProperties H StructDefinition t)[k]? = some Property →
          self.Fill H fuel attrs StructDefinition t n = .done (b, t1, n1) →
          t1.readProperty k = t.readProperty k) := by
    intro attrs hfind
    have hm : MatchedValue self.CheckFlags attrs Property = none :=
      MatchedValue_none_of_unmatched (Or.inr hfind)
    refine ⟨?_, ?_⟩
    · intro rec rest Index t n
      exact PropertyLoop_cons_none hm rest Index t n
    · intro fuel StructDefinition t n b t1 n1 k hP hdone
      apply Fill_done_untouched hdone
      intro Q hQ
      rw [hP] at hQ
      cases hQ
      exact hm
  refine ⟨?_, ?_, ?_⟩
  · intro attrs key hd hmem hkey
    have hfind := FindJsonValue_of_mem hd hmem hkey
    exact ⟨hfind, hskip attrs hfind⟩
  · intro pre post key hkey hpost
    exact hskip _ (FindJsonValue_FromMembers_last _ pre post key Json.null hkey hpost)
  · intro pre post key v hkey hpost hnull hflags
    unfold MatchedValue
    rw [hflags, FindJsonValue_FromMembers_last _ pre post key v hkey hpost]
    simp [hnull]

/-- Witness of C22: the document `{"A": 2, "a": null, "text": "hi"}` leaves the integer
property `A` at 5, the last occurrence of its key carrying null, while the property
`text` is filled. -/
theorem null_entry_skips_property_witness :
    EqualsIgnoreCase numberA.GetName "a" = true
    ∧ (∀ e ∈ [("text", Json.string "hi")], EqualsIgnoreCase numberA.GetName e.1 = false)
    ∧ sampleParser.Fill sampleHost 1
        (FromMembers ([("A", Json.number ⟨2, 0⟩)] ++ ("a", Json.null)
          :: [("text", Json.string "hi")]))
        (.ScriptStruct (.mk "Sample" false false [numberA, textProperty]))
        (.struct [[Val.int 5], [Val.str "old"]]) 0
      = .done (true, .struct [[Val.int 5], [Val.str "hi"]], 0)
    ∧ (Val.struct [[Val.int 5], [Val.str "hi"]]).readProperty 0
      = (Val.struct [[Val.int 5], [Val.str "old"]]).readProperty 0 :=
  ⟨rfl,
    (by
      intro e he
      rw [List.mem_singleton.mp he]
      rfl),
    rfl,
    ((null_entry_skips_property sampleParser sampleHost numberA).2.1
      [("A", Json.number ⟨2, 0⟩)] [("text", Json.string "hi")] "a" rfl
      (by
        intro e he
        rw [List.mem_singleton.mp he]
        rfl)).2 1
      (.ScriptStruct (.mk "Sample" false false [numberA, textProperty]))
      (.struct [[Val.int 5], [Val.str "old"]]) 0 true
      (.struct [[Val.int 5], [Val.str "hi"]]) 0 0 rfl rfl⟩

/-- Counterexample to C22 as stated: in the document `{"A": null, "a": 2}` the first key
that matches the property `A` carries null and a later key that matches carries 2; the
map holds the single entry of the later key, and the property is not skipped: its slot
goes from 5 to 2. -/
theorem later_key_replaces_null_counterexample :
    EqualsIgnoreCase numberA.GetName "A" = true
    ∧ EqualsIgnoreCase numberA.GetName "a" = true
    ∧ FromMembers [("A", Json.null), ("a", Json.number ⟨2, 0⟩)] = [("a", Json.number ⟨2, 0⟩)]
    ∧ sampleParser.Fill sampleHost 1
        (FromMembers [("A", Json.null), ("a", Json.number ⟨2, 0⟩)])
        (.ScriptStruct (.mk "Sample" false false [numberA])) (.struct [[Val.int 5]]) 0
      = .done (true, .struct [[Val.int 2]], 0) :=
  ⟨rfl, rfl, rfl, rfl⟩

theorem ArrayLoop_congr_nonnull {rec rec1 : Converter} {Inner : UProperty}
    (hrec : ∀ (x : Json) (P : UProperty) (r : Region) (m : Nat), x.IsNull = false →
      rec1 x P r m = rec x P r m) :
    ∀ (items : List Json) (Index : Nat) (elems : List Val) (n : Nat),
      ArrayLoop rec1 Inner items Index elems n = ArrayLoop rec Inner items Index elems n := by
  intro items
  induction items with
  | nil =>
    intro Index elems n
    simp only [ArrayLoop]
  | cons x rest ih =>
    intro Index elems n
    simp only [ArrayLoop]
    split
    · exact ih _ _ _
    · rename_i hnull
      rw [hrec x Inner _ n (by simpa using hnull)]
      cases hc : rec x Inner [Region.read elems Index] n with
      | done a =>
        obtain ⟨ok, r, n1⟩ := a
        cases ok
        · rfl
        · exact ih _ _ _
      | assertFailed => rfl
      | outOfFuel => rfl

theorem ArrayLoop_all_null {rec : Converter} {Inner : UProperty} :
    ∀ (items : List Json) (Index : Nat) (elems : List Val) (n : Nat),
      (∀ x ∈ items, x.IsNull = true) →
      ArrayLoop rec Inner items Index elems n = .done (true, elems, n) := by
  intro items
  induction items with
  | nil =>
    intro Index elems n _
    simp only [ArrayLoop]
  | cons x rest ih =>
    intro Index elems n h
    simp only [ArrayLoop]
    rw [if_pos (h x (List.mem_cons_self x rest))]
    exact ih _ _ _ (fun y hy => h y (List.mem_cons_of_mem x hy))

theorem ArrayLoop_total {rec : Converter} {Inner : UProperty} :
    ∀ (items : List Json) (Index : Nat) (elems : List Val) (n : Nat),
      (∀ (k : Nat) (x : Json), items[k]? = some x → x.IsNull = false →
        ∀ m : Nat, ∃ (r : Region) (m1 : Nat),
          rec x Inner [Region.read elems (Index + k)] m = .done (true, r, m1)) →
      ∃ (elems1 : List Val) (n1 : Nat),
        ArrayLoop rec Inner items Index elems n = .done (true, elems1, n1) := by
  intro items
  induction items with
  | nil =>
    intro Index elems n _
    exact ⟨elems, n, by simp only [ArrayLoop]⟩
  | cons x rest ih =>
    intro Index elems n h
    have hidx : ∀ k : Nat, Index + (k + 1) = Index + 1 + k := fun k => by omega
    simp only [ArrayLoop]
    split
    · apply ih
      intro k y hk hy m
      have := h (k + 1) y (by simpa using hk) hy m
      rwa [hidx] at this
    · rename_i hnull
      obtain ⟨r, m1, hconv⟩ := h 0 x (by simp) (by simpa using hnull) n
      rw [Nat.add_zero] at hconv
      rw [hconv]
      apply ih
      intro k y hk hy m
      have := h (k + 1) y (by simpa using hk) hy m
      rw [hidx] at this
      rw [Region.read_write, if_neg (by omega)]
      exact this

theorem Resize_read (H : Host) (Inner : UProperty) (elems : List Val) (Num i : Nat)
    (hi : i < Num) :
    Region.read (Resize H Inner elems Num) i
      = if i < elems.length then Region.read elems i else H.DefaultValue Inner := by
  unfold Region.read Resize
  by_cases h : i < elems.length
  · rw [if_pos h]
    have h1 : i < (List.take Num elems).length := by
      rw [List.length_take]
      omega
    simp only [List.getD_eq_getElem?_getD]
    rw [List.getElem?_append_left h1, List.getElem?_take_of_lt hi]
  · rw [if_neg h]
    have h1 : (List.take Num elems).length ≤ i := by
      rw [List.length_take]
      omega
    simp only [List.getD_eq_getElem?_getD]
    rw [List.getElem?_append_right h1, List.length_take]
    have h2 : i - min Num elems.length < Num - elems.length := by omega
    rw [List.getElem?_replicate, if_pos h2]
    rfl

/-- C23: in the Array conversion a JSON null element is skipped. It is not passed to the
inner converter: the conversion gives the same outcome with every converter that agrees
with this one on the JSON values that are not null. It does not cause failure: an array of
nulls only returns true with the resized container, and when the conversion of every
non-null element returns true (from the content the resize left at its index, for
every value of the instance counter), the array conversion returns true. Whenever the
conversion returns, the container has as many elements as the JSON array, and each
position whose element is null holds what the resize left there: the element the
container had at that index if it had one, the default value of the inner property
otherwise. -/
theorem array_null_elements_are_skipped (self : DlgJsonParser) (H : Host) (rec : Converter)
    (Inner : UProperty) (name : String) (dim : Int) (flags : Nat) (ArrayValue : List Json)
    (OutValue : Val) (n : Nat) :
    (∀ rec1 : Converter,
      (∀ (x : Json) (P : UProperty) (r : Region) (m : Nat), x.IsNull = false →
        rec1 x P r m = rec x P r m) →
      self.ConvertScalarJsonValueToUProperty H rec1 (Json.array ArrayValue)
          (.mk name dim flags (.UArrayProperty Inner)) OutValue n
        = self.ConvertScalarJsonValueToUProperty H rec (Json.array ArrayValue)
          (.mk name dim flags (.UArrayProperty Inner)) OutValue n)
    ∧ ((∀ x ∈ ArrayValue, x.IsNull = true) →
      self.ConvertScalarJsonValueToUProperty H rec (Json.array ArrayValue)
          (.mk name dim flags (.UArrayProperty Inner)) OutValue n
        = .done (true, Val.array (Resize H Inner OutValue.arrayElems ArrayValue.length), n))
    ∧ ((∀ (i : Nat) (x : Json), ArrayValue[i]? = some x → x.IsNull = false →
        ∀ m : Nat, ∃ (r : Region) (m1 : Nat),
          rec x Inner [Region.read (Resize H Inner OutValue.arrayElems ArrayValue.length) i] m
            = .done (true, r, m1)) →
      ∃ (elems : List Val) (n1 : Nat),
        self.ConvertScalarJsonValueToUProperty H rec (Json.array ArrayValue)
            (.mk name dim flags (.UArrayProperty Inner)) OutValue n
          = .done (true, Val.array elems, n1))
    ∧ (∀ (ok : Bool) (v : Val) (n1 : Nat),
      self.ConvertScalarJsonValueToUProperty H rec (Json.array ArrayValue)
          (.mk name dim flags (.UArrayProperty Inner)) OutValue n = .done (ok, v, n1) →
      ∃ elems, v = Val.array elems ∧ elems.length = ArrayValue.length
        ∧ ∀ (i : Nat) (x : Json), ArrayValue[i]? = some x → x.IsNull = true →
          Region.read elems i
            = if i < OutValue.arrayElems.length then Region.read OutValue.arrayElems i
              else H.DefaultValue Inner) := by
  refine ⟨?_, ?_, ?_, ?_⟩
  · intro rec1 hrec
    simp only [DlgJsonParser.ConvertScalarJsonValueToUProperty, UProperty.Class]
    rw [ArrayLoop_congr_nonnull hrec]
  · intro hall
    simp only [DlgJsonParser.ConvertScalarJsonValueToUProperty, UProperty.Class]
    rw [ArrayLoop_all_null _ _ _ _ hall]
  · intro hconv
    obtain ⟨elems1, n1, hloop⟩ := @ArrayLoop_total rec Inner ArrayValue 0
      (Resize H Inner OutValue.arrayElems ArrayValue.length) n
      (by
        intro k x hk hx m
        rw [Nat.zero_add]
        exact hconv k x hk hx m)
    refine ⟨elems1, n1, ?_⟩
    simp only [DlgJsonParser.ConvertScalarJsonValueToUProperty, UProperty.Class]
    rw [hloop]
  · intro ok v n1 h
    simp only [DlgJsonParser.ConvertScalarJsonValueToUProperty, UProperty.Class] at h
    split at h
    · rename_i ok1 elems n2 hloop
      simp only [Outcome.done.injEq, Prod.mk.injEq] at h
      obtain ⟨hok, hv, _⟩ := h
      subst hok hv
      obtain ⟨hl, _, hnul, _, _⟩ := ArrayLoop_spec _ _ _ _ _ _ _ hloop
        (by rw [Resize_length]; omega)
      refine ⟨elems, rfl, by rw [hl, Resize_length], ?_⟩
      intro i x hi hx
      have h1 := hnul i x hi hx
      rw [Nat.zero_add] at h1
      rw [h1]
      apply Resize_read
      have := List.getElem?_eq_some_iff.mp hi
      exact this.1
    · cases h
    · cases h

/-- Witness of C23: `[null, "Happy", null]` into the array `[5]` of moods gives
`[5, 1, 0]`: position 0 keeps the 5 it had, position 2 holds the default 0. -/
theorem array_null_elements_are_skipped_witness :
    sampleParser.ConvertScalarJsonValueToUProperty sampleHost
        (sampleParser.JsonValueToUProperty sampleHost 1)
        (Json.array [Json.null, Json.string "Happy", Json.null]) moodsProperty
        (Val.array [Val.int 5]) 0
      = .done (true, Val.array [Val.int 5, Val.int 1, Val.int 0], 0)
    ∧ (∀ x ∈ [Json.null, Json.null], x.IsNull = true)
    ∧ sampleParser.ConvertScalarJsonValueToUProperty sampleHost
        (sampleParser.JsonValueToUProperty sampleHost 1)
        (Json.array [Json.null, Json.null]) (.mk "moods" 1 0 (.UArrayProperty moodProperty))
        (Val.array [Val.int 5]) 0
      = .done (true, Val.array (Resize sampleHost moodProperty
          (Val.array [Val.int 5]).arrayElems [Json.null, Json.null].length), 0)
    ∧ ∃ (elems : List Val) (n1 : Nat),
        sampleParser.ConvertScalarJsonValueToUProperty sampleHost
            (sampleParser.JsonValueToUProperty sampleHost 1)
            (Json.array [Json.null, Json.string "Happy", Json.null])
            (.mk "moods" 1 0 (.UArrayProperty moodProperty)) (Val.array [Val.int 5]) 0
          = .done (true, Val.array elems, n1) :=
  ⟨rfl,
    (by
      intro x hx
      simp only [List.mem_cons, List.mem_singleton, List.not_mem_nil, or_false, or_self] at hx
      rw [hx]
      rfl),
    (array_null_elements_are_skipped sampleParser sampleHost
      (sampleParser.JsonValueToUProperty sampleHost 1) moodProperty "moods" 1 0
      [Json.null, Json.null] (Val.array [Val.int 5]) 0).2.1
      (by
        intro x hx
        simp only [List.mem_cons, List.mem_singleton, List.not_mem_nil, or_false, or_self] at hx
        rw [hx]
        rfl),
    (array_null_elements_are_skipped sampleParser sampleHost
      (sampleParser.JsonValueToUProperty sampleHost 1) moodProperty "moods" 1 0
      [Json.null, Json.string "Happy", Json.null] (Val.array [Val.int 5]) 0).2.2.1
      (by
        intro i x hi hx m
        match i, hi with
        | 0, hi =>
          simp only [List.getElem?_cons_zero, Option.some.injEq] at hi
          subst hi
          cases hx
        | 1, hi =>
          simp only [List.getElem?_cons_succ, List.getElem?_cons_zero, Option.some.injEq] at hi
          subst hi
          exact ⟨[Val.int 1], m, rfl⟩
        | 2, hi =>
          simp only [List.getElem?_cons_succ, List.getElem?_cons_zero, Option.some.injEq] at hi
          subst hi
          cases hx
        | k + 3, hi =>
          simp at hi)⟩


end DlgSystem
